import Mathlib

/-!
# dapico-tools: ELF reader, load planner, loaders and reboot tools

A shallow embedding of the ELF reader (`src/elf/elf_file.cpp` and, separately,
`src/load_tool/src/elf.cc`), of the dry-run load planner
(`src/dapico-load/src/dryrun.cpp`), of the two loaders
(`src/load_tool/src/main.cpp`, `src/load_tool_iokit/src/main.cpp`) and of the
two reboot tools (`src/reboot_tool/src/main.cpp`,
`src/dapico-reboot/src/main.cpp`).

Conventions of the embedding:

* `uint8_t` is `Fin 256`; `uint16_t` / `uint32_t` values are natural numbers
  and every C++ operation that can leave the type's range is followed by an
  explicit reduction (`u16`, `u32`);
* `size_t` is 64 bits wide (`size_t_wrap`), as on the hosts the tools are built
  for;
* a `throw failure_error(code, ...)` is `Except.error code`;
* a run of a tool that talks to a device is the list of USB calls it makes and
  its exit code, against a transport that answers each call as a function of
  the calls made so far;
* constants that come from headers outside the repository are parameters.
-/

namespace Dapico

/-! ## Machine integers -/

/-- One `uint8_t`. -/
abbrev Byte := Fin 256

/-- Reduction of a natural number to `uint16_t`. -/
def u16 (n : Nat) : Nat := n % 2 ^ 16

/-- Reduction of a natural number to `uint32_t`. -/
def u32 (n : Nat) : Nat := n % 2 ^ 32

/-- Reduction of a natural number to a 64-bit `size_t`. -/
def size_t_wrap (n : Nat) : Nat := n % 2 ^ 64

/-! ## errors.h -/

/-- The `error_code` enumeration of `src/errors/errors.h`. -/
inductive error_code where
  | ERROR_UNKNOWN
  | ERROR_FORMAT
  | ERROR_READ_FAILED
  deriving DecidableEq, Repr

/-! ## elf.h -/

/-- The decoded fields of the ELF header (`struct elf32_header`). -/
structure elf32_header where
  entry : Nat
  phoff : Nat
  phentsize : Nat
  phnum : Nat
  deriving DecidableEq, Repr

/-- One program-header entry (`struct elf32_ph_entry`). -/
structure elf32_ph_entry where
  type : Nat
  offset : Nat
  vaddr : Nat
  paddr : Nat
  filez : Nat
  memsz : Nat
  flags : Nat
  align : Nat
  deriving DecidableEq, Repr

/-- The member `elf32_ph_entry::is_load`. -/
def elf32_ph_entry.is_load (segment : elf32_ph_entry) : Bool := segment.type == 1

/-- The state of an `elf_file` object after a successful `read_file`:
`header_`, `segments_` and the backing bytes `data_`. -/
structure elf_file where
  header : elf32_header
  segments : List elf32_ph_entry
  data : List Byte
  deriving DecidableEq, Repr

/-! ## elf_file.cpp -/

def kElfHeaderSize : Nat := 52
def kIdentSize : Nat := 16
def kElfClass32 : Nat := 1
def kElfDataLittleEndian : Nat := 1

/-- The element `data[i]` of the byte vector, widened to an unsigned integer.
Every use in the reader sits behind a bounds check; the default is never
observed there. -/
def byte_at (data : List Byte) (i : Nat) : Nat := (data.getD i 0).val

/-- The helper `read_u16` of `elf_file.cpp`. -/
def read_u16 (data : List Byte) (offset : Nat) : Except error_code Nat :=
  if size_t_wrap (offset + 2) > data.length then
    .error .ERROR_FORMAT
  else
    .ok (u16 (u16 (byte_at data offset) ||| (u16 (byte_at data (offset + 1)) <<< 8)))

/-- The helper `read_u32` of `elf_file.cpp`. -/
def read_u32 (data : List Byte) (offset : Nat) : Except error_code Nat :=
  if size_t_wrap (offset + 4) > data.length then
    .error .ERROR_FORMAT
  else
    .ok (u32 (u32 (byte_at data offset) |||
              u32 (u32 (byte_at data (offset + 1)) <<< 8) |||
              u32 (u32 (byte_at data (offset + 2)) <<< 16) |||
              u32 (u32 (byte_at data (offset + 3)) <<< 24)))

/-- The body of the program-header loop of `read_file` for the entry that starts
at `base`: the explicit `base + 32` check, then the eight field reads. -/
def read_ph_entry (data : List Byte) (base : Nat) : Except error_code elf32_ph_entry :=
  if size_t_wrap (base + 32) > data.length then
    .error .ERROR_FORMAT
  else do
    let type ← read_u32 data (size_t_wrap (base + 0))
    let offset ← read_u32 data (size_t_wrap (base + 4))
    let vaddr ← read_u32 data (size_t_wrap (base + 8))
    let paddr ← read_u32 data (size_t_wrap (base + 12))
    let filez ← read_u32 data (size_t_wrap (base + 16))
    let memsz ← read_u32 data (size_t_wrap (base + 20))
    let flags ← read_u32 data (size_t_wrap (base + 24))
    let align ← read_u32 data (size_t_wrap (base + 28))
    pure { type := type, offset := offset, vaddr := vaddr, paddr := paddr,
           filez := filez, memsz := memsz, flags := flags, align := align }

/-- The loop `for (uint16_t i = 0; i < header_.phnum; ++i)` of `read_file`, entered
at index `i` with `remaining = phnum - i` iterations left.  The entries are
returned in the order in which `push_back` appends them. -/
def read_ph_table (data : List Byte) (phoff phentsize : Nat) :
    (remaining : Nat) → (i : Nat) → Except error_code (List elf32_ph_entry)
  | 0, _ => .ok []
  | remaining + 1, i => do
    let base := size_t_wrap (phoff + size_t_wrap (phentsize * i))
    let entry ← read_ph_entry data base
    let rest ← read_ph_table data phoff phentsize remaining (i + 1)
    pure (entry :: rest)

/-- The method `elf_file::read_file`, applied to the whole content of the stream.
An empty stream is the read failure "ELF file is empty".  The size of a
stream is a positive 64-bit `streamoff`, so it never exceeds `SIZE_MAX` and
the "ELF file too large" branch is not reachable; stream I/O errors are
outside the embedding. -/
def read_file (stream : List Byte) : Except error_code elf_file :=
  if stream.length = 0 then
    .error .ERROR_READ_FAILED
  else
    let data := stream
    if data.length < kElfHeaderSize then
      .error .ERROR_FORMAT
    else if byte_at data 0 ≠ 0x7f ∨ byte_at data 1 ≠ 0x45 ∨ byte_at data 2 ≠ 0x4c ∨
        byte_at data 3 ≠ 0x46 then
      .error .ERROR_FORMAT
    else if byte_at data 4 ≠ kElfClass32 then
      .error .ERROR_FORMAT
    else if byte_at data 5 ≠ kElfDataLittleEndian then
      .error .ERROR_FORMAT
    else do
      let entry ← read_u32 data 24
      let phoff ← read_u32 data 28
      let phentsize ← read_u16 data 42
      let phnum ← read_u16 data 44
      if phoff < kIdentSize ∨ phentsize = 0 then
        .error .ERROR_FORMAT
      else
        let ph_table_size := size_t_wrap (phentsize * phnum)
        if size_t_wrap (phoff + ph_table_size) > data.length then
          .error .ERROR_FORMAT
        else do
          let segments ← read_ph_table data phoff phentsize phnum 0
          pure { header := { entry := entry, phoff := phoff,
                             phentsize := phentsize, phnum := phnum },
                 segments := segments, data := data }

/-- The method `elf_file::content`.  The guard adds two `uint32_t` fields, so the
sum is reduced modulo `2 ^ 32` before it is compared with the vector's size.
Past the guard the source copies `[begin + offset, begin + offset + filez)`;
where that runs past the end of `data_` the C++ behaviour is undefined and
the embedding keeps the bytes that exist. -/
def content (elf : elf_file) (segment : elf32_ph_entry) : Except error_code (List Byte) :=
  if segment.filez = 0 then
    .ok []
  else if u32 (segment.offset + segment.filez) > elf.data.length then
    .error .ERROR_FORMAT
  else
    .ok ((elf.data.drop segment.offset).take segment.filez)

/-! ## dryrun.cpp: constants and helpers -/

def kFlashSectorSize : Nat := 4096
def kFlashPageSize : Nat := 256
def kFlashStart : Nat := 0x10000000
def kSramStart : Nat := 0x20000000
def kFlashEndRp2040 : Nat := 0x11000000
def kSramEndRp2040 : Nat := 0x20042000

/-- An address range (`struct Range`); `end_` is the source's field `end`. -/
structure Range where
  start : Nat
  end_ : Nat
  deriving DecidableEq, Repr

/-- The device-dependent bounds (`struct MemoryLayout`). -/
structure MemoryLayout where
  flash_end : Nat
  sram_end : Nat
  deriving DecidableEq, Repr

/-- The layout `run_dryrun` assumes: `MemoryLayout{kFlashEndRp2040, kSramEndRp2040}`. -/
def rp2040_layout : MemoryLayout :=
  { flash_end := kFlashEndRp2040, sram_end := kSramEndRp2040 }

/-- The bounds the two loaders hard-code in `is_flash_address`,
`is_sram_address` and `map_flash_to_sram`: `FLASH_END_RP2350` and
`SRAM_END_RP2350` of `src/model/addresses.h` (whose `FLASH_START` and
`SRAM_START` equal `kFlashStart` and `kSramStart`). -/
def rp2350_layout : MemoryLayout :=
  { flash_end := 0x14000000, sram_end := 0x20082000 }

/-- Bitwise complement of a `uint32_t`. -/
def u32_not (x : Nat) : Nat := 2 ^ 32 - 1 - u32 x

/-- The function `align_down`: `value & ~(align - 1)` on `uint32_t`. -/
def align_down (value align : Nat) : Nat :=
  value &&& u32_not (u32 (align + 2 ^ 32 - 1))

/-- The function `align_up`: `(value + align - 1) & ~(align - 1)` on `uint32_t`. -/
def align_up (value align : Nat) : Nat :=
  u32 (u32 (value + align) + 2 ^ 32 - 1) &&& u32_not (u32 (align + 2 ^ 32 - 1))

/-- The predicate `is_flash_address`. -/
def is_flash_address (addr : Nat) (layout : MemoryLayout) : Bool :=
  decide (addr ≥ kFlashStart) && decide (addr < layout.flash_end)

/-- The predicate `is_sram_address`. -/
def is_sram_address (addr : Nat) (layout : MemoryLayout) : Bool :=
  decide (addr ≥ kSramStart) && decide (addr < layout.sram_end)

/-- The function `segment_address`. -/
def segment_address (segment : elf32_ph_entry) : Nat :=
  if segment.paddr ≠ 0 then segment.paddr else segment.vaddr

/-- The function `map_flash_to_sram`.  The result is `some mapped_addr` when
the source returns `true` and `none` when it returns `false` (its callers
read the out-parameter only after `true`). -/
def map_flash_to_sram (addr size : Nat) (layout : MemoryLayout) : Option Nat :=
  if addr < kFlashStart then
    none
  else
    let offset := u32 (addr - kFlashStart)
    let mapped_addr := u32 (kSramStart + offset)
    if mapped_addr < kSramStart ∨ u32 (mapped_addr + size) > layout.sram_end then
      none
    else
      some mapped_addr

/-- The sweep of `merge_ranges` over the sorted ranges that follow the first:
`last` is `merged.back()`, the ranges before it are final and are emitted in
order. -/
def merge_sweep (last : Range) : List Range → List Range
  | [] => [last]
  | r :: rest =>
    if r.start ≤ last.end_ then
      merge_sweep { last with end_ := max last.end_ r.end_ } rest
    else
      last :: merge_sweep r rest

/-- The sweep started on a sorted list: nothing for the empty list, otherwise
`merged.push_back(ranges.front())` followed by the loop. -/
def merge_sorted : List Range → List Range
  | [] => []
  | r :: rest => merge_sweep r rest

/-- The `std::sort` call of `merge_ranges`, ascending by `start`.  `std::sort`
leaves the relative order of ranges with equal `start` unspecified; the
embedding fixes the order an insertion sort gives, and the properties proved
of the sweep below are stated for every list sorted by `start`. -/
def sort_ranges (ranges : List Range) : List Range :=
  ranges.insertionSort (fun a b => a.start ≤ b.start)

/-- The function `merge_ranges`. -/
def merge_ranges (ranges : List Range) : List Range :=
  merge_sorted (sort_ranges ranges)

/-! ## dryrun.cpp: the page map -/

/-- The container `std::map<uint32_t, std::vector<uint8_t>>`: its entries in
ascending key order, as iteration visits them. -/
abbrev PageMap := List (Nat × List Byte)

/-- The value `operator[]` yields for `key`: the stored vector, or the empty
vector for a key that was absent. -/
def page_get : PageMap → Nat → List Byte
  | [], _ => []
  | (k, page) :: rest, key => if key = k then page else page_get rest key

/-- Assignment through the reference `operator[]` returned: the entry for `key`
is replaced, or inserted at its place in key order. -/
def page_put : PageMap → Nat → List Byte → PageMap
  | [], key, value => [(key, value)]
  | (k, page) :: rest, key, value =>
    if key < k then (key, value) :: (k, page) :: rest
    else if key = k then (k, value) :: rest
    else (k, page) :: page_put rest key value

/-- One iteration of the page distribution loop for the byte `value` that goes
to `byte_addr`. -/
def store_byte (pages : PageMap) (byte_addr : Nat) (value : Byte) : PageMap :=
  let page_base := align_down byte_addr kFlashPageSize
  let page_offset := u32 (byte_addr + 2 ^ 32 - page_base)
  let page := page_get pages page_base
  let page := if page.isEmpty then List.replicate kFlashPageSize (0 : Byte) else page
  page_put pages page_base (page.set page_offset value)

/-- The page distribution loop `for (size_t i = 0; i < data.size(); ++i)`,
entered at index `i` with the bytes `data[i..]` still to place. -/
def store_bytes (addr : Nat) : List Byte → Nat → PageMap → PageMap
  | [], _, pages => pages
  | value :: rest, i, pages =>
    store_bytes addr rest (i + 1) (store_byte pages (u32 (addr + u32 i)) value)

/-! ## dryrun.cpp: segment planning -/

/-- The locals of `run_dryrun` that the segment loop fills. -/
structure PlanState where
  ram_segments : List (Nat × List Byte)
  flash_pages : PageMap
  flash_erase_ranges : List Range
  skipped_flash_segments : Bool
  mirrored_flash_segments : Bool
  deriving DecidableEq, Repr

/-- The state before the first segment. -/
def PlanState.init : PlanState :=
  { ram_segments := [], flash_pages := [], flash_erase_ranges := [],
    skipped_flash_segments := false, mirrored_flash_segments := false }

/-- What ends the segment loop early: an error of the ELF reader, or the
planner's own "ELF segment has no load address". -/
inductive plan_error where
  | elf (code : error_code)
  | no_load_address
  deriving DecidableEq, Repr

/-- The part of the loop body after `data` is known to be non-empty: the choice
between mirroring, skipping, flash planning and a plain RAM write. -/
def place_segment (layout : MemoryLayout) (allow_flash : Bool) (st : PlanState)
    (addr : Nat) (data : List Byte) : PlanState :=
  if is_flash_address addr layout then
    if !allow_flash then
      match map_flash_to_sram addr (u32 data.length) layout with
      | none => { st with skipped_flash_segments := true }
      | some mapped_addr =>
        { st with mirrored_flash_segments := true,
                  ram_segments := st.ram_segments ++ [(mapped_addr, data)] }
    else
      let end_ := u32 (addr + u32 data.length)
      let erase_start := align_down addr kFlashSectorSize
      let erase_end := align_up end_ kFlashSectorSize
      { st with flash_erase_ranges := st.flash_erase_ranges ++ [⟨erase_start, erase_end⟩],
                flash_pages := store_bytes addr data 0 st.flash_pages }
  else
    { st with ram_segments := st.ram_segments ++ [(addr, data)] }

/-- The body of `for (const auto &segment : elf.segments())`. -/
def plan_segment (layout : MemoryLayout) (allow_flash : Bool) (elf : elf_file)
    (st : PlanState) (segment : elf32_ph_entry) : Except plan_error PlanState :=
  if !segment.is_load || segment.filez == 0 then
    .ok st
  else
    let addr := segment_address segment
    if addr = 0 then
      .error .no_load_address
    else
      match content elf segment with
      | .error code => .error (.elf code)
      | .ok data =>
        if data.isEmpty then .ok st
        else .ok (place_segment layout allow_flash st addr data)

/-- The segment loop, run over `segments` from the state `st`. -/
def plan_segments (layout : MemoryLayout) (allow_flash : Bool) (elf : elf_file) :
    PlanState → List elf32_ph_entry → Except plan_error PlanState
  | st, [] => .ok st
  | st, segment :: rest =>
    match plan_segment layout allow_flash elf st segment with
    | .error e => .error e
    | .ok st' => plan_segments layout allow_flash elf st' rest

/-! ## dryrun.cpp: the trace -/

/-- One "would ..." line of the dry run, i.e. one operation of the plan.  The
RAM and flash write lines print the address and the size of the bytes carried
here. -/
inductive PlanOp where
  | ExitXip
  | FlashErase (start end_ : Nat)
  | RamWrite (addr : Nat) (data : List Byte)
  | FlashWrite (page_base : Nat) (data : List Byte)
  | Exec (addr : Nat)
  deriving DecidableEq, Repr

/-- Lines 164-183 of `run_dryrun`: exit-XIP and the merged erase ranges when
there is a flash page, then the RAM writes, then the flash pages. -/
def emit_writes (st : PlanState) : List PlanOp :=
  (if !st.flash_pages.isEmpty then
     PlanOp.ExitXip ::
       (merge_ranges st.flash_erase_ranges).map (fun range => PlanOp.FlashErase range.start range.end_)
   else []) ++
  st.ram_segments.map (fun segment => PlanOp.RamWrite segment.1 segment.2) ++
  st.flash_pages.map (fun page => PlanOp.FlashWrite page.1 page.2)

/-- Why exec planning returns 1. -/
inductive exec_failure where
  | entry_zero
  | entry_unmappable
  | entry_out_of_range
  deriving DecidableEq, Repr

/-- Lines 186-204 of `run_dryrun`: the address to execute at, or the failure. -/
def plan_exec (layout : MemoryLayout) (allow_flash : Bool) (entry_point : Nat) :
    Except exec_failure Nat :=
  if entry_point = 0 then
    .error .entry_zero
  else
    let exec_addr := entry_point
    if !allow_flash && is_flash_address entry_point layout then
      match map_flash_to_sram entry_point 4 layout with
      | some mapped_addr => .ok mapped_addr
      | none => .error .entry_unmappable
    else if !allow_flash && !is_sram_address entry_point layout &&
        !is_flash_address entry_point layout then
      .error .entry_out_of_range
    else
      .ok exec_addr

/-- What a dry run produces: the operations it printed, the two message flags
as the segment loop left them (`false` when the loop was left by an
exception), and the exit code. -/
structure DryRun where
  trace : List PlanOp
  mirrored : Bool
  skipped : Bool
  exit_code : Nat
  deriving DecidableEq, Repr

/-- The part of `run_dryrun` after the ELF file has been read: the segment
loop, the empty-plan check, the trace and exec planning, for any layout. -/
def plan_elf (layout : MemoryLayout) (elf : elf_file) (allow_flash exec_after : Bool) : DryRun :=
  match plan_segments layout allow_flash elf PlanState.init elf.segments with
  | .error _ => { trace := [], mirrored := false, skipped := false, exit_code := 1 }
  | .ok st =>
    if !allow_flash && st.flash_pages.isEmpty && st.ram_segments.isEmpty then
      { trace := [], mirrored := st.mirrored_flash_segments,
        skipped := st.skipped_flash_segments, exit_code := 1 }
    else
      let trace := emit_writes st
      if exec_after then
        match plan_exec layout allow_flash elf.header.entry with
        | .error _ =>
          { trace := trace, mirrored := st.mirrored_flash_segments,
            skipped := st.skipped_flash_segments, exit_code := 1 }
        | .ok exec_addr =>
          { trace := trace ++ [PlanOp.Exec exec_addr], mirrored := st.mirrored_flash_segments,
            skipped := st.skipped_flash_segments, exit_code := 0 }
      else
        { trace := trace, mirrored := st.mirrored_flash_segments,
          skipped := st.skipped_flash_segments, exit_code := 0 }

/-- The function `run_dryrun`, applied to the content of the file. -/
def run_dryrun (stream : List Byte) (allow_flash exec_after : Bool) : DryRun :=
  match read_file stream with
  | .error _ => { trace := [], mirrored := false, skipped := false, exit_code := 1 }
  | .ok elf => plan_elf rp2040_layout elf allow_flash exec_after

/-! ## Constants from headers outside the repository -/

/-- The constants the tools take from headers that are not part of the
repository: `libusb.h`, the IOKit SDK, and the pico-sdk headers
`boot/picoboot.h` and `pico/stdio_usb/reset_interface.h`.  They are parameters
of the embedding. -/
structure ExternalConstants where
  LIBUSB_ENDPOINT_IN : Nat
  RESET_INTERFACE_SUBCLASS : Nat
  RESET_INTERFACE_PROTOCOL : Nat
  kIOReturnSuccess : Int
  kIOReturnNoDevice : Int
  kIOReturnError : Int
  PICOBOOT_OK : Nat
  PICOBOOT_REBOOTING : Nat
  deriving DecidableEq, Repr

def kVendorIdRaspberryPi : Nat := 0x2e8a
def kProductIdRp2040UsbBoot : Nat := 0x0003
def kProductIdRp2350UsbBoot : Nat := 0x000f
def kProductIdRp2040StdioUsb : Nat := 0x000a
def kProductIdRp2350StdioUsb : Nat := 0x0009

/-! ## Device enumeration with libusb (load_tool, reboot_tool) -/

/-- The fields of `libusb_endpoint_descriptor` the tools read. -/
structure libusb_endpoint_descriptor where
  bEndpointAddress : Nat
  bmAttributes : Nat
  deriving DecidableEq, Repr

/-- The fields of `libusb_interface_descriptor` the tools read; `endpoint` is
the array of `bNumEndpoints` endpoint descriptors. -/
structure libusb_interface_descriptor where
  bInterfaceNumber : Nat
  bInterfaceClass : Nat
  bInterfaceSubClass : Nat
  bInterfaceProtocol : Nat
  bNumEndpoints : Nat
  endpoint : List libusb_endpoint_descriptor
  deriving DecidableEq, Repr

/-- A `libusb_interface`: its alternate settings (`num_altsetting` is the
length of the list). -/
structure libusb_interface where
  altsetting : List libusb_interface_descriptor
  deriving DecidableEq, Repr

/-- The fields of `libusb_device_descriptor` the tools read. -/
structure libusb_device_descriptor where
  idVendor : Nat
  idProduct : Nat
  deriving DecidableEq, Repr

/-- What libusb reports of one device of the list: its device descriptor
(`none` when `libusb_get_device_descriptor` fails) and the interfaces of its
active configuration (`none` when `libusb_get_active_config_descriptor`
fails). -/
structure libusb_device where
  descriptor : Option libusb_device_descriptor
  config : Option (List libusb_interface)
  deriving DecidableEq, Repr

/-- The function `is_picoboot_interface` of `load_tool` and `reboot_tool`: `none`
for `false`, `some (ep_in, ep_out)` for `true`.  The loop visits the first
`bNumEndpoints` endpoint descriptors. -/
def is_picoboot_interface (c : ExternalConstants) (desc : libusb_interface_descriptor) :
    Option (Nat × Nat) :=
  if desc.bInterfaceClass ≠ 0xff ∨ desc.bNumEndpoints ≠ 2 then
    none
  else
    let eps := (desc.endpoint.take desc.bNumEndpoints).foldl
      (fun (ep : Nat × Nat) (endpoint : libusb_endpoint_descriptor) =>
        if endpoint.bEndpointAddress &&& c.LIBUSB_ENDPOINT_IN ≠ 0 then
          (endpoint.bEndpointAddress, ep.2)
        else
          (ep.1, endpoint.bEndpointAddress))
      (0, 0)
    if eps.1 ≠ 0 ∧ eps.2 ≠ 0 then some eps else none

/-- The `struct PicobootInterface` of the libusb tools. -/
structure PicobootInterface where
  interface_number : Nat
  ep_in : Nat
  ep_out : Nat
  deriving DecidableEq, Repr

/-- The `struct ResetInterface` of `reboot_tool`. -/
structure ResetInterface where
  interface_number : Nat
  deriving DecidableEq, Repr

/-- The `struct DeviceMatch` of `load_tool`; `device` is the position of the
matched device in the device list. -/
structure LoaderDeviceMatch where
  device : Nat
  picoboot : PicobootInterface
  deriving DecidableEq, Repr

/-- The `struct DeviceMatch` of `reboot_tool`; `device` is the position of the
matched device in the device list. -/
structure RebootDeviceMatch where
  device : Nat
  product_id : Nat
  picoboot : Option PicobootInterface
  reset : Option ResetInterface
  deriving DecidableEq, Repr

/-- The interface loop of `load_tool`'s `find_device`: the first interface
whose alternate setting 0 is a PICOBOOT interface. -/
def load_tool_scan_interfaces (c : ExternalConstants) :
    List libusb_interface → Option PicobootInterface
  | [] => none
  | interface :: rest =>
    match interface.altsetting with
    | [] => load_tool_scan_interfaces c rest
    | alt :: _ =>
      match is_picoboot_interface c alt with
      | none => load_tool_scan_interfaces c rest
      | some (ep_in, ep_out) =>
        some { interface_number := alt.bInterfaceNumber, ep_in := ep_in, ep_out := ep_out }

/-- The device loop of `load_tool`'s `find_device`, entered at list index
`idx`. -/
def load_tool_find_device_from (c : ExternalConstants) :
    List libusb_device → Nat → Option LoaderDeviceMatch
  | [], _ => none
  | device :: rest, idx =>
    match device.descriptor with
    | none => load_tool_find_device_from c rest (idx + 1)
    | some desc =>
      if desc.idVendor ≠ kVendorIdRaspberryPi then
        load_tool_find_device_from c rest (idx + 1)
      else if desc.idProduct ≠ kProductIdRp2040UsbBoot ∧
          desc.idProduct ≠ kProductIdRp2350UsbBoot then
        load_tool_find_device_from c rest (idx + 1)
      else
        match device.config with
        | none => load_tool_find_device_from c rest (idx + 1)
        | some interfaces =>
          match load_tool_scan_interfaces c interfaces with
          | some picoboot => some { device := idx, picoboot := picoboot }
          | none => load_tool_find_device_from c rest (idx + 1)

/-- The function `find_device` of `load_tool`, applied to the device list
libusb returns. -/
def load_tool_find_device (c : ExternalConstants) (devices : List libusb_device) :
    Option LoaderDeviceMatch :=
  load_tool_find_device_from c devices 0

/-- The interface loop of `reboot_tool`'s `find_device`: every interface is
visited; a reset interface sets `candidate.reset`, any other interface that
is a PICOBOOT interface sets `candidate.picoboot`. -/
def reboot_tool_scan_interfaces (c : ExternalConstants) :
    List libusb_interface → Option PicobootInterface × Option ResetInterface →
      Option PicobootInterface × Option ResetInterface
  | [], candidate => candidate
  | interface :: rest, candidate =>
    match interface.altsetting with
    | [] => reboot_tool_scan_interfaces c rest candidate
    | alt :: _ =>
      if alt.bInterfaceClass = 0xff ∧ alt.bInterfaceSubClass = c.RESET_INTERFACE_SUBCLASS ∧
          alt.bInterfaceProtocol = c.RESET_INTERFACE_PROTOCOL then
        reboot_tool_scan_interfaces c rest
          (candidate.1, some { interface_number := alt.bInterfaceNumber })
      else
        match is_picoboot_interface c alt with
        | some (ep_in, ep_out) =>
          reboot_tool_scan_interfaces c rest
            (some { interface_number := alt.bInterfaceNumber, ep_in := ep_in, ep_out := ep_out },
              candidate.2)
        | none => reboot_tool_scan_interfaces c rest candidate

/-- The device loop of `reboot_tool`'s `find_device`, entered at list index
`idx`. -/
def reboot_tool_find_device_from (c : ExternalConstants) :
    List libusb_device → Nat → Option RebootDeviceMatch
  | [], _ => none
  | device :: rest, idx =>
    match device.descriptor with
    | none => reboot_tool_find_device_from c rest (idx + 1)
    | some desc =>
      if desc.idVendor ≠ kVendorIdRaspberryPi then
        reboot_tool_find_device_from c rest (idx + 1)
      else
        match device.config with
        | none => reboot_tool_find_device_from c rest (idx + 1)
        | some interfaces =>
          let candidate := reboot_tool_scan_interfaces c interfaces (none, none)
          if candidate.1.isSome ∨ candidate.2.isSome then
            some { device := idx, product_id := desc.idProduct,
                   picoboot := candidate.1, reset := candidate.2 }
          else
            reboot_tool_find_device_from c rest (idx + 1)

/-- The function `find_device` of `reboot_tool`, applied to the device list
libusb returns. -/
def reboot_tool_find_device (c : ExternalConstants) (devices : List libusb_device) :
    Option RebootDeviceMatch :=
  reboot_tool_find_device_from c devices 0

/-- The function `is_supported_product` of `dapico-reboot`. -/
def is_supported_product (product_id : Nat) : Bool :=
  product_id == kProductIdRp2040UsbBoot || product_id == kProductIdRp2350UsbBoot ||
    product_id == kProductIdRp2040StdioUsb || product_id == kProductIdRp2350StdioUsb

/-! ## The load run: USB calls and the transport -/

/-- One USB operation of a load run.  `open_device`, `claim_interface` and
`if_reset` are the calls that precede the plan; the remaining constructors are
one call each of `picoboot_exit_xip`, `picoboot_flash_erase`, `picoboot_write`
(with the `size` bytes it sends from `buffer`), `picoboot_exec` 's EXEC command
and `picoboot_get_cmd_status`. -/
inductive UsbCall where
  | open_device (device : Nat)
  | claim_interface (interface_number : Nat)
  | if_reset (interface_number : Nat)
  | exit_xip
  | flash_erase (addr size : Nat)
  | write (addr : Nat) (data : List Byte)
  | exec (addr : Nat)
  | cmd_status
  deriving DecidableEq, Repr

/-- The behaviour of the USB stack and the device during a run, as a function
of the calls made so far, the last of which is the call being answered: the
return code of that call and, for an `IF_CMD_STATUS` request, whether the whole
status structure was transferred (`wLenDone == sizeof(status)`) and the
`dStatusCode` it holds. -/
structure Transport where
  result : List UsbCall → Int
  status_complete : List UsbCall → Bool
  status_code : List UsbCall → Nat

/-- What a load run did: the USB calls it made, in order, and its exit code. -/
structure LoadRun where
  calls : List UsbCall
  exit_code : Nat
  deriving DecidableEq, Repr

/-- The loop `for (const auto &range : merged_ranges)` of both loaders.  `ret`
is the variable of `main`; `success` is 0 in `load_tool` and
`kIOReturnSuccess` in `load_tool_iokit`. -/
def erase_loop (t : Transport) (success : Int) :
    List Range → List UsbCall → Int → List UsbCall × Int
  | [], log, ret => (log, ret)
  | range :: rest, log, _ =>
    let log' := log ++ [UsbCall.flash_erase range.start (u32 (range.end_ + 2 ^ 32 - range.start))]
    let ret := t.result log'
    if ret ≠ success then (log', ret) else erase_loop t success rest log' ret

/-- The chunking loop `for (size_t offset = 0; offset < data.size();)` of both
loaders, entered with the given `offset`.  The recursion is well-founded
because every chunk holds at least one byte. -/
def write_chunks (t : Transport) (success : Int) (addr : Nat) (data : List Byte)
    (offset : Nat) (log : List UsbCall) (ret : Int) : List UsbCall × Int :=
  if offset < data.length then
    let chunk_size := u32 (min 1024 (data.length - offset))
    let log' := log ++
      [UsbCall.write (u32 (addr + u32 offset)) ((data.drop offset).take chunk_size)]
    let ret' := t.result log'
    if ret' ≠ success then (log', ret')
    else write_chunks t success addr data (offset + chunk_size) log' ret'
  else (log, ret)
termination_by data.length - offset
decreasing_by
  simp_wf
  unfold u32
  omega

/-- The loop `for (const auto &segment : ram_segments)` of both loaders. -/
def ram_loop (t : Transport) (success : Int) :
    List (Nat × List Byte) → List UsbCall → Int → List UsbCall × Int
  | [], log, ret => (log, ret)
  | segment :: rest, log, ret =>
    let r := write_chunks t success segment.1 segment.2 0 log ret
    if r.2 ≠ success then r else ram_loop t success rest r.1 r.2

/-- The loop `for (const auto &page : flash_pages)` of both loaders: one
`picoboot_write` of `kFlashPageSize` bytes per page. -/
def page_loop (t : Transport) (success : Int) :
    PageMap → List UsbCall → Int → List UsbCall × Int
  | [], log, ret => (log, ret)
  | page :: rest, log, _ =>
    let log' := log ++ [UsbCall.write page.1 (page.2.take kFlashPageSize)]
    let ret := t.result log'
    if ret ≠ success then (log', ret) else page_loop t success rest log' ret

/-- The part both loaders share after the empty-plan check: EXIT_XIP and the
erases when there is a flash page, then the RAM writes, then the flash pages,
the last two each guarded by `ret == success`. -/
def execute_writes (t : Transport) (success : Int) (st : PlanState) (log : List UsbCall) :
    List UsbCall × Int :=
  let r1 :=
    if !st.flash_pages.isEmpty then
      let log1 := log ++ [UsbCall.exit_xip]
      erase_loop t success (merge_ranges st.flash_erase_ranges) log1 (t.result log1)
    else (log, success)
  let r2 := if r1.2 = success then ram_loop t success st.ram_segments r1.1 r1.2 else r1
  if r2.2 = success then page_loop t success st.flash_pages r2.1 r2.2 else r2

/-! ## load_tool (libusb): planning and `main` -/

/-- The placement part of `load_tool`'s segment loop: a flash segment is skipped
when flash writes are not allowed; `is_flash_address` uses the RP2350 bound. -/
def load_tool_place_segment (allow_flash : Bool) (st : PlanState)
    (addr : Nat) (data : List Byte) : PlanState :=
  if is_flash_address addr rp2350_layout then
    if !allow_flash then
      { st with skipped_flash_segments := true }
    else
      let end_ := u32 (addr + u32 data.length)
      let erase_start := align_down addr kFlashSectorSize
      let erase_end := align_up end_ kFlashSectorSize
      { st with flash_erase_ranges := st.flash_erase_ranges ++ [⟨erase_start, erase_end⟩],
                flash_pages := store_bytes addr data 0 st.flash_pages }
  else
    { st with ram_segments := st.ram_segments ++ [(addr, data)] }

/-- The body of `load_tool`'s segment loop. -/
def load_tool_plan_segment (allow_flash : Bool) (elf : elf_file)
    (st : PlanState) (segment : elf32_ph_entry) : Except plan_error PlanState :=
  if !segment.is_load || segment.filez == 0 then
    .ok st
  else
    let addr := segment_address segment
    if addr = 0 then
      .error .no_load_address
    else
      match content elf segment with
      | .error code => .error (.elf code)
      | .ok data =>
        if data.isEmpty then .ok st
        else .ok (load_tool_place_segment allow_flash st addr data)

/-- The segment loop of `load_tool`. -/
def load_tool_plan_segments (allow_flash : Bool) (elf : elf_file) :
    PlanState → List elf32_ph_entry → Except plan_error PlanState
  | st, [] => .ok st
  | st, segment :: rest =>
    match load_tool_plan_segment allow_flash elf st segment with
    | .error e => .error e
    | .ok st' => load_tool_plan_segments allow_flash elf st' rest

/-- The `try` block of a loader's `main`: the file is opened (`none` when it
cannot be), read and planned with the given segment loop. -/
def parse_and_plan (plan : elf_file → Except plan_error PlanState) (file : Option (List Byte)) :
    Except plan_error (elf_file × PlanState) :=
  match file with
  | none => .error (.elf .ERROR_READ_FAILED)
  | some stream =>
    match read_file stream with
    | .error code => .error (.elf code)
    | .ok elf =>
      match plan elf with
      | .error e => .error e
      | .ok st => .ok (elf, st)

/-- The function `main` of `load_tool` from `find_device` on (argument parsing
and `libusb_init` precede it; releasing and closing are not recorded). -/
def load_tool_main (c : ExternalConstants) (devices : List libusb_device) (t : Transport)
    (file : Option (List Byte)) (allow_flash : Bool) : LoadRun :=
  match load_tool_find_device c devices with
  | none => { calls := [], exit_code := 1 }
  | some m =>
    let log1 := [UsbCall.open_device m.device]
    if t.result log1 ≠ 0 then
      { calls := log1, exit_code := 1 }
    else
      let log2 := log1 ++ [UsbCall.claim_interface m.picoboot.interface_number]
      if t.result log2 ≠ 0 then
        { calls := log2, exit_code := 1 }
      else
        let log3 := log2 ++ [UsbCall.if_reset m.picoboot.interface_number]
        match parse_and_plan
            (fun elf => load_tool_plan_segments allow_flash elf PlanState.init elf.segments)
            file with
        | .error _ => { calls := log3, exit_code := 1 }
        | .ok (_, st) =>
          if !allow_flash && st.flash_pages.isEmpty && st.ram_segments.isEmpty then
            { calls := log3, exit_code := 1 }
          else
            let r := execute_writes t 0 st log3
            { calls := r.1, exit_code := if r.2 = 0 then 0 else 1 }

/-! ## load_tool_iokit: `picoboot_exec` and `main` -/

/-- The function `picoboot_get_cmd_status`: the calls made, the value returned
and the status code read. -/
def picoboot_get_cmd_status (c : ExternalConstants) (t : Transport) (log : List UsbCall) :
    List UsbCall × Int × Nat :=
  let log' := log ++ [UsbCall.cmd_status]
  let ret := t.result log'
  if ret ≠ c.kIOReturnSuccess ∨ t.status_complete log' = false then
    (log', if ret ≠ c.kIOReturnSuccess then ret else c.kIOReturnError, t.status_code log')
  else
    (log', ret, t.status_code log')

/-- The function `picoboot_exec`: the calls made and the value returned. -/
def picoboot_exec (c : ExternalConstants) (t : Transport) (log : List UsbCall) (addr : Nat) :
    List UsbCall × Int :=
  let log1 := log ++ [UsbCall.exec addr]
  let ret := t.result log1
  if ret = c.kIOReturnSuccess ∨ ret = c.kIOReturnNoDevice then
    (log1, c.kIOReturnSuccess)
  else
    let status := picoboot_get_cmd_status c t log1
    if status.2.1 = c.kIOReturnSuccess then
      if status.2.2 = c.PICOBOOT_OK ∨ status.2.2 = c.PICOBOOT_REBOOTING then
        (status.1, c.kIOReturnSuccess)
      else
        (status.1, ret)
    else if status.2.1 = c.kIOReturnNoDevice then
      (status.1, c.kIOReturnSuccess)
    else
      (status.1, ret)

/-- Lines 571-600 of `load_tool_iokit`'s `main`: exec planning and the EXEC
command, entered with the calls made so far and `ret`. -/
def iokit_exec_stage (c : ExternalConstants) (t : Transport) (allow_flash exec_after : Bool)
    (entry_point : Nat) (r : List UsbCall × Int) : List UsbCall × Int :=
  if r.2 = c.kIOReturnSuccess ∧ exec_after = true then
    if entry_point = 0 then
      (r.1, c.kIOReturnError)
    else
      let planned : Nat × Int :=
        if !allow_flash && is_flash_address entry_point rp2350_layout then
          match map_flash_to_sram entry_point 4 rp2350_layout with
          | some mapped_addr => (mapped_addr, r.2)
          | none => (entry_point, c.kIOReturnError)
        else if !allow_flash && !is_sram_address entry_point rp2350_layout &&
            !is_flash_address entry_point rp2350_layout then
          (entry_point, c.kIOReturnError)
        else
          (entry_point, r.2)
      if planned.2 = c.kIOReturnSuccess then picoboot_exec c t r.1 planned.1
      else (r.1, planned.2)
  else r

/-- The function `main` of `load_tool_iokit` from `find_device` on.  The result
of `find_device` is an input: `none`, or the product id of the device it
matched, one of the two BOOTSEL ids (the source keeps no record of it), and the
number of its PICOBOOT interface.  `find_device` has opened that device.  The
segment loop is the dry run's with the RP2350 bounds. -/
def iokit_main (c : ExternalConstants) (found : Option (Nat × Nat)) (t : Transport)
    (file : Option (List Byte)) (allow_flash exec_after : Bool) : LoadRun :=
  match found with
  | none => { calls := [], exit_code := 1 }
  | some m =>
    let log := [UsbCall.open_device 0, UsbCall.if_reset m.2]
    match parse_and_plan
        (fun elf => plan_segments rp2350_layout allow_flash elf PlanState.init elf.segments)
        file with
    | .error _ => { calls := log, exit_code := 1 }
    | .ok (elf, st) =>
      if !allow_flash && st.flash_pages.isEmpty && st.ram_segments.isEmpty then
        { calls := log, exit_code := 1 }
      else
        let r := iokit_exec_stage c t allow_flash exec_after elf.header.entry
          (execute_writes t c.kIOReturnSuccess st log)
        { calls := r.1, exit_code := if r.2 = c.kIOReturnSuccess then 0 else 1 }

/-! ## Reference notions used in the statements -/

/-- The little-endian 16-bit value stored at `offset`. -/
def le16_at (data : List Byte) (offset : Nat) : Nat :=
  byte_at data offset + 256 * byte_at data (offset + 1)

/-- The little-endian 32-bit value stored at `offset`. -/
def le32_at (data : List Byte) (offset : Nat) : Nat :=
  byte_at data offset + 256 * byte_at data (offset + 1) +
    65536 * byte_at data (offset + 2) + 16777216 * byte_at data (offset + 3)

/-- The program-header entry whose eight little-endian words start at `base`. -/
def ph_entry_at (data : List Byte) (base : Nat) : elf32_ph_entry :=
  { type := le32_at data base, offset := le32_at data (base + 4),
    vaddr := le32_at data (base + 8), paddr := le32_at data (base + 12),
    filez := le32_at data (base + 16), memsz := le32_at data (base + 20),
    flags := le32_at data (base + 24), align := le32_at data (base + 28) }

/-- The header fields at their fixed offsets: `entry@24`, `phoff@28`,
`phentsize@42`, `phnum@44`. -/
def header_at (data : List Byte) : elf32_header :=
  { entry := le32_at data 24, phoff := le32_at data 28,
    phentsize := le16_at data 42, phnum := le16_at data 44 }

/-- The program-header table a header announces, entry `i` decoded at
`phoff + phentsize * i`. -/
def segments_at (data : List Byte) : List elf32_ph_entry :=
  (List.range (header_at data).phnum).map
    (fun i => ph_entry_at data ((header_at data).phoff + (header_at data).phentsize * i))

/-- The conditions under which the reader accepts an image: the invariants of
the ELF image, and room for the 32 decoded bytes of every table entry. -/
def image_accepted (data : List Byte) : Prop :=
  52 ≤ data.length ∧
  (byte_at data 0 = 0x7f ∧ byte_at data 1 = 0x45 ∧ byte_at data 2 = 0x4c ∧
    byte_at data 3 = 0x46) ∧
  byte_at data 4 = 1 ∧ byte_at data 5 = 1 ∧
  16 ≤ (header_at data).phoff ∧ (header_at data).phentsize ≠ 0 ∧
  (header_at data).phoff + (header_at data).phentsize * (header_at data).phnum ≤ data.length ∧
  ∀ i, i < (header_at data).phnum →
    (header_at data).phoff + (header_at data).phentsize * i + 32 ≤ data.length

/-- The order `std::sort` establishes: ascending `start`. -/
def by_start (a b : Range) : Prop := a.start ≤ b.start

/-- The loadable segments with non-empty bytes among `segments`, in input
order, each as its load address and its bytes. -/
def load_inputs (elf : elf_file) (segments : List elf32_ph_entry) : List (Nat × List Byte) :=
  segments.filterMap (fun segment =>
    if segment.type = 1 ∧ segment.filez ≠ 0 then
      match content elf segment with
      | .ok data => if data = [] then none else some (segment_address segment, data)
      | .error _ => none
    else none)

/-- The flash segments of an image: the loadable segments with non-empty bytes
whose load address is a flash address. -/
def flash_inputs (layout : MemoryLayout) (elf : elf_file) : List (Nat × List Byte) :=
  (load_inputs elf elf.segments).filter (fun p => is_flash_address p.1 layout)

/-- The segment loop's placement step, folded over address/bytes pairs. -/
def place_all (layout : MemoryLayout) (allow_flash : Bool) (st : PlanState)
    (inputs : List (Nat × List Byte)) : PlanState :=
  inputs.foldl (fun s p => place_segment layout allow_flash s p.1 p.2) st

/-- The erase range the flash branch records for a segment. -/
def erase_range_of (p : Nat × List Byte) : Range :=
  ⟨align_down p.1 kFlashSectorSize, align_up (u32 (p.1 + u32 p.2.length)) kFlashSectorSize⟩

/-- The RAM write a segment produces when flash writes are not allowed: at the
mirror address for a flash segment that fits, none for one that does not, and
at the load address for every other segment. -/
def ram_target (layout : MemoryLayout) (p : Nat × List Byte) : Option (Nat × List Byte) :=
  if is_flash_address p.1 layout then
    (map_flash_to_sram p.1 (u32 p.2.length) layout).map (fun mapped => (mapped, p.2))
  else some p

/-- The RAM write a segment produces, if any: with flash writes allowed, every
non-flash segment is written at its load address; without, see `ram_target`. -/
def ram_write_of (layout : MemoryLayout) (allow_flash : Bool) (p : Nat × List Byte) :
    Option (Nat × List Byte) :=
  if allow_flash then (if is_flash_address p.1 layout then none else some p)
  else ram_target layout p

/-- The keys of a page map, in iteration order. -/
def page_keys (pages : PageMap) : List Nat := pages.map Prod.fst

/-- The byte a segment places at the 32-bit address `a`, if it places one there:
byte `i` of a segment loaded at `addr` goes to address `(addr + i) mod 2 ^ 32`,
so the byte for `a` is the one at index `(a - addr) mod 2 ^ 32`.  For a
segment with `addr + len ≤ 2 ^ 32` these are the addresses `addr ≤ a < addr + len`
(`segment_byte_no_wrap`). -/
def segment_byte (p : Nat × List Byte) (a : Nat) : Option Byte :=
  p.2[u32 (a + 2 ^ 32 - u32 p.1)]?

/-- The reference image of a list of segments: the byte placed at address `a`
by the last segment, in input order, that covers `a`; `none` when no segment
covers `a`. -/
def image_byte : List (Nat × List Byte) → Nat → Option Byte
  | [], _ => none
  | p :: rest, a =>
    match image_byte rest a with
    | some b => some b
    | none => segment_byte p a

/-- A memory, as a partial map from addresses to bytes, after one more store. -/
def mem_after_store (f : Nat → Option Byte) (a : Nat) (value : Byte) : Nat → Option Byte :=
  fun x => if x = a then some value else f x

/-- A memory after the stores of the page distribution loop. -/
def mem_after_segment (f : Nat → Option Byte) (addr : Nat) :
    List Byte → Nat → (Nat → Option Byte)
  | [], _ => f
  | value :: rest, i =>
    mem_after_segment (mem_after_store f (u32 (addr + u32 i)) value) addr rest (i + 1)

/-- A page map represents a memory: its keys are strictly ascending and are the
bases of the 256-byte pages that hold a stored byte, every page has 256 bytes,
and every byte of a page is the stored byte, or zero where nothing was
stored. -/
def pages_match (pages : PageMap) (f : Nat → Option Byte) : Prop :=
  List.Sorted (· < ·) (page_keys pages) ∧
  (∀ k, k ∈ page_keys pages ↔
    (k % 256 = 0 ∧ k < 2 ^ 32 ∧ ∃ a, k ≤ a ∧ a < k + 256 ∧ (f a).isSome = true)) ∧
  (∀ k ∈ page_keys pages, (page_get pages k).length = 256) ∧
  (∀ k ∈ page_keys pages, ∀ j, j < 256 →
    (page_get pages k)[j]? = some ((f (k + j)).getD 0))

/-- The chunks of a RAM write from `offset` on: chunk `k` starts `1024 * k`
bytes further, at the 32-bit address `addr + offset + 1024 * k`, and holds up
to 1024 bytes. -/
def chunks_from (addr : Nat) (data : List Byte) (offset : Nat) : List (Nat × List Byte) :=
  (List.range ((data.length - offset + 1023) / 1024)).map
    (fun k => (u32 (addr + u32 (offset + 1024 * k)), (data.drop (offset + 1024 * k)).take 1024))

/-! ## Sample images -/

/-- The two bytes of `n`, least significant first. -/
def le16_bytes (n : Nat) : List Byte := [Fin.ofNat n, Fin.ofNat (n / 256)]

/-- The four bytes of `n`, least significant first. -/
def le32_bytes (n : Nat) : List Byte :=
  [Fin.ofNat n, Fin.ofNat (n / 256), Fin.ofNat (n / 65536), Fin.ofNat (n / 16777216)]

/-- A 52-byte ELF32 little-endian header with the given entry point that
announces `phnum` program headers of 32 bytes each at offset 52. -/
def sample_header (entry phnum : Nat) : List Byte :=
  [0x7f, 0x45, 0x4c, 0x46, 1, 1, 1, 0, 0, 0, 0, 0, 0, 0, 0, 0] ++
  le16_bytes 2 ++ le16_bytes 0x28 ++ le32_bytes 1 ++ le32_bytes entry ++ le32_bytes 52 ++
  le32_bytes 0 ++ le32_bytes 0 ++ le16_bytes 52 ++ le16_bytes 32 ++ le16_bytes phnum ++
  le16_bytes 0 ++ le16_bytes 0 ++ le16_bytes 0

/-- A 32-byte program header. -/
def sample_ph (type offset vaddr paddr filez : Nat) : List Byte :=
  le32_bytes type ++ le32_bytes offset ++ le32_bytes vaddr ++ le32_bytes paddr ++
  le32_bytes filez ++ le32_bytes filez ++ le32_bytes 5 ++ le32_bytes 4

/-- A small image: one `PT_LOAD` segment of four bytes at file offset 84, to be
loaded at `0x20000100`. -/
def small_image : List Byte :=
  sample_header 0x20000100 1 ++ sample_ph 1 84 0x20000100 0x20000100 4 ++ [0xde, 0xad, 0xbe, 0xef]

/-- The program header of `small_image`. -/
def small_segment : elf32_ph_entry :=
  { type := 1, offset := 84, vaddr := 0x20000100, paddr := 0x20000100, filez := 4, memsz := 4,
    flags := 5, align := 4 }

/-- The parsed form of `small_image`. -/
def small_elf : elf_file :=
  { header := { entry := 0x20000100, phoff := 52, phentsize := 32, phnum := 1 },
    segments := [small_segment], data := small_image }

/-- An 84-byte image whose only program header has `offset = 0xFFFFFFFF` and
`filez = 2`: the 32-bit sum of the two is 1. -/
def wrapping_image : List Byte :=
  sample_header 0x20000100 1 ++ sample_ph 1 0xFFFFFFFF 0x20000100 0x20000100 2

/-- The program header of `wrapping_image`. -/
def wrapping_segment : elf32_ph_entry :=
  { type := 1, offset := 0xFFFFFFFF, vaddr := 0x20000100, paddr := 0x20000100, filez := 2,
    memsz := 2, flags := 5, align := 4 }

/-- The parsed form of `wrapping_image`. -/
def wrapping_elf : elf_file :=
  { header := { entry := 0x20000100, phoff := 52, phentsize := 32, phnum := 1 },
    segments := [wrapping_segment], data := wrapping_image }

/-- An image with one flash segment of four bytes that straddles a page
boundary (`0x100000FE .. 0x10000102`) and one RAM segment of two bytes. -/
def flash_image : List Byte :=
  sample_header 0x10000101 2 ++ sample_ph 1 116 0x100000FE 0x100000FE 4 ++
    sample_ph 1 120 0x20000000 0x20000000 2 ++ [1, 2, 3, 4, 5, 6]

/-- The parsed form of `flash_image`. -/
def flash_elf : elf_file :=
  { header := { entry := 0x10000101, phoff := 52, phentsize := 32, phnum := 2 },
    segments :=
      [{ type := 1, offset := 116, vaddr := 0x100000FE, paddr := 0x100000FE, filez := 4,
         memsz := 4, flags := 5, align := 4 },
       { type := 1, offset := 120, vaddr := 0x20000000, paddr := 0x20000000, filez := 2,
         memsz := 2, flags := 5, align := 4 }],
    data := flash_image }

/-- The state the segment loop ends in (the initial state if it throws). -/
def planned (layout : MemoryLayout) (allow_flash : Bool) (elf : elf_file) : PlanState :=
  match plan_segments layout allow_flash elf PlanState.init elf.segments with
  | .ok st => st
  | .error _ => PlanState.init

/-- An image with one flash segment of four bytes at `0x10000000`, the start of
flash. -/
def mirror_image : List Byte :=
  sample_header 0x10000000 1 ++ sample_ph 1 84 0x10000000 0x10000000 4 ++ [9, 8, 7, 6]

/-- The program header of `mirror_image`. -/
def mirror_segment : elf32_ph_entry :=
  { type := 1, offset := 84, vaddr := 0x10000000, paddr := 0x10000000, filez := 4, memsz := 4,
    flags := 5, align := 4 }

/-- The parsed form of `mirror_image`. -/
def mirror_elf : elf_file :=
  { header := { entry := 0x10000000, phoff := 52, phentsize := 32, phnum := 1 },
    segments := [mirror_segment], data := mirror_image }

/-- An image with one flash segment of 1024 bytes at `0x10000000`. -/
def mirror_1k_image : List Byte :=
  sample_header 0x10000000 1 ++ sample_ph 1 84 0x10000000 0x10000000 1024 ++
    List.replicate 1024 0x5a

/-- The parsed form of `mirror_1k_image`. -/
def mirror_1k_elf : elf_file :=
  { header := { entry := 0x10000000, phoff := 52, phentsize := 32, phnum := 1 },
    segments := [{ mirror_segment with filez := 1024, memsz := 1024 }],
    data := mirror_1k_image }

/-- An image with one flash segment of four bytes that starts 16 bytes into the
page at `0x10000000`. -/
def midpage_image : List Byte :=
  sample_header 0x10000010 1 ++ sample_ph 1 84 0x10000010 0x10000010 4 ++ [1, 2, 3, 4]

/-- The parsed form of `midpage_image`. -/
def midpage_elf : elf_file :=
  { header := { entry := 0x10000010, phoff := 52, phentsize := 32, phnum := 1 },
    segments :=
      [{ type := 1, offset := 84, vaddr := 0x10000010, paddr := 0x10000010, filez := 4,
         memsz := 4, flags := 5, align := 4 }],
    data := midpage_image }

/-- An image with two flash segments: 300 bytes at `0x10000000` and 100 bytes
at `0x10000400`. -/
def two_flash_image : List Byte :=
  sample_header 0x10000000 2 ++ sample_ph 1 116 0x10000000 0x10000000 300 ++
    sample_ph 1 416 0x10000400 0x10000400 100 ++
    List.replicate 300 0xaa ++ List.replicate 100 0xbb

/-- The parsed form of `two_flash_image`. -/
def two_flash_elf : elf_file :=
  { header := { entry := 0x10000000, phoff := 52, phentsize := 32, phnum := 2 },
    segments :=
      [{ type := 1, offset := 116, vaddr := 0x10000000, paddr := 0x10000000, filez := 300,
         memsz := 300, flags := 5, align := 4 },
       { type := 1, offset := 416, vaddr := 0x10000400, paddr := 0x10000400, filez := 100,
         memsz := 100, flags := 5, align := 4 }],
    data := two_flash_image }

/-- An image with one RAM segment of 512 bytes at `0x20000100`, which is also
the entry point. -/
def sram_image : List Byte :=
  sample_header 0x20000100 1 ++ sample_ph 1 84 0x20000100 0x20000100 512 ++
    List.replicate 512 0x5a

/-- The program header of `sram_image`. -/
def sram_segment : elf32_ph_entry :=
  { type := 1, offset := 84, vaddr := 0x20000100, paddr := 0x20000100, filez := 512,
    memsz := 512, flags := 5, align := 4 }

/-- The parsed form of `sram_image`. -/
def sram_elf : elf_file :=
  { header := { entry := 0x20000100, phoff := 52, phentsize := 32, phnum := 1 },
    segments := [sram_segment], data := sram_image }

/-! ## Sample devices, transports and further images -/

/-- The values the external headers give the constants; used to evaluate the
tools on sample inputs. -/
def sample_constants : ExternalConstants :=
  { LIBUSB_ENDPOINT_IN := 0x80, RESET_INTERFACE_SUBCLASS := 0, RESET_INTERFACE_PROTOCOL := 1,
    kIOReturnSuccess := 0, kIOReturnNoDevice := -536870208, kIOReturnError := -536870212,
    PICOBOOT_OK := 0, PICOBOOT_REBOOTING := 7 }

/-- A vendor-specific interface with number 1 and two bulk endpoints, `0x03`
(OUT) and `0x84` (IN), as the BOOTSEL boot ROM exposes for PICOBOOT. -/
def picoboot_descriptor : libusb_interface_descriptor :=
  { bInterfaceNumber := 1, bInterfaceClass := 0xff, bInterfaceSubClass := 0,
    bInterfaceProtocol := 0, bNumEndpoints := 2,
    endpoint := [{ bEndpointAddress := 0x03, bmAttributes := 2 },
                 { bEndpointAddress := 0x84, bmAttributes := 2 }] }

/-- A mass-storage interface with number 0. -/
def storage_descriptor : libusb_interface_descriptor :=
  { bInterfaceNumber := 0, bInterfaceClass := 8, bInterfaceSubClass := 6,
    bInterfaceProtocol := 0x50, bNumEndpoints := 2,
    endpoint := [{ bEndpointAddress := 0x81, bmAttributes := 2 },
                 { bEndpointAddress := 0x02, bmAttributes := 2 }] }

/-- A device of vendor `0x2E8A` with the given product id that exposes a
mass-storage interface and a PICOBOOT interface. -/
def raspberry_device (product : Nat) : libusb_device :=
  { descriptor := some { idVendor := 0x2e8a, idProduct := product },
    config := some [{ altsetting := [storage_descriptor] },
                    { altsetting := [picoboot_descriptor] }] }

/-- A transport on which every call succeeds. -/
def all_ok : Transport :=
  { result := fun _ => 0, status_complete := fun _ => true, status_code := fun _ => 0 }

/-- A transport on which EXIT_XIP fails and every other call succeeds. -/
def exit_xip_fails : Transport :=
  { result := fun log => if log.getLast? = some UsbCall.exit_xip then -1 else 0,
    status_complete := fun _ => true, status_code := fun _ => 0 }

/-- An image whose only segment is 512 bytes to be loaded at `0x13FFFF00`. -/
def high_flash_image : List Byte :=
  sample_header 0x20000000 1 ++ sample_ph 1 84 0x13FFFF00 0x13FFFF00 512 ++
    List.replicate 512 0x5a

/-- The parsed form of `high_flash_image`. -/
def high_flash_elf : elf_file :=
  { header := { entry := 0x20000000, phoff := 52, phentsize := 32, phnum := 1 },
    segments :=
      [{ type := 1, offset := 84, vaddr := 0x13FFFF00, paddr := 0x13FFFF00, filez := 512,
         memsz := 512, flags := 5, align := 4 }],
    data := high_flash_image }

/-- An image whose only segment is four bytes to be loaded at `0x11000000`, the
first address past the RP2040 flash range. -/
def past_rp2040_flash_image : List Byte :=
  sample_header 0x20000000 1 ++ sample_ph 1 84 0x11000000 0x11000000 4 ++ [1, 2, 3, 4]

/-- The parsed form of `past_rp2040_flash_image`. -/
def past_rp2040_flash_elf : elf_file :=
  { header := { entry := 0x20000000, phoff := 52, phentsize := 32, phnum := 1 },
    segments :=
      [{ type := 1, offset := 84, vaddr := 0x11000000, paddr := 0x11000000, filez := 4,
         memsz := 4, flags := 5, align := 4 }],
    data := past_rp2040_flash_image }

/-- An image with a loadable segment of four bytes whose `paddr` and `vaddr`
are both zero, after a segment of type 6 with zero addresses. -/
def no_address_image : List Byte :=
  sample_header 0x20000000 2 ++ sample_ph 6 52 0 0 64 ++ sample_ph 1 116 0 0 4 ++ [1, 2, 3, 4]

/-- The parsed form of `no_address_image`. -/
def no_address_elf : elf_file :=
  { header := { entry := 0x20000000, phoff := 52, phentsize := 32, phnum := 2 },
    segments :=
      [{ type := 6, offset := 52, vaddr := 0, paddr := 0, filez := 64, memsz := 64,
         flags := 5, align := 4 },
       { type := 1, offset := 116, vaddr := 0, paddr := 0, filez := 4, memsz := 4,
         flags := 5, align := 4 }],
    data := no_address_image }

/-- An image with entry point 0 whose only segment is four bytes to be loaded
at `0x20000100`. -/
def no_entry_image : List Byte :=
  sample_header 0 1 ++ sample_ph 1 84 0x20000100 0x20000100 4 ++ [0xde, 0xad, 0xbe, 0xef]

/-- The parsed form of `no_entry_image`. -/
def no_entry_elf : elf_file :=
  { header := { entry := 0, phoff := 52, phentsize := 32, phnum := 1 },
    segments := [small_segment], data := no_entry_image }

/-! ## `merge_ranges`: fusion and the covered set -/

/-- The addresses of the half-open range `[start, end)`. -/
def in_range (x : Nat) (r : Range) : Prop := r.start ≤ x ∧ x < r.end_

/-! ## Images whose entry point lies in a skipped flash segment -/

/-- An image with a flash segment of 512 bytes at `0x10041F00`, whose mirror
`0x20041F00 .. 0x20042100` runs past the RP2040 SRAM, an SRAM segment of four
bytes at `0x20000000`, and the entry point `0x10041F00` at the start of the
flash segment. -/
def stray_exec_image : List Byte :=
  sample_header 0x10041F00 2 ++ sample_ph 1 116 0x10041F00 0x10041F00 512 ++
    sample_ph 1 628 0x20000000 0x20000000 4 ++ List.replicate 512 0x5a ++ [1, 2, 3, 4]

/-- The parsed form of `stray_exec_image`. -/
def stray_exec_elf : elf_file :=
  { header := { entry := 0x10041F00, phoff := 52, phentsize := 32, phnum := 2 },
    segments :=
      [{ type := 1, offset := 116, vaddr := 0x10041F00, paddr := 0x10041F00, filez := 512,
         memsz := 512, flags := 5, align := 4 },
       { type := 1, offset := 628, vaddr := 0x20000000, paddr := 0x20000000, filez := 4,
         memsz := 4, flags := 5, align := 4 }],
    data := stray_exec_image }

/-- The same image for the RP2350 bounds: the flash segment of 512 bytes and
the entry point are at `0x10081F00`, whose mirror `0x20081F00 .. 0x20082100`
runs past the RP2350 SRAM. -/
def stray_exec_rp2350_image : List Byte :=
  sample_header 0x10081F00 2 ++ sample_ph 1 116 0x10081F00 0x10081F00 512 ++
    sample_ph 1 628 0x20000000 0x20000000 4 ++ List.replicate 512 0x5a ++ [1, 2, 3, 4]

/-- The parsed form of `stray_exec_rp2350_image`. -/
def stray_exec_rp2350_elf : elf_file :=
  { header := { entry := 0x10081F00, phoff := 52, phentsize := 32, phnum := 2 },
    segments :=
      [{ type := 1, offset := 116, vaddr := 0x10081F00, paddr := 0x10081F00, filez := 512,
         memsz := 512, flags := 5, align := 4 },
       { type := 1, offset := 628, vaddr := 0x20000000, paddr := 0x20000000, filez := 4,
         memsz := 4, flags := 5, align := 4 }],
    data := stray_exec_rp2350_image }

/-! ## load_tool/src/elf.cc -/

/-- The exception `std::runtime_error` that `elf.cc` throws, with its message. -/
structure runtime_error where
  what : String
  deriving DecidableEq, Repr

/-- The helper `read_u16` of `elf.cc`. -/
def elf_cc.read_u16 (data : List Byte) (offset : Nat) : Except runtime_error Nat :=
  if size_t_wrap (offset + 2) > data.length then
    .error ⟨"ELF file too small"⟩
  else
    .ok (u16 (u16 (byte_at data offset) ||| (u16 (byte_at data (offset + 1)) <<< 8)))

/-- The helper `read_u32` of `elf.cc`. -/
def elf_cc.read_u32 (data : List Byte) (offset : Nat) : Except runtime_error Nat :=
  if size_t_wrap (offset + 4) > data.length then
    .error ⟨"ELF file too small"⟩
  else
    .ok (u32 (u32 (byte_at data offset) |||
              u32 (u32 (byte_at data (offset + 1)) <<< 8) |||
              u32 (u32 (byte_at data (offset + 2)) <<< 16) |||
              u32 (u32 (byte_at data (offset + 3)) <<< 24)))

/-- The body of the program-header loop of `read_file` in `elf.cc` for the
entry that starts at `base`. -/
def elf_cc.read_ph_entry (data : List Byte) (base : Nat) : Except runtime_error elf32_ph_entry :=
  if size_t_wrap (base + 32) > data.length then
    .error ⟨"ELF program header truncated"⟩
  else do
    let type ← elf_cc.read_u32 data (size_t_wrap (base + 0))
    let offset ← elf_cc.read_u32 data (size_t_wrap (base + 4))
    let vaddr ← elf_cc.read_u32 data (size_t_wrap (base + 8))
    let paddr ← elf_cc.read_u32 data (size_t_wrap (base + 12))
    let filez ← elf_cc.read_u32 data (size_t_wrap (base + 16))
    let memsz ← elf_cc.read_u32 data (size_t_wrap (base + 20))
    let flags ← elf_cc.read_u32 data (size_t_wrap (base + 24))
    let align ← elf_cc.read_u32 data (size_t_wrap (base + 28))
    pure { type := type, offset := offset, vaddr := vaddr, paddr := paddr,
           filez := filez, memsz := memsz, flags := flags, align := align }

/-- The loop `for (uint16_t i = 0; i < header_.phnum; ++i)` of `read_file` in
`elf.cc`, entered at index `i` with `remaining = phnum - i` iterations left. -/
def elf_cc.read_ph_table (data : List Byte) (phoff phentsize : Nat) :
    (remaining : Nat) → (i : Nat) → Except runtime_error (List elf32_ph_entry)
  | 0, _ => .ok []
  | remaining + 1, i => do
    let base := size_t_wrap (phoff + size_t_wrap (phentsize * i))
    let entry ← elf_cc.read_ph_entry data base
    let rest ← elf_cc.read_ph_table data phoff phentsize remaining (i + 1)
    pure (entry :: rest)

/-- The method `elf_file::read_file` of `elf.cc`, applied to the whole content
of the stream, under the conventions of `read_file`. -/
def elf_cc.read_file (stream : List Byte) : Except runtime_error elf_file :=
  if stream.length = 0 then
    .error ⟨"ELF file is empty"⟩
  else
    let data := stream
    if data.length < kElfHeaderSize then
      .error ⟨"ELF header truncated"⟩
    else if byte_at data 0 ≠ 0x7f ∨ byte_at data 1 ≠ 0x45 ∨ byte_at data 2 ≠ 0x4c ∨
        byte_at data 3 ≠ 0x46 then
      .error ⟨"Missing ELF magic"⟩
    else if byte_at data 4 ≠ kElfClass32 then
      .error ⟨"Unsupported ELF class"⟩
    else if byte_at data 5 ≠ kElfDataLittleEndian then
      .error ⟨"Unsupported ELF endian"⟩
    else do
      let entry ← elf_cc.read_u32 data 24
      let phoff ← elf_cc.read_u32 data 28
      let phentsize ← elf_cc.read_u16 data 42
      let phnum ← elf_cc.read_u16 data 44
      if phoff < kIdentSize ∨ phentsize = 0 then
        .error ⟨"ELF program header table missing"⟩
      else
        let ph_table_size := size_t_wrap (phentsize * phnum)
        if size_t_wrap (phoff + ph_table_size) > data.length then
          .error ⟨"ELF program header table truncated"⟩
        else do
          let segments ← elf_cc.read_ph_table data phoff phentsize phnum 0
          pure { header := { entry := entry, phoff := phoff,
                             phentsize := phentsize, phnum := phnum },
                 segments := segments, data := data }

/-- The method `elf_file::content` of `elf.cc`, under the conventions of
`content`. -/
def elf_cc.content (elf : elf_file) (segment : elf32_ph_entry) :
    Except runtime_error (List Byte) :=
  if segment.filez = 0 then
    .ok []
  else if u32 (segment.offset + segment.filez) > elf.data.length then
    .error ⟨"ELF segment out of range"⟩
  else
    .ok ((elf.data.drop segment.offset).take segment.filez)

/-! ## PICOBOOT commands and the reboot tools -/

/-- The constants the tools take from `boot/picoboot.h`,
`pico/stdio_usb/reset_interface.h`, `libusb.h` and the IOKit USB headers for
the PICOBOOT command structure and the reset request; `sizeof_…` is `sizeof`
of the member of `picoboot_cmd` named.  They are parameters of the
embedding. -/
structure ProtocolConstants where
  PICOBOOT_MAGIC : Nat
  PC_EXIT_XIP : Nat
  PC_FLASH_ERASE : Nat
  PC_WRITE : Nat
  PC_EXEC : Nat
  PC_REBOOT : Nat
  PC_REBOOT2 : Nat
  REBOOT2_FLAG_REBOOT_TYPE_NORMAL : Nat
  sizeof_range_cmd : Nat
  sizeof_address_only_cmd : Nat
  sizeof_reboot_cmd : Nat
  sizeof_reboot2_cmd : Nat
  RESET_REQUEST_BOOTSEL : Nat
  RESET_REQUEST_FLASH : Nat
  LIBUSB_REQUEST_TYPE_CLASS : Nat
  LIBUSB_RECIPIENT_INTERFACE : Nat
  LIBUSB_ERROR_IO : Int
  USBmakebmRequestType : Nat → Nat → Nat → Nat
  kUSBOut : Nat
  kUSBVendor : Nat
  kUSBInterface : Nat

/-- The union of argument blocks of `struct picoboot_cmd`, by the member the
tools fill; `zero` is the union as `picoboot_cmd cmd{}` leaves it. -/
inductive picoboot_cmd_args where
  | zero
  | range_cmd (dAddr dSize : Nat)
  | address_only_cmd (dAddr : Nat)
  | reboot_cmd (dPC dSP dDelayMS : Nat)
  | reboot2_cmd (dFlags dDelayMS dParam0 dParam1 : Nat)
  deriving DecidableEq, Repr

/-- The fields of `struct picoboot_cmd` the tools set. -/
structure picoboot_cmd where
  dMagic : Nat
  dToken : Nat
  bCmdId : Nat
  bCmdSize : Nat
  dTransferLength : Nat
  args : picoboot_cmd_args
  deriving DecidableEq, Repr

/-- The value of `picoboot_cmd cmd{}`. -/
def picoboot_cmd.zero : picoboot_cmd :=
  { dMagic := 0, dToken := 0, bCmdId := 0, bCmdSize := 0, dTransferLength := 0, args := .zero }

/-- The command `picoboot_exit_xip` of the loaders hands to
`send_picoboot_command`. -/
def picoboot_exit_xip_cmd (p : ProtocolConstants) : picoboot_cmd :=
  { picoboot_cmd.zero with bCmdId := p.PC_EXIT_XIP, bCmdSize := 0, dTransferLength := 0 }

/-- The command `picoboot_flash_erase` hands to `send_picoboot_command`. -/
def picoboot_flash_erase_cmd (p : ProtocolConstants) (addr size : Nat) : picoboot_cmd :=
  { picoboot_cmd.zero with bCmdId := p.PC_FLASH_ERASE, bCmdSize := p.sizeof_range_cmd,
                           args := .range_cmd addr size, dTransferLength := 0 }

/-- The command `picoboot_write` hands to `send_picoboot_command`. -/
def picoboot_write_cmd (p : ProtocolConstants) (addr size : Nat) : picoboot_cmd :=
  { picoboot_cmd.zero with bCmdId := p.PC_WRITE, bCmdSize := p.sizeof_range_cmd,
                           args := .range_cmd addr size, dTransferLength := size }

/-- The command `picoboot_exec` hands to `send_picoboot_command`. -/
def picoboot_exec_cmd (p : ProtocolConstants) (addr : Nat) : picoboot_cmd :=
  { picoboot_cmd.zero with bCmdId := p.PC_EXEC, bCmdSize := p.sizeof_address_only_cmd,
                           args := .address_only_cmd addr, dTransferLength := 0 }

/-- The opening statements of `send_picoboot_command` in both loaders,
`cmd.dMagic = PICOBOOT_MAGIC; cmd.dToken = token++;`, on the function's static
`uint32_t token`: the command as it is sent and the new value of `token`. -/
def send_picoboot_command_stamp (p : ProtocolConstants) (token : Nat) (cmd : picoboot_cmd) :
    picoboot_cmd × Nat :=
  ({ cmd with dMagic := p.PICOBOOT_MAGIC, dToken := token }, u32 (token + 1))

/-- The command behind a call of a load run: each of `picoboot_exit_xip`,
`picoboot_flash_erase`, `picoboot_write` and `picoboot_exec` calls
`send_picoboot_command` once; opening, claiming and the two control requests
do not go through it.  The `size` of a write is the number of bytes sent. -/
def command_of_call (p : ProtocolConstants) : UsbCall → Option picoboot_cmd
  | .exit_xip => some (picoboot_exit_xip_cmd p)
  | .flash_erase addr size => some (picoboot_flash_erase_cmd p addr size)
  | .write addr data => some (picoboot_write_cmd p addr data.length)
  | .exec addr => some (picoboot_exec_cmd p addr)
  | _ => none

/-- The commands `send_picoboot_command` sends for the calls of a run, in
order, entered with the given value of the static `token`. -/
def commands_sent (p : ProtocolConstants) : Nat → List UsbCall → List picoboot_cmd
  | _, [] => []
  | token, call :: rest =>
    match command_of_call p call with
    | none => commands_sent p token rest
    | some cmd =>
      (send_picoboot_command_stamp p token cmd).1 ::
        commands_sent p (send_picoboot_command_stamp p token cmd).2 rest

/-- One USB operation of a reboot run: opening the device, claiming and
releasing an interface (`reboot_tool` only), the transfer of a command
structure on the OUT endpoint or pipe, the read of the one-byte acknowledgement,
and a control request with no data stage. -/
inductive RebootCall where
  | open_device (device : Nat)
  | claim_interface (interface_number : Nat)
  | send_command (ep_out : Nat) (cmd : picoboot_cmd)
  | read_ack (ep_in : Nat)
  | control_request (bmRequestType bRequest wValue wIndex wLength : Nat)
  | release_interface (interface_number : Nat)
  deriving DecidableEq, Repr

/-- The behaviour of the USB stack and the device during a reboot run, as a
function of the calls made so far: the return code of the last call and, for
the transfer of a command structure, whether all of it was sent
(`sent == sizeof(cmd)`). -/
structure RebootTransport where
  result : List RebootCall → Int
  sent_complete : List RebootCall → Bool

/-- What a reboot run did: the USB calls it made, in order, and its exit
code. -/
structure RebootRun where
  calls : List RebootCall
  exit_code : Nat
  deriving DecidableEq, Repr

/-- The command `reboot_via_picoboot` of both reboot tools builds before it is
sent: REBOOT2 for the RP2350 boot ROM, REBOOT otherwise. -/
def reboot_command (p : ProtocolConstants) (product_id : Nat) (cmd : picoboot_cmd) :
    picoboot_cmd :=
  if product_id = kProductIdRp2350UsbBoot then
    { cmd with bCmdId := p.PC_REBOOT2, bCmdSize := p.sizeof_reboot2_cmd,
               args := .reboot2_cmd p.REBOOT2_FLAG_REBOOT_TYPE_NORMAL 500 0 0 }
  else
    { cmd with bCmdId := p.PC_REBOOT, bCmdSize := p.sizeof_reboot_cmd,
               args := .reboot_cmd 0 0 500 }

/-- The function `send_picoboot_command` of `reboot_tool`. -/
def reboot_tool_send_picoboot_command (p : ProtocolConstants) (t : RebootTransport)
    (iface : PicobootInterface) (cmd : picoboot_cmd) (log : List RebootCall) :
    List RebootCall × Int :=
  let log1 := log ++ [RebootCall.send_command iface.ep_out cmd]
  let ret := t.result log1
  if ret ≠ 0 ∨ t.sent_complete log1 = false then
    (log1, if ret ≠ 0 then ret else p.LIBUSB_ERROR_IO)
  else
    let log2 := log1 ++ [RebootCall.read_ack iface.ep_in]
    let ret := t.result log2
    if ret ≠ 0 then (log2, ret) else (log2, 0)

/-- The function `reboot_via_picoboot` of `reboot_tool`. -/
def reboot_tool_reboot_via_picoboot (p : ProtocolConstants) (t : RebootTransport)
    (product_id : Nat) (iface : PicobootInterface) (bootsel : Bool) (log : List RebootCall) :
    List RebootCall × Int :=
  if bootsel then
    (log, 0)
  else
    let cmd := reboot_command p product_id
      { picoboot_cmd.zero with dMagic := p.PICOBOOT_MAGIC, dToken := 1, dTransferLength := 0 }
    let log1 := log ++ [RebootCall.claim_interface iface.interface_number]
    let claim := t.result log1
    if claim ≠ 0 then
      (log1, claim)
    else
      let r := reboot_tool_send_picoboot_command p t iface cmd log1
      (r.1 ++ [RebootCall.release_interface iface.interface_number], r.2)

/-- The function `reboot_via_reset_interface` of `reboot_tool`. -/
def reboot_tool_reboot_via_reset_interface (p : ProtocolConstants) (t : RebootTransport)
    (iface : ResetInterface) (bootsel : Bool) (log : List RebootCall) :
    List RebootCall × Int :=
  let log1 := log ++ [RebootCall.claim_interface iface.interface_number]
  let claim := t.result log1
  if claim ≠ 0 then
    (log1, claim)
  else
    let request := if bootsel then p.RESET_REQUEST_BOOTSEL else p.RESET_REQUEST_FLASH
    let log2 := log1 ++
      [RebootCall.control_request (p.LIBUSB_REQUEST_TYPE_CLASS ||| p.LIBUSB_RECIPIENT_INTERFACE)
        request 0 iface.interface_number 0]
    (log2 ++ [RebootCall.release_interface iface.interface_number], t.result log2)

/-- The function `main` of `reboot_tool` after `find_device` has returned the
match: `libusb_open`, the dispatch and the exit code. -/
def reboot_tool_run (p : ProtocolConstants) (t : RebootTransport) (m : RebootDeviceMatch)
    (bootsel : Bool) : RebootRun :=
  let log := [RebootCall.open_device m.device]
  if t.result log ≠ 0 then
    { calls := log, exit_code := 1 }
  else
    let r : List RebootCall × Int :=
      if bootsel then
        match m.reset with
        | some reset => reboot_tool_reboot_via_reset_interface p t reset true log
        | none =>
          match m.picoboot with
          | some picoboot => reboot_tool_reboot_via_picoboot p t m.product_id picoboot true log
          | none => (log, 1)
      else
        match m.picoboot with
        | some picoboot => reboot_tool_reboot_via_picoboot p t m.product_id picoboot false log
        | none =>
          match m.reset with
          | some reset => reboot_tool_reboot_via_reset_interface p t reset false log
          | none => (log, 1)
    { calls := r.1, exit_code := if r.2 = 0 then 0 else 1 }

/-- The function `main` of `reboot_tool` from `find_device` on. -/
def reboot_tool_main (c : ExternalConstants) (p : ProtocolConstants)
    (devices : List libusb_device) (t : RebootTransport) (bootsel : Bool) : RebootRun :=
  match reboot_tool_find_device c devices with
  | none => { calls := [], exit_code := 1 }
  | some m => reboot_tool_run p t m bootsel

/-- The `struct PicobootInterface` of `dapico-reboot` (without the IOKit
interface pointer). -/
structure IokitPicobootInterface where
  interface_number : Nat
  pipe_in : Nat
  pipe_out : Nat
  deriving DecidableEq, Repr

/-- The `struct DeviceMatch` of `dapico-reboot` (without the IOKit pointers);
`find_device` has opened the device and the interfaces it holds. -/
structure IokitDeviceMatch where
  product_id : Nat
  picoboot : Option IokitPicobootInterface
  reset : Option ResetInterface
  deriving DecidableEq, Repr

/-- The function `send_picoboot_command` of `dapico-reboot`, entered with the
given value of its static `token`: the calls made, the value returned and the
new value of `token`. -/
def dapico_reboot_send_picoboot_command (c : ExternalConstants) (p : ProtocolConstants)
    (t : RebootTransport) (token : Nat) (picoboot : IokitPicobootInterface)
    (cmd : picoboot_cmd) (log : List RebootCall) : (List RebootCall × Int) × Nat :=
  let cmd := { cmd with dMagic := p.PICOBOOT_MAGIC, dToken := token }
  let token := u32 (token + 1)
  let log1 := log ++ [RebootCall.send_command picoboot.pipe_out cmd]
  let ret := t.result log1
  if ret ≠ c.kIOReturnSuccess then
    ((log1, ret), token)
  else
    let log2 := log1 ++ [RebootCall.read_ack picoboot.pipe_in]
    ((log2, t.result log2), token)

/-- The function `reboot_via_picoboot` of `dapico-reboot`; a run calls it at
most once, so `send_picoboot_command` is entered with `token = 1`. -/
def dapico_reboot_reboot_via_picoboot (c : ExternalConstants) (p : ProtocolConstants)
    (t : RebootTransport) (product_id : Nat) (picoboot : IokitPicobootInterface)
    (bootsel : Bool) (log : List RebootCall) : List RebootCall × Int :=
  if bootsel then
    (log, c.kIOReturnSuccess)
  else
    let cmd := reboot_command p product_id { picoboot_cmd.zero with dTransferLength := 0 }
    (dapico_reboot_send_picoboot_command c p t 1 picoboot cmd log).1

/-- The function `reboot_via_reset_interface` of `dapico-reboot`. -/
def dapico_reboot_reboot_via_reset_interface (p : ProtocolConstants) (t : RebootTransport)
    (reset_iface : ResetInterface) (bootsel : Bool) (log : List RebootCall) :
    List RebootCall × Int :=
  let log1 := log ++
    [RebootCall.control_request (p.USBmakebmRequestType p.kUSBOut p.kUSBVendor p.kUSBInterface)
      (if bootsel then p.RESET_REQUEST_BOOTSEL else p.RESET_REQUEST_FLASH)
      0 reset_iface.interface_number 0]
  (log1, t.result log1)

/-- The function `main` of `dapico-reboot` after `find_device` has returned the
match: the dispatch and the exit code. -/
def dapico_reboot_run (c : ExternalConstants) (p : ProtocolConstants) (t : RebootTransport)
    (m : IokitDeviceMatch) (bootsel : Bool) : RebootRun :=
  let r : List RebootCall × Int :=
    if bootsel then
      match m.reset with
      | some reset => dapico_reboot_reboot_via_reset_interface p t reset true []
      | none =>
        match m.picoboot with
        | some picoboot =>
          dapico_reboot_reboot_via_picoboot c p t m.product_id picoboot true []
        | none => ([], c.kIOReturnError)
    else
      match m.picoboot with
      | some picoboot =>
        dapico_reboot_reboot_via_picoboot c p t m.product_id picoboot false []
      | none =>
        match m.reset with
        | some reset => dapico_reboot_reboot_via_reset_interface p t reset false []
        | none => ([], c.kIOReturnError)
  { calls := r.1, exit_code := if r.2 = c.kIOReturnSuccess then 0 else 1 }

/-- The command structures a reboot run transferred, in order. -/
def picoboot_commands : List RebootCall → List picoboot_cmd
  | [] => []
  | RebootCall.send_command _ cmd :: rest => cmd :: picoboot_commands rest
  | _ :: rest => picoboot_commands rest

/-- The control requests of a reboot run, in order. -/
def control_requests : List RebootCall → List RebootCall
  | [] => []
  | RebootCall.control_request a b c d e :: rest =>
    RebootCall.control_request a b c d e :: control_requests rest
  | _ :: rest => control_requests rest

/-- The type field of `bmRequestType`, bits 6..5: 0 standard, 1 class,
2 vendor. -/
def request_type_field (bmRequestType : Nat) : Nat := bmRequestType / 32 % 4

/-- The recipient field of `bmRequestType`, bits 4..0: 1 is an interface. -/
def request_recipient_field (bmRequestType : Nat) : Nat := bmRequestType % 32

/-- The direction bit of `bmRequestType`, bit 7: 0 is host to device. -/
def request_direction_field (bmRequestType : Nat) : Nat := bmRequestType / 128 % 2

/-- The values the external headers give the protocol constants; used to
evaluate the tools on sample inputs. -/
def sample_protocol : ProtocolConstants :=
  { PICOBOOT_MAGIC := 0x431fd10b, PC_EXIT_XIP := 6, PC_FLASH_ERASE := 3, PC_WRITE := 5,
    PC_EXEC := 8, PC_REBOOT := 2, PC_REBOOT2 := 10, REBOOT2_FLAG_REBOOT_TYPE_NORMAL := 0,
    sizeof_range_cmd := 8, sizeof_address_only_cmd := 4, sizeof_reboot_cmd := 12,
    sizeof_reboot2_cmd := 16, RESET_REQUEST_BOOTSEL := 1, RESET_REQUEST_FLASH := 2,
    LIBUSB_REQUEST_TYPE_CLASS := 0x20, LIBUSB_RECIPIENT_INTERFACE := 1, LIBUSB_ERROR_IO := -1,
    USBmakebmRequestType := fun direction type recipient =>
      ((direction &&& 1) <<< 7) ||| ((type &&& 3) <<< 5) ||| (recipient &&& 0x1f),
    kUSBOut := 0, kUSBVendor := 2, kUSBInterface := 1 }

/-- A reboot transport on which every call succeeds. -/
def reboot_all_ok : RebootTransport :=
  { result := fun _ => 0, sent_complete := fun _ => true }

/-- A reboot transport on which claiming an interface fails with
`LIBUSB_ERROR_BUSY` and every other call succeeds. -/
def reboot_claim_fails : RebootTransport :=
  { result := fun log =>
      match log.getLast? with
      | some (RebootCall.claim_interface _) => -6
      | _ => 0,
    sent_complete := fun _ => true }

/-- A reset interface with number 2: class `0xff`, the subclass and protocol of
`sample_constants`, no endpoints. -/
def reset_descriptor : libusb_interface_descriptor :=
  { bInterfaceNumber := 2, bInterfaceClass := 0xff, bInterfaceSubClass := 0,
    bInterfaceProtocol := 1, bNumEndpoints := 0, endpoint := [] }

/-- A device of vendor `0x2E8A` running the SDK's stdio USB (product `0x000A`),
with a CDC interface pair left out and the reset interface. -/
def stdio_device : libusb_device :=
  { descriptor := some { idVendor := 0x2e8a, idProduct := 0x000a },
    config := some [{ altsetting := [reset_descriptor] }] }

/-- A vendor-specific interface with two interrupt endpoints (`bmAttributes`
transfer type 3), one IN and one OUT. -/
def interrupt_descriptor : libusb_interface_descriptor :=
  { bInterfaceNumber := 0, bInterfaceClass := 0xff, bInterfaceSubClass := 0,
    bInterfaceProtocol := 0, bNumEndpoints := 2,
    endpoint := [{ bEndpointAddress := 0x81, bmAttributes := 3 },
                 { bEndpointAddress := 0x01, bmAttributes := 3 }] }

/-! ## Machine-integer lemmas -/

theorem byte_at_lt (data : List Byte) (i : Nat) : byte_at data i < 256 :=
  (data.getD i 0).isLt

theorem u32_of_lt {n : Nat} (h : n < 2 ^ 32) : u32 n = n := Nat.mod_eq_of_lt h

theorem u16_of_lt {n : Nat} (h : n < 2 ^ 16) : u16 n = n := Nat.mod_eq_of_lt h

theorem size_t_wrap_of_lt {n : Nat} (h : n < 2 ^ 64) : size_t_wrap n = n := Nat.mod_eq_of_lt h

theorem u32_lt (n : Nat) : u32 n < 2 ^ 32 := Nat.mod_lt _ (by norm_num)

theorem u16_lt (n : Nat) : u16 n < 2 ^ 16 := Nat.mod_lt _ (by norm_num)

/-- Or-ing a value below `2 ^ k` with a value shifted left by `k` adds them. -/
theorem or_shiftLeft_eq_add (a b k : Nat) (ha : a < 2 ^ k) :
    a ||| (b <<< k) = a + 2 ^ k * b := by
  rw [Nat.shiftLeft_eq, Nat.or_comm, Nat.mul_comm b, ← Nat.mul_add_lt_is_or ha, Nat.add_comm]

theorem le16_bits (a b : Nat) (ha : a < 256) (hb : b < 256) :
    u16 (u16 a ||| (u16 b <<< 8)) = a + 256 * b := by
  rw [u16_of_lt (by omega : a < 2 ^ 16), u16_of_lt (by omega : b < 2 ^ 16),
    or_shiftLeft_eq_add a b 8 (by omega)]
  exact u16_of_lt (by omega)

theorem le32_bits (a b c d : Nat) (ha : a < 256) (hb : b < 256) (hc : c < 256) (hd : d < 256) :
    u32 (u32 a ||| u32 (u32 b <<< 8) ||| u32 (u32 c <<< 16) ||| u32 (u32 d <<< 24)) =
      a + 256 * b + 65536 * c + 16777216 * d := by
  have sb : b <<< 8 = 2 ^ 8 * b := by rw [Nat.shiftLeft_eq, Nat.mul_comm]
  have sc : c <<< 16 = 2 ^ 16 * c := by rw [Nat.shiftLeft_eq, Nat.mul_comm]
  have sd : d <<< 24 = 2 ^ 24 * d := by rw [Nat.shiftLeft_eq, Nat.mul_comm]
  rw [u32_of_lt (by omega : a < 2 ^ 32), u32_of_lt (by omega : b < 2 ^ 32),
    u32_of_lt (by omega : c < 2 ^ 32), u32_of_lt (by omega : d < 2 ^ 32),
    u32_of_lt (by omega : b <<< 8 < 2 ^ 32), u32_of_lt (by omega : c <<< 16 < 2 ^ 32),
    u32_of_lt (by omega : d <<< 24 < 2 ^ 32),
    or_shiftLeft_eq_add a b 8 (by omega),
    or_shiftLeft_eq_add (a + 2 ^ 8 * b) c 16 (by omega),
    or_shiftLeft_eq_add (a + 2 ^ 8 * b + 2 ^ 16 * c) d 24 (by omega)]
  rw [u32_of_lt (by omega)]
  omega

/-- Masking with `2 ^ 32 - 2 ^ k` clears the low `k` bits of a `uint32_t`. -/
theorem and_high_mask (x k : Nat) (hk : k ≤ 32) :
    x &&& (2 ^ 32 - 2 ^ k) = x % 2 ^ 32 / 2 ^ k * 2 ^ k := by
  have hmask : 2 ^ 32 - 2 ^ k = (2 ^ (32 - k) - 1) <<< k := by
    rw [Nat.shiftLeft_eq, Nat.sub_mul, one_mul, ← pow_add, Nat.sub_add_cancel hk]
  rw [hmask, ← Nat.shiftRight_eq_div_pow, ← Nat.shiftLeft_eq]
  apply Nat.eq_of_testBit_eq
  intro i
  simp only [Nat.testBit_and, Nat.testBit_shiftLeft, Nat.testBit_shiftRight,
    Nat.testBit_two_pow_sub_one, Nat.testBit_mod_two_pow]
  by_cases h1 : k ≤ i
  · by_cases h2 : i < 32
    · have : i - k < 32 - k := by omega
      simp [h1, h2, this, Nat.add_sub_cancel' h1]
    · have : ¬ (i - k < 32 - k) := by omega
      simp [h1, h2, this, Nat.add_sub_cancel' h1]
  · simp [h1]

theorem align_down_sector (v : Nat) :
    align_down v kFlashSectorSize = v % 2 ^ 32 / 4096 * 4096 := by
  have h := and_high_mask v 12 (by norm_num)
  have hm : u32_not (u32 (kFlashSectorSize + 2 ^ 32 - 1)) = 2 ^ 32 - 2 ^ 12 := by decide
  unfold align_down
  rw [hm, h]
  norm_num

theorem align_down_page (v : Nat) :
    align_down v kFlashPageSize = v % 2 ^ 32 / 256 * 256 := by
  have h := and_high_mask v 8 (by norm_num)
  have hm : u32_not (u32 (kFlashPageSize + 2 ^ 32 - 1)) = 2 ^ 32 - 2 ^ 8 := by decide
  unfold align_down
  rw [hm, h]
  norm_num

theorem align_up_sector (v : Nat) :
    align_up v kFlashSectorSize = (v + 4095) % 2 ^ 32 / 4096 * 4096 := by
  have hm : u32_not (u32 (kFlashSectorSize + 2 ^ 32 - 1)) = 2 ^ 32 - 2 ^ 12 := by decide
  unfold align_up
  rw [hm, and_high_mask _ 12 (by norm_num)]
  have : u32 (u32 (v + kFlashSectorSize) + 2 ^ 32 - 1) % 2 ^ 32 = (v + 4095) % 2 ^ 32 := by
    unfold u32 kFlashSectorSize
    omega
  rw [this]
  norm_num

/-! ## The sweep of `merge_ranges` -/

theorem sort_ranges_sorted (ranges : List Range) :
    List.Sorted by_start (sort_ranges ranges) := by
  haveI : IsTotal Range (fun a b => a.start ≤ b.start) := ⟨fun a b => Nat.le_total _ _⟩
  haveI : IsTrans Range (fun a b => a.start ≤ b.start) :=
    ⟨fun a b c hab hbc => Nat.le_trans hab hbc⟩
  exact List.sorted_insertionSort (fun a b : Range => a.start ≤ b.start) ranges

theorem mem_sort_ranges {ranges : List Range} {r : Range} :
    r ∈ sort_ranges ranges ↔ r ∈ ranges :=
  List.mem_insertionSort (fun a b : Range => a.start ≤ b.start)

/-- The first range the sweep emits starts where `last` starts and ends no
earlier than `last`. -/
theorem merge_sweep_head (rest : List Range) :
    ∀ last : Range, ∃ e tl, merge_sweep last rest = ⟨last.start, e⟩ :: tl ∧ last.end_ ≤ e := by
  induction rest with
  | nil => intro last; exact ⟨last.end_, [], rfl, Nat.le_refl _⟩
  | cons r rest ih =>
    intro last
    simp only [merge_sweep]
    split
    · obtain ⟨e, tl, h, hle⟩ := ih { last with end_ := max last.end_ r.end_ }
      exact ⟨e, tl, h, Nat.le_trans (Nat.le_max_left _ _) hle⟩
    · exact ⟨last.end_, merge_sweep r rest, rfl, Nat.le_refl _⟩

/-- Consecutive ranges of the sweep's output: the earlier one ends strictly
before the later one starts, and starts strictly before it. -/
theorem merge_sweep_chain (rest : List Range) :
    ∀ last : Range, last.start ≤ last.end_ → (∀ r ∈ rest, r.start ≤ r.end_) →
      List.Chain' (fun r r' : Range => r.start < r'.start ∧ r.end_ < r'.start)
        (merge_sweep last rest) := by
  induction rest with
  | nil => intro last _ _; exact List.chain'_singleton _
  | cons r rest ih =>
    intro last hlast hrest
    simp only [merge_sweep]
    split
    · exact ih _ (Nat.le_trans hlast (Nat.le_max_left _ _))
        (fun x hx => hrest x (List.mem_cons_of_mem _ hx))
    · rename_i hgt
      obtain ⟨e, tl, h, _⟩ := merge_sweep_head rest r
      have hchain := ih r (hrest r (List.mem_cons_self _ _))
        (fun x hx => hrest x (List.mem_cons_of_mem _ hx))
      rw [h] at hchain ⊢
      exact List.Chain'.cons ⟨by simp only; omega, by simp only; omega⟩ hchain

/-- Every range of a sorted input lies inside one range of the sweep's
output. -/
theorem merge_sweep_covers (rest : List Range) :
    ∀ last : Range, List.Sorted by_start (last :: rest) →
      ∀ x ∈ last :: rest, ∃ o ∈ merge_sweep last rest, o.start ≤ x.start ∧ x.end_ ≤ o.end_ := by
  induction rest with
  | nil =>
    intro last _ x hx
    rw [List.mem_singleton] at hx
    subst hx
    exact ⟨x, List.mem_singleton.2 rfl, Nat.le_refl _, Nat.le_refl _⟩
  | cons r rest ih =>
    intro last hs x hx
    have hlr : last.start ≤ r.start := List.rel_of_sorted_cons hs r (List.mem_cons_self _ _)
    have hs' : List.Sorted by_start (r :: rest) := hs.of_cons
    simp only [merge_sweep]
    split
    · have hsorted : List.Sorted by_start
          ({ last with end_ := max last.end_ r.end_ } :: rest) := by
        rw [List.sorted_cons]
        exact ⟨fun b hb => List.rel_of_sorted_cons hs b (List.mem_cons_of_mem _ hb),
          hs'.of_cons⟩
      obtain ⟨o, ho, h1, h2⟩ := ih _ hsorted _ (List.mem_cons_self _ _)
      simp only at h1 h2
      rcases List.mem_cons.1 hx with rfl | hx
      · exact ⟨o, ho, h1, Nat.le_trans (Nat.le_max_left _ _) h2⟩
      · rcases List.mem_cons.1 hx with rfl | hx
        · exact ⟨o, ho, Nat.le_trans h1 hlr, Nat.le_trans (Nat.le_max_right _ _) h2⟩
        · exact ih _ hsorted x (List.mem_cons_of_mem _ hx)
    · rcases List.mem_cons.1 hx with rfl | hx
      · exact ⟨x, List.mem_cons_self _ _, Nat.le_refl _, Nat.le_refl _⟩
      · obtain ⟨o, ho, h⟩ := ih r hs' x hx
        exact ⟨o, List.mem_cons_of_mem _ ho, h⟩

/-- Every bound of a range the sweep emits is a bound of an input range. -/
theorem merge_sweep_bounds (rest : List Range) :
    ∀ last : Range, ∀ o ∈ merge_sweep last rest,
      (∃ x ∈ last :: rest, o.start = x.start) ∧ (∃ y ∈ last :: rest, o.end_ = y.end_) := by
  induction rest with
  | nil =>
    intro last o ho
    rw [merge_sweep, List.mem_singleton] at ho
    subst ho
    exact ⟨⟨o, List.mem_singleton.2 rfl, rfl⟩, ⟨o, List.mem_singleton.2 rfl, rfl⟩⟩
  | cons r rest ih =>
    intro last o ho
    simp only [merge_sweep] at ho
    split at ho
    · obtain ⟨⟨x, hx, hxs⟩, ⟨y, hy, hye⟩⟩ := ih _ o ho
      constructor
      · rcases List.mem_cons.1 hx with rfl | hx
        · exact ⟨last, List.mem_cons_self _ _, hxs⟩
        · exact ⟨x, List.mem_cons_of_mem _ (List.mem_cons_of_mem _ hx), hxs⟩
      · rcases List.mem_cons.1 hy with rfl | hy
        · simp only at hye
          rcases Nat.le_total last.end_ r.end_ with h | h
          · exact ⟨r, List.mem_cons_of_mem _ (List.mem_cons_self _ _),
              by rw [hye, Nat.max_eq_right h]⟩
          · exact ⟨last, List.mem_cons_self _ _, by rw [hye, Nat.max_eq_left h]⟩
        · exact ⟨y, List.mem_cons_of_mem _ (List.mem_cons_of_mem _ hy), hye⟩
    · rcases List.mem_cons.1 ho with rfl | ho
      · exact ⟨⟨o, List.mem_cons_self _ _, rfl⟩, ⟨o, List.mem_cons_self _ _, rfl⟩⟩
      · obtain ⟨⟨x, hx, hxs⟩, ⟨y, hy, hye⟩⟩ := ih r o ho
        exact ⟨⟨x, List.mem_cons_of_mem _ hx, hxs⟩, ⟨y, List.mem_cons_of_mem _ hy, hye⟩⟩

/-- The sorted-and-disjoint property of `merge_ranges`. -/
theorem merge_ranges_chain (ranges : List Range) (h : ∀ r ∈ ranges, r.start ≤ r.end_) :
    List.Chain' (fun r r' : Range => r.start < r'.start ∧ r.end_ < r'.start)
      (merge_ranges ranges) := by
  unfold merge_ranges
  have hmem : ∀ r ∈ sort_ranges ranges, r.start ≤ r.end_ :=
    fun r hr => h r (mem_sort_ranges.1 hr)
  cases hsort : sort_ranges ranges with
  | nil => exact List.chain'_nil
  | cons r rest =>
    rw [hsort] at hmem
    exact merge_sweep_chain rest r (hmem r (List.mem_cons_self _ _))
      (fun x hx => hmem x (List.mem_cons_of_mem _ hx))

/-- Every input range lies inside one range of `merge_ranges`. -/
theorem merge_ranges_covers (ranges : List Range) (x : Range) (hx : x ∈ ranges) :
    ∃ o ∈ merge_ranges ranges, o.start ≤ x.start ∧ x.end_ ≤ o.end_ := by
  unfold merge_ranges
  have hs := sort_ranges_sorted ranges
  have hx' := mem_sort_ranges.2 hx
  cases hsort : sort_ranges ranges with
  | nil => rw [hsort] at hx'; cases hx'
  | cons r rest =>
    rw [hsort] at hs hx'
    exact merge_sweep_covers rest r hs x hx'

/-- Every bound of a merged range is a bound of an input range. -/
theorem merge_ranges_bounds (ranges : List Range) (o : Range) (ho : o ∈ merge_ranges ranges) :
    (∃ x ∈ ranges, o.start = x.start) ∧ (∃ y ∈ ranges, o.end_ = y.end_) := by
  unfold merge_ranges at ho
  cases hsort : sort_ranges ranges with
  | nil => rw [hsort] at ho; cases ho
  | cons r rest =>
    rw [hsort] at ho
    obtain ⟨⟨x, hx, hxs⟩, ⟨y, hy, hye⟩⟩ := merge_sweep_bounds rest r o ho
    rw [← hsort] at hx hy
    exact ⟨⟨x, mem_sort_ranges.1 hx, hxs⟩, ⟨y, mem_sort_ranges.1 hy, hye⟩⟩

/-- The sweep keeps a sorted input sorted by `start`. -/
theorem merge_sweep_sorted (rest : List Range) :
    ∀ last : Range, List.Sorted by_start (last :: rest) →
      List.Sorted by_start (merge_sweep last rest) := by
  induction rest with
  | nil => intro last _; exact List.sorted_singleton _
  | cons r rest ih =>
    intro last hs
    have hs' : List.Sorted by_start (r :: rest) := hs.of_cons
    simp only [merge_sweep]
    split
    · apply ih
      rw [List.sorted_cons]
      exact ⟨fun b hb => List.rel_of_sorted_cons hs b (List.mem_cons_of_mem _ hb), hs'.of_cons⟩
    · rw [List.sorted_cons]
      refine ⟨fun o ho => ?_, ih r hs'⟩
      obtain ⟨⟨x, hx, hxs⟩, _⟩ := merge_sweep_bounds rest r o ho
      have := List.rel_of_sorted_cons hs x hx
      unfold by_start at this ⊢
      omega

/-- The merged ranges are in ascending order of `start`. -/
theorem merge_ranges_sorted (ranges : List Range) :
    List.Sorted by_start (merge_ranges ranges) := by
  unfold merge_ranges
  have hs := sort_ranges_sorted ranges
  cases hsort : sort_ranges ranges with
  | nil => exact List.sorted_nil
  | cons r rest =>
    rw [hsort] at hs
    exact merge_sweep_sorted rest r hs

theorem merge_ranges_nil : merge_ranges [] = [] := rfl

/-! ## The segment loop as a fold -/

/-- The segment loop, when it completes, has applied the placement step to the
loadable segments with non-empty bytes, in input order. -/
theorem plan_segments_eq_place_all (layout : MemoryLayout) (allow_flash : Bool) (elf : elf_file)
    (segments : List elf32_ph_entry) :
    ∀ st st' : PlanState, plan_segments layout allow_flash elf st segments = .ok st' →
      st' = place_all layout allow_flash st (load_inputs elf segments) := by
  induction segments with
  | nil =>
    intro st st' h
    simp only [plan_segments] at h
    cases h
    rfl
  | cons seg rest ih =>
    intro st st' h
    simp only [plan_segments] at h
    cases hseg : plan_segment layout allow_flash elf st seg with
    | error e => rw [hseg] at h; cases h
    | ok st1 =>
      rw [hseg] at h
      have hrest := ih st1 st' h
      rw [hrest]
      unfold plan_segment at hseg
      unfold load_inputs place_all
      rw [List.filterMap_cons]
      by_cases hload : seg.type = 1 ∧ seg.filez ≠ 0
      · have hcond : (!seg.is_load || seg.filez == 0) = false := by
          simp [elf32_ph_entry.is_load, hload.1, hload.2]
        rw [hcond] at hseg
        simp only [Bool.false_eq_true, if_false] at hseg
        rw [if_pos hload]
        split at hseg
        · cases hseg
        · cases hc : content elf seg with
          | error e => rw [hc] at hseg; cases hseg
          | ok data =>
            rw [hc] at hseg
            simp only at hseg ⊢
            by_cases hd : data = []
            · subst hd
              simp only [List.isEmpty_nil, if_true] at hseg
              cases hseg
              simp
            · have : data.isEmpty = false := by
                cases data with
                | nil => exact absurd rfl hd
                | cons _ _ => rfl
              rw [this] at hseg
              simp only [Bool.false_eq_true, if_false] at hseg
              cases hseg
              rw [if_neg hd]
              rfl
      · have hcond : (!seg.is_load || seg.filez == 0) = true := by
          simp only [elf32_ph_entry.is_load, Bool.or_eq_true, Bool.not_eq_true', beq_eq_false_iff_ne,
            beq_iff_eq]
          by_cases h1 : seg.type = 1
          · right
            by_contra h2
            exact hload ⟨h1, h2⟩
          · left; exact h1
        rw [hcond] at hseg
        simp only [if_true] at hseg
        cases hseg
        rw [if_neg hload]

theorem place_all_nil (layout : MemoryLayout) (allow_flash : Bool) (st : PlanState) :
    place_all layout allow_flash st [] = st := rfl

theorem place_all_cons (layout : MemoryLayout) (allow_flash : Bool) (st : PlanState)
    (p : Nat × List Byte) (rest : List (Nat × List Byte)) :
    place_all layout allow_flash st (p :: rest) =
      place_all layout allow_flash (place_segment layout allow_flash st p.1 p.2) rest := rfl

/-- With flash writes allowed, the loop records one erase range per flash
segment, distributes exactly the flash segments into pages, and turns every
other segment into a RAM write at its load address. -/
theorem place_all_flash (layout : MemoryLayout) (inputs : List (Nat × List Byte)) :
    ∀ st : PlanState,
      (place_all layout true st inputs).flash_erase_ranges =
        st.flash_erase_ranges ++
          (inputs.filter (fun p => is_flash_address p.1 layout)).map erase_range_of ∧
      (place_all layout true st inputs).flash_pages =
        (inputs.filter (fun p => is_flash_address p.1 layout)).foldl
          (fun pages p => store_bytes p.1 p.2 0 pages) st.flash_pages ∧
      (place_all layout true st inputs).ram_segments =
        st.ram_segments ++ inputs.filter (fun p => !is_flash_address p.1 layout) ∧
      (place_all layout true st inputs).mirrored_flash_segments = st.mirrored_flash_segments ∧
      (place_all layout true st inputs).skipped_flash_segments = st.skipped_flash_segments := by
  induction inputs with
  | nil => intro st; simp [place_all]
  | cons p rest ih =>
    intro st
    rw [place_all_cons]
    obtain ⟨h1, h2, h3, h4, h5⟩ := ih (place_segment layout true st p.1 p.2)
    rw [h1, h2, h3, h4, h5]
    unfold place_segment
    by_cases hf : is_flash_address p.1 layout = true
    · simp [hf, erase_range_of]
    · simp [hf]

/-- With flash writes not allowed, the loop leaves the page map and the erase
list alone and appends one RAM write per segment that `ram_target` keeps. -/
theorem place_all_mirror (layout : MemoryLayout) (inputs : List (Nat × List Byte)) :
    ∀ st : PlanState,
      (place_all layout false st inputs).flash_erase_ranges = st.flash_erase_ranges ∧
      (place_all layout false st inputs).flash_pages = st.flash_pages ∧
      (place_all layout false st inputs).ram_segments =
        st.ram_segments ++ inputs.filterMap (ram_target layout) := by
  induction inputs with
  | nil => intro st; simp [place_all]
  | cons p rest ih =>
    intro st
    rw [place_all_cons]
    obtain ⟨h1, h2, h3⟩ := ih (place_segment layout false st p.1 p.2)
    rw [h1, h2, h3]
    unfold place_segment ram_target
    by_cases hf : is_flash_address p.1 layout = true
    · cases hm : map_flash_to_sram p.1 (u32 p.2.length) layout <;>
        simp [hf, hm, List.filterMap_cons]
    · simp [hf, List.filterMap_cons]

/-! ## The page map -/

theorem page_keys_put (pages : PageMap) (key : Nat) (value : List Byte) (k : Nat) :
    k ∈ page_keys (page_put pages key value) ↔ k = key ∨ k ∈ page_keys pages := by
  induction pages with
  | nil => simp [page_put, page_keys]
  | cons e rest ih =>
    obtain ⟨k0, p0⟩ := e
    simp only [page_put]
    split
    · simp [page_keys]
    · split
      · rename_i heq
        subst heq
        simp [page_keys]
      · simp only [page_keys, List.map_cons, List.mem_cons] at ih ⊢
        rw [ih]
        tauto

theorem page_put_sorted (pages : PageMap) (key : Nat) (value : List Byte)
    (h : List.Sorted (· < ·) (page_keys pages)) :
    List.Sorted (· < ·) (page_keys (page_put pages key value)) := by
  induction pages with
  | nil => simp [page_put, page_keys]
  | cons e rest ih =>
    obtain ⟨k0, p0⟩ := e
    have hrest : List.Sorted (· < ·) (page_keys rest) := by
      simp only [page_keys, List.map_cons] at h
      exact h.of_cons
    have hk0 : ∀ b ∈ page_keys rest, k0 < b := by
      simp only [page_keys, List.map_cons] at h
      exact fun b hb => List.rel_of_sorted_cons h b hb
    simp only [page_put]
    split
    · rename_i hlt
      simp only [page_keys, List.map_cons]
      rw [List.sorted_cons]
      refine ⟨fun b hb => ?_, by simpa [page_keys] using h⟩
      rcases List.mem_cons.1 hb with rfl | hb
      · exact hlt
      · exact Nat.lt_trans hlt (hk0 b hb)
    · split
      · simpa [page_keys] using h
      · rename_i h1 h2
        simp only [page_keys, List.map_cons]
        rw [List.sorted_cons]
        refine ⟨fun b hb => ?_, ih hrest⟩
        rcases (page_keys_put rest key value b).1 hb with rfl | hb
        · omega
        · exact hk0 b hb

theorem page_get_put_same (pages : PageMap) (key : Nat) (value : List Byte) :
    page_get (page_put pages key value) key = value := by
  induction pages with
  | nil => simp [page_put, page_get]
  | cons e rest ih =>
    obtain ⟨k0, p0⟩ := e
    simp only [page_put]
    split
    · simp [page_get]
    · split
      · rename_i heq
        simp [page_get, heq]
      · rename_i h1 h2
        simp only [page_get]
        rw [if_neg h2, ih]

theorem page_get_put_other (pages : PageMap) (key : Nat) (value : List Byte) (k : Nat)
    (hk : k ≠ key) : page_get (page_put pages key value) k = page_get pages k := by
  induction pages with
  | nil => simp [page_put, page_get, hk]
  | cons e rest ih =>
    obtain ⟨k0, p0⟩ := e
    simp only [page_put]
    split
    · simp [page_get, hk]
    · split
      · rename_i heq
        subst heq
        simp [page_get, hk]
      · simp only [page_get]
        rw [ih]

theorem page_get_of_not_mem (pages : PageMap) (key : Nat) (h : key ∉ page_keys pages) :
    page_get pages key = [] := by
  induction pages with
  | nil => rfl
  | cons e rest ih =>
    obtain ⟨k0, p0⟩ := e
    simp only [page_keys, List.map_cons, List.mem_cons, not_or] at h
    simp only [page_get]
    rw [if_neg h.1]
    exact ih h.2

/-- In a map with strictly ascending keys an entry is what `operator[]` finds
under its key. -/
theorem page_get_of_mem (pages : PageMap) (h : List.Sorted (· < ·) (page_keys pages))
    (key : Nat) (page : List Byte) (hmem : (key, page) ∈ pages) : page_get pages key = page := by
  induction pages with
  | nil => cases hmem
  | cons e rest ih =>
    obtain ⟨k0, p0⟩ := e
    simp only [page_keys, List.map_cons] at h
    simp only [page_get]
    rcases List.mem_cons.1 hmem with heq | hmem
    · cases heq
      rw [if_pos rfl]
    · have hlt : k0 < key :=
        List.rel_of_sorted_cons h key (List.mem_map.2 ⟨(key, page), hmem, rfl⟩)
      rw [if_neg (by omega)]
      exact ih h.of_cons hmem

theorem mem_page_keys_of_mem {pages : PageMap} {key : Nat} {page : List Byte}
    (h : (key, page) ∈ pages) : key ∈ page_keys pages :=
  List.mem_map.2 ⟨(key, page), h, rfl⟩

/-- One store, for a 32-bit byte address: the page containing the address is
created zero-filled if absent, and the byte is set at its offset. -/
theorem store_byte_eq (pages : PageMap) (a : Nat) (ha : a < 2 ^ 32) (value : Byte) :
    store_byte pages a value =
      page_put pages (a / 256 * 256)
        ((if (page_get pages (a / 256 * 256)).isEmpty then List.replicate 256 (0 : Byte)
          else page_get pages (a / 256 * 256)).set (a % 256) value) := by
  unfold store_byte
  simp only [align_down_page, Nat.mod_eq_of_lt ha]
  have : u32 (a + 2 ^ 32 - a / 256 * 256) = a % 256 := by
    unfold u32
    omega
  rw [this]
  rfl

/-- The keys after the distribution loop: those present before, and the page
bases of the addresses the loop stored to. -/
theorem store_bytes_keys (addr : Nat) (data : List Byte) :
    ∀ (i : Nat) (pages : PageMap) (k : Nat),
      k ∈ page_keys (store_bytes addr data i pages) ↔
        k ∈ page_keys pages ∨
          ∃ j, i ≤ j ∧ j < i + data.length ∧ k = u32 (addr + u32 j) / 256 * 256 := by
  induction data with
  | nil =>
    intro i pages k
    simp only [store_bytes, List.length_nil, Nat.add_zero]
    constructor
    · exact Or.inl
    · rintro (h | ⟨j, h1, h2, _⟩)
      · exact h
      · omega
  | cons b rest ih =>
    intro i pages k
    simp only [store_bytes, List.length_cons]
    rw [ih, store_byte_eq _ _ (u32_lt _), page_keys_put]
    constructor
    · rintro ((h | h) | ⟨j, h1, h2, h3⟩)
      · exact Or.inr ⟨i, Nat.le_refl _, by omega, h⟩
      · exact Or.inl h
      · exact Or.inr ⟨j, by omega, by omega, h3⟩
    · rintro (h | ⟨j, h1, h2, h3⟩)
      · exact Or.inl (Or.inr h)
      · by_cases hj : j = i
        · subst hj
          exact Or.inl (Or.inl h3)
        · exact Or.inr ⟨j, by omega, by omega, h3⟩

/-- The keys after distributing a list of segments. -/
theorem store_all_keys (inputs : List (Nat × List Byte)) :
    ∀ (pages : PageMap) (k : Nat),
      k ∈ page_keys (inputs.foldl (fun pages p => store_bytes p.1 p.2 0 pages) pages) ↔
        k ∈ page_keys pages ∨
          ∃ p ∈ inputs, ∃ j, j < p.2.length ∧ k = u32 (p.1 + u32 j) / 256 * 256 := by
  induction inputs with
  | nil => intro pages k; simp
  | cons p rest ih =>
    intro pages k
    rw [List.foldl_cons, ih, store_bytes_keys]
    constructor
    · rintro ((h | ⟨j, _, h2, h3⟩) | ⟨q, hq, j, h⟩)
      · exact Or.inl h
      · exact Or.inr ⟨p, List.mem_cons_self _ _, j, by omega, h3⟩
      · exact Or.inr ⟨q, List.mem_cons_of_mem _ hq, j, h⟩
    · rintro (h | ⟨q, hq, j, h2, h3⟩)
      · exact Or.inl (Or.inl h)
      · rcases List.mem_cons.1 hq with rfl | hq
        · exact Or.inl (Or.inr ⟨j, Nat.zero_le _, by omega, h3⟩)
        · exact Or.inr ⟨q, hq, j, h2, h3⟩

/-! ## The ELF reader -/

theorem read_u16_ok_iff (data : List Byte) (offset v : Nat) (ho : offset < 2 ^ 63) :
    read_u16 data offset = .ok v ↔ offset + 2 ≤ data.length ∧ v = le16_at data offset := by
  unfold read_u16
  rw [size_t_wrap_of_lt (by omega : offset + 2 < 2 ^ 64),
    le16_bits _ _ (byte_at_lt _ _) (byte_at_lt _ _)]
  unfold le16_at
  split
  · constructor
    · intro h; cases h
    · intro h; omega
  · constructor
    · intro h
      cases h
      exact ⟨by omega, rfl⟩
    · rintro ⟨_, rfl⟩; rfl

theorem read_u32_ok_iff (data : List Byte) (offset v : Nat) (ho : offset < 2 ^ 63) :
    read_u32 data offset = .ok v ↔ offset + 4 ≤ data.length ∧ v = le32_at data offset := by
  unfold read_u32
  rw [size_t_wrap_of_lt (by omega : offset + 4 < 2 ^ 64),
    le32_bits _ _ _ _ (byte_at_lt _ _) (byte_at_lt _ _) (byte_at_lt _ _) (byte_at_lt _ _)]
  unfold le32_at
  split
  · constructor
    · intro h; cases h
    · intro h; omega
  · constructor
    · intro h
      cases h
      exact ⟨by omega, rfl⟩
    · rintro ⟨_, rfl⟩; rfl

theorem le16_at_lt (data : List Byte) (offset : Nat) : le16_at data offset < 2 ^ 16 := by
  have h0 := byte_at_lt data offset
  have h1 := byte_at_lt data (offset + 1)
  unfold le16_at
  omega

theorem le32_at_lt (data : List Byte) (offset : Nat) : le32_at data offset < 2 ^ 32 := by
  have h0 := byte_at_lt data offset
  have h1 := byte_at_lt data (offset + 1)
  have h2 := byte_at_lt data (offset + 2)
  have h3 := byte_at_lt data (offset + 3)
  unfold le32_at
  omega

theorem read_u32_error (data : List Byte) (offset : Nat) (e : error_code)
    (h : read_u32 data offset = .error e) : e = .ERROR_FORMAT := by
  unfold read_u32 at h
  split at h
  · cases h; rfl
  · cases h

theorem read_u16_error (data : List Byte) (offset : Nat) (e : error_code)
    (h : read_u16 data offset = .error e) : e = .ERROR_FORMAT := by
  unfold read_u16 at h
  split at h
  · cases h; rfl
  · cases h

theorem read_u32_eq (data : List Byte) (offset : Nat) (ho : offset < 2 ^ 63)
    (h : offset + 4 ≤ data.length) : read_u32 data offset = .ok (le32_at data offset) :=
  (read_u32_ok_iff data offset _ ho).2 ⟨h, rfl⟩

theorem read_u16_eq (data : List Byte) (offset : Nat) (ho : offset < 2 ^ 63)
    (h : offset + 2 ≤ data.length) : read_u16 data offset = .ok (le16_at data offset) :=
  (read_u16_ok_iff data offset _ ho).2 ⟨h, rfl⟩

/-- Past its explicit `base + 32` check an entry read never fails: it yields
the eight words at `base`. -/
theorem read_ph_entry_eq (data : List Byte) (base : Nat) (hb : base < 2 ^ 62) :
    read_ph_entry data base =
      if base + 32 ≤ data.length then .ok (ph_entry_at data base) else .error .ERROR_FORMAT := by
  unfold read_ph_entry
  rw [size_t_wrap_of_lt (by omega : base + 32 < 2 ^ 64)]
  by_cases h : base + 32 ≤ data.length
  · rw [if_neg (by omega), if_pos h,
      size_t_wrap_of_lt (by omega : base + 0 < 2 ^ 64),
      size_t_wrap_of_lt (by omega : base + 4 < 2 ^ 64),
      size_t_wrap_of_lt (by omega : base + 8 < 2 ^ 64),
      size_t_wrap_of_lt (by omega : base + 12 < 2 ^ 64),
      size_t_wrap_of_lt (by omega : base + 16 < 2 ^ 64),
      size_t_wrap_of_lt (by omega : base + 20 < 2 ^ 64),
      size_t_wrap_of_lt (by omega : base + 24 < 2 ^ 64),
      size_t_wrap_of_lt (by omega : base + 28 < 2 ^ 64),
      read_u32_eq data (base + 0) (by omega) (by omega),
      read_u32_eq data (base + 4) (by omega) (by omega),
      read_u32_eq data (base + 8) (by omega) (by omega),
      read_u32_eq data (base + 12) (by omega) (by omega),
      read_u32_eq data (base + 16) (by omega) (by omega),
      read_u32_eq data (base + 20) (by omega) (by omega),
      read_u32_eq data (base + 24) (by omega) (by omega),
      read_u32_eq data (base + 28) (by omega) (by omega)]
    rfl
  · rw [if_pos (by omega), if_neg h]

/-- The offset of entry `i` of the table fits a 64-bit `size_t` with room to
spare. -/
theorem ph_base_lt (phoff phentsize i : Nat) (hp : phoff < 2 ^ 32) (he : phentsize < 2 ^ 16)
    (hi : i ≤ 2 ^ 16) : phentsize * i < 2 ^ 32 ∧ phoff + phentsize * i < 2 ^ 33 := by
  have h : phentsize * i ≤ 65535 * 65536 :=
    Nat.mul_le_mul (by omega : phentsize ≤ 65535) (by omega : i ≤ 65536)
  constructor <;> omega

theorem ph_base_wrap (phoff phentsize i : Nat) (hp : phoff < 2 ^ 32) (he : phentsize < 2 ^ 16)
    (hi : i ≤ 2 ^ 16) :
    size_t_wrap (phoff + size_t_wrap (phentsize * i)) = phoff + phentsize * i := by
  have h := ph_base_lt phoff phentsize i hp he hi
  rw [size_t_wrap_of_lt (by omega : phentsize * i < 2 ^ 64), size_t_wrap_of_lt (by omega)]

/-- The program-header loop succeeds exactly when every entry passes its
`base + 32` check, and then yields the entries in table order. -/
theorem read_ph_table_ok_iff (data : List Byte) (phoff phentsize : Nat) (hp : phoff < 2 ^ 32)
    (he : phentsize < 2 ^ 16) :
    ∀ (n i : Nat) (segs : List elf32_ph_entry), i + n ≤ 2 ^ 16 →
      (read_ph_table data phoff phentsize n i = .ok segs ↔
        (∀ j, j < n → phoff + phentsize * (i + j) + 32 ≤ data.length) ∧
        segs = (List.range n).map (fun j => ph_entry_at data (phoff + phentsize * (i + j)))) := by
  intro n
  induction n with
  | zero =>
    intro i segs _
    simp only [read_ph_table, List.range_zero, List.map_nil]
    constructor
    · intro h; cases h; exact ⟨fun j hj => absurd hj (Nat.not_lt_zero j), rfl⟩
    · rintro ⟨_, rfl⟩; rfl
  | succ n ih =>
    intro i segs hin
    have hb := ph_base_lt phoff phentsize i hp he (by omega)
    simp only [read_ph_table]
    rw [ph_base_wrap phoff phentsize i hp he (by omega), read_ph_entry_eq data _ (by omega)]
    by_cases h0 : phoff + phentsize * i + 32 ≤ data.length
    · rw [if_pos h0]
      cases hrest : read_ph_table data phoff phentsize n (i + 1) with
      | error e =>
        simp only [bind, Except.bind]
        constructor
        · intro h; cases h
        · rintro ⟨hall, _⟩
          have := (ih (i + 1) _ (by omega)).2
            ⟨fun j hj => by
              have := hall (j + 1) (by omega)
              rwa [show i + 1 + j = i + (j + 1) by omega], rfl⟩
          rw [hrest] at this
          cases this
      | ok rest =>
        have hr := (ih (i + 1) rest (by omega)).1 hrest
        simp only [bind, Except.bind, pure, Except.pure]
        have hshift : (List.range (n + 1)).map
              (fun j => ph_entry_at data (phoff + phentsize * (i + j))) =
            ph_entry_at data (phoff + phentsize * i) ::
              (List.range n).map (fun j => ph_entry_at data (phoff + phentsize * (i + 1 + j))) := by
          rw [List.range_succ_eq_map, List.map_cons, List.map_map]
          congr 1
          apply List.map_congr_left
          intro j _
          simp only [Function.comp, Nat.succ_eq_add_one]
          congr 3
          omega
        rw [hshift, ← hr.2]
        constructor
        · intro h
          cases h
          refine ⟨?_, rfl⟩
          intro j hj
          cases j with
          | zero => simpa using h0
          | succ j =>
            have := hr.1 j (by omega)
            rwa [show i + 1 + j = i + (j + 1) by omega] at this
        · rintro ⟨_, rfl⟩; rfl
    · rw [if_neg h0]
      simp only [bind, Except.bind]
      constructor
      · intro h; cases h
      · rintro ⟨hall, _⟩
        exact absurd (by simpa using hall 0 (by omega)) h0

theorem read_ph_table_error (data : List Byte) (phoff phentsize : Nat) (hp : phoff < 2 ^ 32)
    (he : phentsize < 2 ^ 16) :
    ∀ (n i : Nat) (e : error_code), i + n ≤ 2 ^ 16 →
      read_ph_table data phoff phentsize n i = .error e → e = .ERROR_FORMAT := by
  intro n
  induction n with
  | zero => intro i e _ h; simp only [read_ph_table] at h; cases h
  | succ n ih =>
    intro i e hin h
    have hb := ph_base_lt phoff phentsize i hp he (by omega)
    simp only [read_ph_table] at h
    rw [ph_base_wrap phoff phentsize i hp he (by omega), read_ph_entry_eq data _ (by omega)] at h
    by_cases h0 : phoff + phentsize * i + 32 ≤ data.length
    · rw [if_pos h0] at h
      cases hrest : read_ph_table data phoff phentsize n (i + 1) with
      | error e' =>
        rw [hrest] at h
        simp only [bind, Except.bind] at h
        cases h
        exact ih (i + 1) _ (by omega) hrest
      | ok rest =>
        rw [hrest] at h
        simp only [bind, Except.bind, pure, Except.pure] at h
        cases h
    · rw [if_neg h0] at h
      simp only [bind, Except.bind] at h
      cases h
      rfl

/-- What `read_file` does on a non-empty stream: it accepts exactly the images
that satisfy `image_accepted`, decoding header and table at their offsets, and
raises the format failure on every other one. -/
theorem read_file_eq (stream : List Byte) (hne : stream ≠ []) :
    (image_accepted stream ∧ read_file stream =
        .ok { header := header_at stream, segments := segments_at stream, data := stream }) ∨
    (¬ image_accepted stream ∧ read_file stream = .error .ERROR_FORMAT) := by
  have hlen : stream.length ≠ 0 := fun h => hne (List.length_eq_zero.mp h)
  unfold read_file image_accepted
  rw [if_neg hlen]
  simp only [kElfHeaderSize, kIdentSize, kElfClass32, kElfDataLittleEndian]
  by_cases h52 : stream.length < 52
  · right; rw [if_pos h52]; exact ⟨fun h => by omega, rfl⟩
  rw [if_neg h52]
  by_cases hm : byte_at stream 0 ≠ 0x7f ∨ byte_at stream 1 ≠ 0x45 ∨ byte_at stream 2 ≠ 0x4c ∨
      byte_at stream 3 ≠ 0x46
  · right; rw [if_pos hm]
    refine ⟨fun h => ?_, rfl⟩
    obtain ⟨_, ⟨m0, m1, m2, m3⟩, _⟩ := h
    rcases hm with hm | hm | hm | hm <;> contradiction
  rw [if_neg hm]
  by_cases hc : byte_at stream 4 ≠ 1
  · right; rw [if_pos hc]; exact ⟨fun h => hc h.2.2.1, rfl⟩
  rw [if_neg hc]
  by_cases hd : byte_at stream 5 ≠ 1
  · right; rw [if_pos hd]; exact ⟨fun h => hd h.2.2.2.1, rfl⟩
  rw [if_neg hd]
  rw [read_u32_eq stream 24 (by omega) (by omega), read_u32_eq stream 28 (by omega) (by omega),
    read_u16_eq stream 42 (by omega) (by omega), read_u16_eq stream 44 (by omega) (by omega)]
  simp only [bind, Except.bind, header_at]
  have hp := le32_at_lt stream 28
  have he := le16_at_lt stream 42
  have hn := le16_at_lt stream 44
  by_cases ht : le32_at stream 28 < 16 ∨ le16_at stream 42 = 0
  · right; rw [if_pos ht]
    refine ⟨fun h => ?_, rfl⟩
    obtain ⟨_, _, _, _, h16, hz, _⟩ := h
    rcases ht with ht | ht
    · omega
    · exact hz ht
  rw [if_neg ht]
  have hsz := ph_base_lt (le32_at stream 28) (le16_at stream 42) (le16_at stream 44) hp he
    (by omega)
  rw [size_t_wrap_of_lt (by omega : le16_at stream 42 * le16_at stream 44 < 2 ^ 64),
    size_t_wrap_of_lt (by omega :
      le32_at stream 28 + le16_at stream 42 * le16_at stream 44 < 2 ^ 64)]
  by_cases hs : le32_at stream 28 + le16_at stream 42 * le16_at stream 44 > stream.length
  · right; rw [if_pos hs]
    refine ⟨fun h => ?_, rfl⟩
    have := h.2.2.2.2.2.2.1
    omega
  rw [if_neg hs]
  have hmm : (byte_at stream 0 = 0x7f ∧ byte_at stream 1 = 0x45 ∧ byte_at stream 2 = 0x4c ∧
      byte_at stream 3 = 0x46) := by
    refine ⟨?_, ?_, ?_, ?_⟩ <;> (by_contra hx; exact hm (by simp [hx]))
  cases htab : read_ph_table stream (le32_at stream 28) (le16_at stream 42)
      (le16_at stream 44) 0 with
  | error e =>
    right
    have hfmt := read_ph_table_error stream _ _ hp he _ 0 e (by omega) htab
    subst hfmt
    refine ⟨fun h => ?_, rfl⟩
    have hall := h.2.2.2.2.2.2.2
    have := (read_ph_table_ok_iff stream _ _ hp he (le16_at stream 44) 0 _ (by omega)).2
      ⟨fun j hj => by simpa using hall j hj, rfl⟩
    rw [htab] at this
    cases this
  | ok segs =>
    left
    have hok := (read_ph_table_ok_iff stream _ _ hp he (le16_at stream 44) 0 segs
      (by omega)).1 htab
    refine ⟨⟨by omega, hmm, by omega, by omega, by omega, fun h => ht (Or.inr h), by omega,
      fun i hi => by simpa using hok.1 i hi⟩, ?_⟩
    simp only [pure, Except.pure, segments_at, header_at]
    rw [hok.2]
    simp only [Nat.zero_add]

/-- An accepted image satisfies `image_accepted` and is decoded at the fixed
offsets; `data_` holds the stream. -/
theorem read_file_ok {stream : List Byte} {elf : elf_file} (h : read_file stream = .ok elf) :
    image_accepted stream ∧
      elf = { header := header_at stream, segments := segments_at stream, data := stream } := by
  have hne : stream ≠ [] := by
    rintro rfl
    simp [read_file] at h
  rcases read_file_eq stream hne with ⟨hacc, heq⟩ | ⟨_, heq⟩
  · rw [heq] at h
    cases h
    exact ⟨hacc, rfl⟩
  · rw [heq] at h
    cases h

/-- Every field of a decoded program header is a `uint32_t`. -/
theorem segments_at_lt {data : List Byte} {seg : elf32_ph_entry} (h : seg ∈ segments_at data) :
    seg.type < 2 ^ 32 ∧ seg.offset < 2 ^ 32 ∧ seg.vaddr < 2 ^ 32 ∧ seg.paddr < 2 ^ 32 ∧
      seg.filez < 2 ^ 32 := by
  unfold segments_at at h
  obtain ⟨i, _, rfl⟩ := List.mem_map.1 h
  exact ⟨le32_at_lt _ _, le32_at_lt _ _, le32_at_lt _ _, le32_at_lt _ _, le32_at_lt _ _⟩

/-! ## Claims about the ELF reader -/

/-- C1: for every byte sequence `read_file` accepts and every parsed segment,
if `filez > 0` and `offset + filez` is within the input then `content` returns
exactly `filez` bytes, the input bytes at `offset, offset + 1, ...` in order;
if `filez = 0` it returns the empty sequence whatever the offset. -/
theorem content_returns_slice (stream : List Byte) (elf : elf_file)
    (hread : read_file stream = .ok elf) (seg : elf32_ph_entry) (hseg : seg ∈ elf.segments) :
    (0 < seg.filez → seg.offset + seg.filez ≤ stream.length →
      ∃ bytes, content elf seg = .ok bytes ∧ bytes.length = seg.filez ∧
        ∀ i, i < seg.filez → bytes[i]? = stream[seg.offset + i]?) ∧
    (seg.filez = 0 → content elf seg = .ok []) := by
  obtain ⟨_, rfl⟩ := read_file_ok hread
  constructor
  · intro hpos hin
    have hle : u32 (seg.offset + seg.filez) ≤ seg.offset + seg.filez := Nat.mod_le _ _
    refine ⟨(stream.drop seg.offset).take seg.filez, ?_, ?_, ?_⟩
    · unfold content
      rw [if_neg (by omega), if_neg (by simp only; omega)]
    · rw [List.length_take, List.length_drop]
      omega
    · intro i hi
      rw [List.getElem?_take_of_lt hi, List.getElem?_drop]
  · intro hz
    unfold content
    rw [if_pos hz]

theorem content_returns_slice_witness :
    (0 < small_segment.filez → small_segment.offset + small_segment.filez ≤ small_image.length →
      ∃ bytes, content small_elf small_segment = .ok bytes ∧ bytes.length = small_segment.filez ∧
        ∀ i, i < small_segment.filez → bytes[i]? = small_image[small_segment.offset + i]?) ∧
    (small_segment.filez = 0 → content small_elf small_segment = .ok []) :=
  content_returns_slice small_image small_elf (by rfl) small_segment
    (List.mem_singleton.2 rfl)

/-- C8: on a non-empty input `read_file` raises the format failure whenever
the input has fewer than 52 bytes, or bytes 0..3 are not `0x7F 'E' 'L' 'F'`, or
byte 4 is not 1, or byte 5 is not 1, or `phoff < 16`, or `phentsize = 0`, or
`phoff + phentsize * phnum` exceeds the input's length; so every accepted image
has none of these defects. -/
theorem read_file_rejects_malformed (stream : List Byte) (hne : stream ≠ []) :
    ((stream.length < 52 ∨
        ¬ (byte_at stream 0 = 0x7f ∧ byte_at stream 1 = 0x45 ∧ byte_at stream 2 = 0x4c ∧
            byte_at stream 3 = 0x46) ∨
        byte_at stream 4 ≠ 1 ∨ byte_at stream 5 ≠ 1 ∨
        le32_at stream 28 < 16 ∨ le16_at stream 42 = 0 ∨
        le32_at stream 28 + le16_at stream 42 * le16_at stream 44 > stream.length) →
      read_file stream = .error .ERROR_FORMAT) ∧
    (∀ elf, read_file stream = .ok elf →
      52 ≤ stream.length ∧
      (byte_at stream 0 = 0x7f ∧ byte_at stream 1 = 0x45 ∧ byte_at stream 2 = 0x4c ∧
        byte_at stream 3 = 0x46) ∧
      byte_at stream 4 = 1 ∧ byte_at stream 5 = 1 ∧
      16 ≤ elf.header.phoff ∧ 0 < elf.header.phentsize ∧
      elf.header.phoff + elf.header.phentsize * elf.header.phnum ≤ stream.length) := by
  constructor
  · intro hbad
    rcases read_file_eq stream hne with ⟨hacc, _⟩ | ⟨_, heq⟩
    · exfalso
      obtain ⟨h52, hm, hc, hd, hp, he, hs, _⟩ := hacc
      simp only [header_at] at hp he hs
      rcases hbad with h | h | h | h | h | h | h
      · omega
      · exact h hm
      · exact h hc
      · exact h hd
      · omega
      · exact he h
      · omega
    · exact heq
  · intro elf hread
    obtain ⟨⟨h52, hm, hc, hd, hp, he, hs, _⟩, rfl⟩ := read_file_ok hread
    exact ⟨h52, hm, hc, hd, hp, Nat.pos_of_ne_zero he, hs⟩

theorem read_file_rejects_malformed_witness :
    read_file [0x7f, 0x45, 0x4c, 0x46, 2, 1] = .error .ERROR_FORMAT :=
  (read_file_rejects_malformed [0x7f, 0x45, 0x4c, 0x46, 2, 1] (by decide)).1
    (Or.inl (by decide))

/-- C9: for every image `read_file` accepts, `header.entry` and `header.phoff`
are the little-endian 32-bit values at offsets 24 and 28, `header.phentsize`
and `header.phnum` the little-endian 16-bit values at offsets 42 and 44;
`segments` has exactly `phnum` entries; and entry `i` has type, offset, vaddr,
paddr, file size, mem size, flags and align equal to the little-endian 32-bit
values at `phoff + i * phentsize + 0, 4, 8, 12, 16, 20, 24, 28`. -/
theorem read_file_decodes_fields (stream : List Byte) (elf : elf_file)
    (hread : read_file stream = .ok elf) :
    elf.header.entry = le32_at stream 24 ∧ elf.header.phoff = le32_at stream 28 ∧
    elf.header.phentsize = le16_at stream 42 ∧ elf.header.phnum = le16_at stream 44 ∧
    elf.segments.length = elf.header.phnum ∧
    ∀ i, i < elf.header.phnum →
      ∃ seg, elf.segments[i]? = some seg ∧
        seg.type = le32_at stream (elf.header.phoff + i * elf.header.phentsize + 0) ∧
        seg.offset = le32_at stream (elf.header.phoff + i * elf.header.phentsize + 4) ∧
        seg.vaddr = le32_at stream (elf.header.phoff + i * elf.header.phentsize + 8) ∧
        seg.paddr = le32_at stream (elf.header.phoff + i * elf.header.phentsize + 12) ∧
        seg.filez = le32_at stream (elf.header.phoff + i * elf.header.phentsize + 16) ∧
        seg.memsz = le32_at stream (elf.header.phoff + i * elf.header.phentsize + 20) ∧
        seg.flags = le32_at stream (elf.header.phoff + i * elf.header.phentsize + 24) ∧
        seg.align = le32_at stream (elf.header.phoff + i * elf.header.phentsize + 28) := by
  obtain ⟨_, rfl⟩ := read_file_ok hread
  refine ⟨rfl, rfl, rfl, rfl, ?_, ?_⟩
  · simp [segments_at]
  · intro i hi
    refine ⟨ph_entry_at stream ((header_at stream).phoff + (header_at stream).phentsize * i),
      ?_, ?_⟩
    · simp only [segments_at]
      rw [List.getElem?_map, List.getElem?_range hi]
      rfl
    · simp only [Nat.mul_comm i, Nat.add_zero]
      exact ⟨rfl, rfl, rfl, rfl, rfl, rfl, rfl, rfl⟩

theorem read_file_decodes_fields_witness :
    small_elf.header.entry = le32_at small_image 24 ∧
    small_elf.header.phoff = le32_at small_image 28 ∧
    small_elf.header.phentsize = le16_at small_image 42 ∧
    small_elf.header.phnum = le16_at small_image 44 ∧
    small_elf.segments.length = small_elf.header.phnum ∧
    ∀ i, i < small_elf.header.phnum →
      ∃ seg, small_elf.segments[i]? = some seg ∧
        seg.type = le32_at small_image (small_elf.header.phoff + i * small_elf.header.phentsize + 0) ∧
        seg.offset = le32_at small_image (small_elf.header.phoff + i * small_elf.header.phentsize + 4) ∧
        seg.vaddr = le32_at small_image (small_elf.header.phoff + i * small_elf.header.phentsize + 8) ∧
        seg.paddr = le32_at small_image (small_elf.header.phoff + i * small_elf.header.phentsize + 12) ∧
        seg.filez = le32_at small_image (small_elf.header.phoff + i * small_elf.header.phentsize + 16) ∧
        seg.memsz = le32_at small_image (small_elf.header.phoff + i * small_elf.header.phentsize + 20) ∧
        seg.flags = le32_at small_image (small_elf.header.phoff + i * small_elf.header.phentsize + 24) ∧
        seg.align = le32_at small_image (small_elf.header.phoff + i * small_elf.header.phentsize + 28) :=
  read_file_decodes_fields small_image small_elf (by rfl)

/-- C10, evaluated on `wrapping_image`: the image is accepted, its segment has
`filez = 2 > 0` and `offset + filez = 2 ^ 32 + 1` far beyond the 84 bytes of the
image, yet `content` does not raise the format failure: the 32-bit sum is 1,
the guard passes and the copy is attempted. -/
theorem content_guard_wraps :
    read_file wrapping_image = .ok wrapping_elf ∧
    wrapping_segment ∈ wrapping_elf.segments ∧
    0 < wrapping_segment.filez ∧
    wrapping_image.length < wrapping_segment.offset + wrapping_segment.filez ∧
    u32 (wrapping_segment.offset + wrapping_segment.filez) = 1 ∧
    content wrapping_elf wrapping_segment ≠ .error .ERROR_FORMAT := by
  refine ⟨by rfl, List.mem_singleton.2 rfl, by decide, by decide, by decide, ?_⟩
  intro h
  have hok : content wrapping_elf wrapping_segment = .ok [] := by rfl
  rw [hok] at h
  cases h

/-! ## Claims about the planner -/

/-- The state the segment loop ends in, in terms of the image's segments, when
flash writes are allowed. -/
theorem plan_flash_state (layout : MemoryLayout) (elf : elf_file) (st : PlanState)
    (hplan : plan_segments layout true elf PlanState.init elf.segments = .ok st) :
    st.flash_erase_ranges = (flash_inputs layout elf).map erase_range_of ∧
    st.flash_pages =
      (flash_inputs layout elf).foldl (fun pages p => store_bytes p.1 p.2 0 pages) [] ∧
    st.ram_segments =
      (load_inputs elf elf.segments).filter (fun p => !is_flash_address p.1 layout) := by
  have h := plan_segments_eq_place_all layout true elf elf.segments _ _ hplan
  obtain ⟨h1, h2, h3, _, _⟩ := place_all_flash layout (load_inputs elf elf.segments) PlanState.init
  rw [← h] at h1 h2 h3
  exact ⟨by simpa [PlanState.init, flash_inputs] using h1,
    by simpa [PlanState.init, flash_inputs] using h2,
    by simpa [PlanState.init] using h3⟩

/-- The state the segment loop ends in when flash writes are not allowed. -/
theorem plan_mirror_state (layout : MemoryLayout) (elf : elf_file) (st : PlanState)
    (hplan : plan_segments layout false elf PlanState.init elf.segments = .ok st) :
    st.flash_erase_ranges = [] ∧ st.flash_pages = [] ∧
    st.ram_segments = (load_inputs elf elf.segments).filterMap (ram_target layout) := by
  have h := plan_segments_eq_place_all layout false elf elf.segments _ _ hplan
  obtain ⟨h1, h2, h3⟩ := place_all_mirror layout (load_inputs elf elf.segments) PlanState.init
  rw [← h] at h1 h2 h3
  exact ⟨by simpa [PlanState.init] using h1, by simpa [PlanState.init] using h2,
    by simpa [PlanState.init] using h3⟩

/-- The page of any byte of a segment that does not wrap lies inside the
segment's erase range. -/
theorem page_within_erase_range (addr len j : Nat) (h : addr + len + 4095 < 2 ^ 32)
    (hj : j < len) :
    align_down addr kFlashSectorSize ≤ u32 (addr + u32 j) / 256 * 256 ∧
    u32 (addr + u32 j) / 256 * 256 + 256 ≤
      align_up (u32 (addr + u32 len)) kFlashSectorSize := by
  rw [align_down_sector, align_up_sector]
  unfold u32
  omega

/-- The erase range of a segment that does not wrap has `start ≤ end`. -/
theorem erase_range_ordered (p : Nat × List Byte) (h : p.1 + p.2.length + 4095 < 2 ^ 32) :
    (erase_range_of p).start ≤ (erase_range_of p).end_ := by
  unfold erase_range_of
  simp only
  rw [align_down_sector, align_up_sector]
  unfold u32
  omega

/-- Both bounds of a recorded erase range are multiples of the sector size. -/
theorem erase_range_aligned (p : Nat × List Byte) :
    (erase_range_of p).start % 4096 = 0 ∧ (erase_range_of p).end_ % 4096 = 0 := by
  unfold erase_range_of
  simp only
  rw [align_down_sector, align_up_sector]
  omega

/-- C2 (erase coverage): with `allow_flash = true`, if no flash segment wraps
around the 32-bit address space (`addr + len + 4095 < 2 ^ 32`), every page base
of the planned flash page map lies in a range of the merged erase list:
`start ≤ page_base` and `page_base + 256 ≤ end`. -/
theorem erase_covers_pages (layout : MemoryLayout) (elf : elf_file) (st : PlanState)
    (hplan : plan_segments layout true elf PlanState.init elf.segments = .ok st)
    (hnowrap : ∀ p ∈ flash_inputs layout elf, p.1 + p.2.length + 4095 < 2 ^ 32) :
    ∀ page ∈ st.flash_pages, ∃ r ∈ merge_ranges st.flash_erase_ranges,
      r.start ≤ page.1 ∧ page.1 + 256 ≤ r.end_ := by
  obtain ⟨hranges, hpages, _⟩ := plan_flash_state layout elf st hplan
  intro page hpage
  have hkey : page.1 ∈ page_keys st.flash_pages := List.mem_map.2 ⟨page, hpage, rfl⟩
  rw [hpages, store_all_keys] at hkey
  rcases hkey with hkey | ⟨p, hp, j, hj, hk⟩
  · cases hkey
  · have hin := page_within_erase_range p.1 p.2.length j (hnowrap p hp) hj
    obtain ⟨o, ho, h1, h2⟩ := merge_ranges_covers st.flash_erase_ranges (erase_range_of p)
      (by rw [hranges]; exact List.mem_map.2 ⟨p, hp, rfl⟩)
    refine ⟨o, ho, ?_, ?_⟩
    · rw [hk]
      exact Nat.le_trans h1 hin.1
    · rw [hk]
      exact Nat.le_trans hin.2 h2

set_option maxRecDepth 100000 in
theorem erase_covers_pages_witness :
    (planned rp2040_layout true flash_elf).flash_pages.map Prod.fst = [0x10000000, 0x10000100] ∧
    merge_ranges (planned rp2040_layout true flash_elf).flash_erase_ranges =
      [⟨0x10000000, 0x10001000⟩] ∧
    ∀ page ∈ (planned rp2040_layout true flash_elf).flash_pages,
      ∃ r ∈ merge_ranges (planned rp2040_layout true flash_elf).flash_erase_ranges,
        r.start ≤ page.1 ∧ page.1 + 256 ≤ r.end_ :=
  ⟨by rfl, by rfl,
   erase_covers_pages rp2040_layout flash_elf (planned rp2040_layout true flash_elf) (by rfl)
    (by decide)⟩

/-- C7: every range of the emitted erase list has `start` and `end` multiples
of 4096; `merge_ranges` applied to ranges with `start ≤ end` yields a list in
which any two consecutive ranges `r`, `r'` satisfy `r.start < r'.start` and
`r.end < r'.start`; and the per-segment ranges do satisfy `start ≤ end`, hence
the emitted list is sorted and disjoint, when no flash segment wraps around
the 32-bit address space. -/
theorem erase_list_aligned_sorted_disjoint :
    (∀ (layout : MemoryLayout) (allow_flash : Bool) (elf : elf_file) (st : PlanState),
      plan_segments layout allow_flash elf PlanState.init elf.segments = .ok st →
      ∀ r ∈ merge_ranges st.flash_erase_ranges, r.start % 4096 = 0 ∧ r.end_ % 4096 = 0) ∧
    (∀ ranges : List Range, (∀ r ∈ ranges, r.start ≤ r.end_) →
      List.Chain' (fun r r' : Range => r.start < r'.start ∧ r.end_ < r'.start)
        (merge_ranges ranges)) ∧
    (∀ (layout : MemoryLayout) (allow_flash : Bool) (elf : elf_file) (st : PlanState),
      plan_segments layout allow_flash elf PlanState.init elf.segments = .ok st →
      (∀ p ∈ flash_inputs layout elf, p.1 + p.2.length + 4095 < 2 ^ 32) →
      List.Chain' (fun r r' : Range => r.start < r'.start ∧ r.end_ < r'.start)
        (merge_ranges st.flash_erase_ranges)) := by
  have hranges : ∀ (layout : MemoryLayout) (allow_flash : Bool) (elf : elf_file)
      (st : PlanState), plan_segments layout allow_flash elf PlanState.init elf.segments = .ok st →
      ∀ r ∈ st.flash_erase_ranges, ∃ p ∈ flash_inputs layout elf, r = erase_range_of p := by
    intro layout allow_flash elf st hplan r hr
    cases allow_flash with
    | false =>
      rw [(plan_mirror_state layout elf st hplan).1] at hr
      cases hr
    | true =>
      rw [(plan_flash_state layout elf st hplan).1] at hr
      obtain ⟨p, hp, rfl⟩ := List.mem_map.1 hr
      exact ⟨p, hp, rfl⟩
  refine ⟨?_, merge_ranges_chain, ?_⟩
  · intro layout allow_flash elf st hplan r hr
    obtain ⟨⟨x, hx, hxs⟩, ⟨y, hy, hye⟩⟩ := merge_ranges_bounds _ r hr
    obtain ⟨p, _, rfl⟩ := hranges layout allow_flash elf st hplan x hx
    obtain ⟨q, _, rfl⟩ := hranges layout allow_flash elf st hplan y hy
    rw [hxs, hye]
    exact ⟨(erase_range_aligned p).1, (erase_range_aligned q).2⟩
  · intro layout allow_flash elf st hplan hnowrap
    apply merge_ranges_chain
    intro r hr
    obtain ⟨p, hp, rfl⟩ := hranges layout allow_flash elf st hplan r hr
    exact erase_range_ordered p (hnowrap p hp)

set_option maxRecDepth 100000 in
theorem erase_list_aligned_sorted_disjoint_witness :
    (∀ r ∈ merge_ranges (planned rp2040_layout true flash_elf).flash_erase_ranges,
      r.start % 4096 = 0 ∧ r.end_ % 4096 = 0) ∧
    List.Chain' (fun r r' : Range => r.start < r'.start ∧ r.end_ < r'.start)
      (merge_ranges [⟨0x10003000, 0x10004000⟩, ⟨0x10000000, 0x10001000⟩,
        ⟨0x10001000, 0x10002000⟩]) ∧
    List.Chain' (fun r r' : Range => r.start < r'.start ∧ r.end_ < r'.start)
      (merge_ranges (planned rp2040_layout true flash_elf).flash_erase_ranges) :=
  ⟨erase_list_aligned_sorted_disjoint.1 rp2040_layout true flash_elf _ (by rfl),
   erase_list_aligned_sorted_disjoint.2.1 _ (by decide),
   erase_list_aligned_sorted_disjoint.2.2 rp2040_layout true flash_elf _ (by rfl) (by decide)⟩

/-- C4 (mirror rule): with `allow_flash = false`, a loadable segment with
non-empty bytes whose load address satisfies `flash_start ≤ addr < flash_end`
and `addr - flash_start + len ≤ sram_end - sram_start` makes the loop body
append exactly the RAM write `(sram_start + (addr - flash_start), bytes)` and
set `mirrored`; the erase list, the page map and `skipped` are left as they
were.  For the RP2040 layout, an image whose only segment is 1024 bytes at
`0x10000000` is planned as the single RAM write at `0x20000000` with
`mirrored = true` and `skipped = false`. -/
theorem mirror_rule :
    (∀ (layout : MemoryLayout) (elf : elf_file) (st : PlanState) (seg : elf32_ph_entry)
        (data : List Byte),
      layout.sram_end < 2 ^ 32 → seg.type = 1 → content elf seg = .ok data → data ≠ [] →
      kFlashStart ≤ segment_address seg → segment_address seg < layout.flash_end →
      segment_address seg - kFlashStart + data.length ≤ layout.sram_end - kSramStart →
      plan_segment layout false elf st seg =
        .ok { st with
              mirrored_flash_segments := true,
              ram_segments :=
                st.ram_segments ++ [(kSramStart + (segment_address seg - kFlashStart), data)] }) ∧
    (∀ (elf : elf_file) (seg : elf32_ph_entry) (data : List Byte),
      elf.segments = [seg] → seg.type = 1 → segment_address seg = 0x10000000 →
      content elf seg = .ok data → data.length = 1024 →
      plan_segments rp2040_layout false elf PlanState.init elf.segments =
        .ok { ram_segments := [(0x20000000, data)], flash_pages := [], flash_erase_ranges := [],
              skipped_flash_segments := false, mirrored_flash_segments := true }) := by
  have hgen : ∀ (layout : MemoryLayout) (elf : elf_file) (st : PlanState) (seg : elf32_ph_entry)
        (data : List Byte),
      layout.sram_end < 2 ^ 32 → seg.type = 1 → content elf seg = .ok data → data ≠ [] →
      kFlashStart ≤ segment_address seg → segment_address seg < layout.flash_end →
      segment_address seg - kFlashStart + data.length ≤ layout.sram_end - kSramStart →
      plan_segment layout false elf st seg =
        .ok { st with
              mirrored_flash_segments := true,
              ram_segments :=
                st.ram_segments ++ [(kSramStart + (segment_address seg - kFlashStart), data)] } := by
    intro layout elf st seg data hs htype hcontent hdata hlo hhi hfit
    have hlen : 0 < data.length := List.length_pos.2 hdata
    have hfilez : seg.filez ≠ 0 := by
      intro hz
      unfold content at hcontent
      rw [if_pos hz] at hcontent
      cases hcontent
      exact hdata rfl
    have hempty : data.isEmpty = false := by
      cases data with
      | nil => exact absurd rfl hdata
      | cons _ _ => rfl
    have haddr : segment_address seg ≠ 0 := by
      unfold kFlashStart at hlo
      omega
    have hflash : is_flash_address (segment_address seg) layout = true := by
      simp [is_flash_address, hlo, hhi]
    have hmap : map_flash_to_sram (segment_address seg) (u32 data.length) layout =
        some (kSramStart + (segment_address seg - kFlashStart)) := by
      unfold map_flash_to_sram
      unfold kFlashStart kSramStart at *
      rw [if_neg (by omega)]
      have h1 : u32 (segment_address seg - 268435456) = segment_address seg - 268435456 :=
        u32_of_lt (by omega)
      have h2 : u32 (536870912 + (segment_address seg - 268435456)) =
          536870912 + (segment_address seg - 268435456) := u32_of_lt (by omega)
      have h3 : u32 data.length = data.length := u32_of_lt (by omega)
      have h4 : u32 (536870912 + (segment_address seg - 268435456) + data.length) =
          536870912 + (segment_address seg - 268435456) + data.length := u32_of_lt (by omega)
      simp only [h1, h2, h3, h4]
      rw [if_neg (by omega)]
    unfold plan_segment
    simp only [elf32_ph_entry.is_load, htype, hcontent, hempty, haddr, place_segment, hflash, hmap]
    simp [hfilez]
  refine ⟨hgen, ?_⟩
  intro elf seg data hsegs htype haddr hcontent hlen
  have hdata : data ≠ [] := by
    intro h
    rw [h] at hlen
    cases hlen
  rw [hsegs]
  simp only [plan_segments]
  rw [hgen rp2040_layout elf PlanState.init seg data (by decide) htype hcontent hdata
    (by rw [haddr]; decide) (by rw [haddr]; decide) (by rw [haddr, hlen]; decide)]
  simp only [haddr, PlanState.init]
  rfl

set_option maxRecDepth 100000 in
theorem mirror_rule_witness :
    plan_segment rp2040_layout false mirror_elf PlanState.init mirror_segment =
      .ok { PlanState.init with
            mirrored_flash_segments := true,
            ram_segments := [(0x20000000, [9, 8, 7, 6])] } ∧
    plan_segments rp2040_layout false mirror_1k_elf PlanState.init mirror_1k_elf.segments =
      .ok { ram_segments := [(0x20000000, List.replicate 1024 0x5a)], flash_pages := [],
            flash_erase_ranges := [], skipped_flash_segments := false,
            mirrored_flash_segments := true } :=
  ⟨mirror_rule.1 rp2040_layout mirror_elf PlanState.init mirror_segment [9, 8, 7, 6]
      (by decide) (by rfl) (by rfl) (by decide) (by decide) (by decide) (by decide),
   mirror_rule.2 mirror_1k_elf { mirror_segment with filez := 1024, memsz := 1024 }
      (List.replicate 1024 0x5a) (by rfl) (by rfl) (by rfl) (by rfl) (by rfl)⟩

theorem load_inputs_nonempty (elf : elf_file) (segments : List elf32_ph_entry)
    (p : Nat × List Byte) (hp : p ∈ load_inputs elf segments) : p.2 ≠ [] := by
  unfold load_inputs at hp
  obtain ⟨seg, _, hseg⟩ := List.mem_filterMap.1 hp
  split at hseg
  · split at hseg
    · split at hseg
      · cases hseg
      · rename_i hd
        cases hseg
        exact hd
    · cases hseg
  · cases hseg

theorem store_bytes_sorted (addr : Nat) (data : List Byte) :
    ∀ (i : Nat) (pages : PageMap), List.Sorted (· < ·) (page_keys pages) →
      List.Sorted (· < ·) (page_keys (store_bytes addr data i pages)) := by
  induction data with
  | nil => intro i pages h; exact h
  | cons b rest ih =>
    intro i pages h
    simp only [store_bytes]
    apply ih
    rw [store_byte_eq _ _ (u32_lt _)]
    exact page_put_sorted _ _ _ h

theorem store_all_sorted (inputs : List (Nat × List Byte)) :
    ∀ pages : PageMap, List.Sorted (· < ·) (page_keys pages) →
      List.Sorted (· < ·)
        (page_keys (inputs.foldl (fun pages p => store_bytes p.1 p.2 0 pages) pages)) := by
  induction inputs with
  | nil => intro pages h; exact h
  | cons p rest ih =>
    intro pages h
    rw [List.foldl_cons]
    exact ih _ (store_bytes_sorted p.1 p.2 0 pages h)

/-- The planned page map is iterated in strictly ascending order of page
base. -/
theorem plan_pages_sorted (layout : MemoryLayout) (allow_flash : Bool) (elf : elf_file)
    (st : PlanState)
    (hplan : plan_segments layout allow_flash elf PlanState.init elf.segments = .ok st) :
    List.Sorted (· < ·) (page_keys st.flash_pages) := by
  cases allow_flash with
  | false =>
    rw [(plan_mirror_state layout elf st hplan).2.1]
    exact List.sorted_nil
  | true =>
    rw [(plan_flash_state layout elf st hplan).2.1]
    exact store_all_sorted _ [] List.sorted_nil

/-- Erase ranges are recorded only together with flash pages. -/
theorem plan_ranges_nil_of_pages_nil (layout : MemoryLayout) (allow_flash : Bool)
    (elf : elf_file) (st : PlanState)
    (hplan : plan_segments layout allow_flash elf PlanState.init elf.segments = .ok st)
    (hpages : st.flash_pages = []) : st.flash_erase_ranges = [] := by
  cases allow_flash with
  | false => exact (plan_mirror_state layout elf st hplan).1
  | true =>
    obtain ⟨h1, h2, _⟩ := plan_flash_state layout elf st hplan
    rw [h1]
    cases hin : flash_inputs layout elf with
    | nil => rfl
    | cons p rest =>
      exfalso
      have hp : p ∈ flash_inputs layout elf := by rw [hin]; exact List.mem_cons_self _ _
      have hne : p.2 ≠ [] :=
        load_inputs_nonempty elf elf.segments p (List.mem_of_mem_filter hp)
      have hkey : u32 (p.1 + u32 0) / 256 * 256 ∈ page_keys st.flash_pages := by
        rw [h2, store_all_keys]
        exact Or.inr ⟨p, hp, 0, List.length_pos.2 hne, rfl⟩
      rw [hpages] at hkey
      cases hkey

/-- The shape of lines 164-183's output for a planned state. -/
theorem emit_writes_eq (st : PlanState) (h : st.flash_pages = [] → st.flash_erase_ranges = []) :
    emit_writes st =
      (if st.flash_pages = [] then [] else [PlanOp.ExitXip]) ++
      (merge_ranges st.flash_erase_ranges).map (fun r => PlanOp.FlashErase r.start r.end_) ++
      st.ram_segments.map (fun s => PlanOp.RamWrite s.1 s.2) ++
      st.flash_pages.map (fun pg => PlanOp.FlashWrite pg.1 pg.2) := by
  unfold emit_writes
  by_cases hp : st.flash_pages = []
  · rw [h hp, hp]
    simp [merge_ranges_nil]
  · have : st.flash_pages.isEmpty = false := by
      cases hq : st.flash_pages with
      | nil => exact absurd hq hp
      | cons _ _ => rfl
    rw [this, if_neg hp]
    simp

theorem exec_not_mem_emit_writes (st : PlanState) (a : Nat) :
    PlanOp.Exec a ∉ emit_writes st := by
  unfold emit_writes
  simp only [List.mem_append, List.mem_map, not_or, not_exists, not_and]
  refine ⟨⟨?_, ?_⟩, ?_⟩
  · split
    · simp
    · simp
  · intro x _ h; cases h
  · intro x _ h; cases h

/-- The RAM writes of a planned state are those of the loadable segments, in
input order. -/
theorem plan_ram_segments (layout : MemoryLayout) (allow_flash : Bool) (elf : elf_file)
    (st : PlanState)
    (hplan : plan_segments layout allow_flash elf PlanState.init elf.segments = .ok st) :
    st.ram_segments =
      (load_inputs elf elf.segments).filterMap (ram_write_of layout allow_flash) := by
  cases allow_flash with
  | false =>
    rw [(plan_mirror_state layout elf st hplan).2.2]
    rfl
  | true =>
    rw [(plan_flash_state layout elf st hplan).2.2]
    generalize load_inputs elf elf.segments = inputs
    induction inputs with
    | nil => rfl
    | cons p rest ih =>
      rw [List.filter_cons, List.filterMap_cons]
      by_cases hf : is_flash_address p.1 layout = true
      · simp [ram_write_of, hf, ih]
      · simp [ram_write_of, hf, ih]

/-- The content of a segment whose bytes lie inside the image. -/
theorem content_in_range (elf : elf_file) (seg : elf32_ph_entry) (hpos : seg.filez ≠ 0)
    (hin : seg.offset + seg.filez ≤ elf.data.length) :
    content elf seg = .ok ((elf.data.drop seg.offset).take seg.filez) := by
  have hle : u32 (seg.offset + seg.filez) ≤ seg.offset + seg.filez := Nat.mod_le _ _
  unfold content
  rw [if_neg hpos, if_neg (by omega)]

/-- The empty-plan condition of `run_dryrun`. -/
theorem plan_elf_empty (layout : MemoryLayout) (elf : elf_file) (allow_flash exec_after : Bool)
    (st : PlanState)
    (hplan : plan_segments layout allow_flash elf PlanState.init elf.segments = .ok st)
    (hemp : (!allow_flash && st.flash_pages.isEmpty && st.ram_segments.isEmpty) = true) :
    plan_elf layout elf allow_flash exec_after =
      { trace := [], mirrored := st.mirrored_flash_segments,
        skipped := st.skipped_flash_segments, exit_code := 1 } := by
  unfold plan_elf
  rw [hplan]
  simp only
  rw [if_pos hemp]

theorem plan_elf_no_exec (layout : MemoryLayout) (elf : elf_file) (allow_flash : Bool)
    (st : PlanState)
    (hplan : plan_segments layout allow_flash elf PlanState.init elf.segments = .ok st)
    (hemp : ¬ (!allow_flash && st.flash_pages.isEmpty && st.ram_segments.isEmpty) = true) :
    plan_elf layout elf allow_flash false =
      { trace := emit_writes st, mirrored := st.mirrored_flash_segments,
        skipped := st.skipped_flash_segments, exit_code := 0 } := by
  unfold plan_elf
  rw [hplan]
  simp only
  rw [if_neg hemp]
  simp

theorem plan_elf_exec_ok (layout : MemoryLayout) (elf : elf_file) (allow_flash : Bool)
    (st : PlanState) (a : Nat)
    (hplan : plan_segments layout allow_flash elf PlanState.init elf.segments = .ok st)
    (hemp : ¬ (!allow_flash && st.flash_pages.isEmpty && st.ram_segments.isEmpty) = true)
    (hexec : plan_exec layout allow_flash elf.header.entry = .ok a) :
    plan_elf layout elf allow_flash true =
      { trace := emit_writes st ++ [PlanOp.Exec a], mirrored := st.mirrored_flash_segments,
        skipped := st.skipped_flash_segments, exit_code := 0 } := by
  unfold plan_elf
  rw [hplan]
  simp only
  rw [if_neg hemp, hexec]
  simp

theorem plan_elf_exec_error (layout : MemoryLayout) (elf : elf_file) (allow_flash : Bool)
    (st : PlanState) (e : exec_failure)
    (hplan : plan_segments layout allow_flash elf PlanState.init elf.segments = .ok st)
    (hemp : ¬ (!allow_flash && st.flash_pages.isEmpty && st.ram_segments.isEmpty) = true)
    (hexec : plan_exec layout allow_flash elf.header.entry = .error e) :
    plan_elf layout elf allow_flash true =
      { trace := emit_writes st, mirrored := st.mirrored_flash_segments,
        skipped := st.skipped_flash_segments, exit_code := 1 } := by
  unfold plan_elf
  rw [hplan]
  simp only
  rw [if_neg hemp, hexec]
  simp

theorem plan_elf_error (layout : MemoryLayout) (elf : elf_file) (allow_flash exec_after : Bool)
    (e : plan_error)
    (hplan : plan_segments layout allow_flash elf PlanState.init elf.segments = .error e) :
    plan_elf layout elf allow_flash exec_after =
      { trace := [], mirrored := false, skipped := false, exit_code := 1 } := by
  unfold plan_elf
  rw [hplan]

/-- C5: a plan that succeeds is emitted in the fixed order: `ExitXip` (once,
and exactly when the page map is non-empty), every merged erase range in
ascending order, every RAM write in the input order of the segments that
produce one, every flash page in strictly ascending page base, and `Exec` if
and only if execution was requested.  For an image whose single `PT_LOAD` is
512 bytes at `0x20000100` with entry `0x20000100`, the dry run with
`allow_flash = false`, `exec_after = true` plans exactly
`[RamWrite 0x20000100 (512 bytes), Exec 0x20000100]`. -/
theorem plan_order :
    (∀ (layout : MemoryLayout) (elf : elf_file) (allow_flash exec_after : Bool),
      (plan_elf layout elf allow_flash exec_after).exit_code = 0 →
      ∃ (st : PlanState) (exec_ops : List PlanOp),
        plan_segments layout allow_flash elf PlanState.init elf.segments = .ok st ∧
        (plan_elf layout elf allow_flash exec_after).trace =
          (if st.flash_pages = [] then [] else [PlanOp.ExitXip]) ++
          (merge_ranges st.flash_erase_ranges).map (fun r => PlanOp.FlashErase r.start r.end_) ++
          st.ram_segments.map (fun s => PlanOp.RamWrite s.1 s.2) ++
          st.flash_pages.map (fun pg => PlanOp.FlashWrite pg.1 pg.2) ++ exec_ops ∧
        (exec_after = true → ∃ a, exec_ops = [PlanOp.Exec a]) ∧
        (exec_after = false → exec_ops = []) ∧
        (plan_elf layout elf allow_flash exec_after).trace.count PlanOp.ExitXip =
          (if st.flash_pages = [] then 0 else 1) ∧
        List.Sorted (fun a b : Range => a.start ≤ b.start)
          (merge_ranges st.flash_erase_ranges) ∧
        st.ram_segments =
          (load_inputs elf elf.segments).filterMap (ram_write_of layout allow_flash) ∧
        List.Sorted (· < ·) (st.flash_pages.map Prod.fst)) ∧
    (∀ (stream : List Byte) (elf : elf_file) (seg : elf32_ph_entry),
      read_file stream = .ok elf → elf.segments = [seg] → seg.type = 1 →
      segment_address seg = 0x20000100 → seg.filez = 512 →
      seg.offset + 512 ≤ stream.length → elf.header.entry = 0x20000100 →
      ∃ data : List Byte, data.length = 512 ∧
        (∀ i, i < 512 → data[i]? = stream[seg.offset + i]?) ∧
        run_dryrun stream false true =
          { trace := [PlanOp.RamWrite 0x20000100 data, PlanOp.Exec 0x20000100],
            mirrored := false, skipped := false, exit_code := 0 }) := by
  constructor
  · intro layout elf allow_flash exec_after hexit
    cases hplan : plan_segments layout allow_flash elf PlanState.init elf.segments with
    | error e =>
      rw [plan_elf_error layout elf allow_flash exec_after e hplan] at hexit
      cases hexit
    | ok st =>
      have hshape := emit_writes_eq st
        (plan_ranges_nil_of_pages_nil layout allow_flash elf st hplan)
      have hcount : (emit_writes st).count PlanOp.ExitXip =
          (if st.flash_pages = [] then 0 else 1) := by
        rw [hshape]
        simp only [List.count_append]
        have h1 : List.count PlanOp.ExitXip
            ((merge_ranges st.flash_erase_ranges).map
              (fun r => PlanOp.FlashErase r.start r.end_)) = 0 :=
          List.count_eq_zero.2 (by simp)
        have h2 : List.count PlanOp.ExitXip
            (st.ram_segments.map (fun s => PlanOp.RamWrite s.1 s.2)) = 0 :=
          List.count_eq_zero.2 (by simp)
        have h3 : List.count PlanOp.ExitXip
            (st.flash_pages.map (fun pg => PlanOp.FlashWrite pg.1 pg.2)) = 0 :=
          List.count_eq_zero.2 (by simp)
        rw [h1, h2, h3]
        split <;> simp
      have hrest : List.Sorted (fun a b : Range => a.start ≤ b.start)
            (merge_ranges st.flash_erase_ranges) ∧
          st.ram_segments =
            (load_inputs elf elf.segments).filterMap (ram_write_of layout allow_flash) ∧
          List.Sorted (· < ·) (st.flash_pages.map Prod.fst) :=
        ⟨merge_ranges_sorted _, plan_ram_segments layout allow_flash elf st hplan,
          plan_pages_sorted layout allow_flash elf st hplan⟩
      by_cases hemp :
          (!allow_flash && st.flash_pages.isEmpty && st.ram_segments.isEmpty) = true
      · rw [plan_elf_empty layout elf allow_flash exec_after st hplan hemp] at hexit
        cases hexit
      · cases exec_after with
        | true =>
          cases hexec : plan_exec layout allow_flash elf.header.entry with
          | error e =>
            rw [plan_elf_exec_error layout elf allow_flash st e hplan hemp hexec] at hexit
            cases hexit
          | ok a =>
            rw [plan_elf_exec_ok layout elf allow_flash st a hplan hemp hexec]
            refine ⟨st, [PlanOp.Exec a], rfl, by rw [hshape], fun _ => ⟨a, rfl⟩,
              (fun h => by cases h), ?_, hrest⟩
            simp only
            rw [List.count_append, hcount]
            simp
        | false =>
          rw [plan_elf_no_exec layout elf allow_flash st hplan hemp]
          exact ⟨st, [], rfl, by rw [hshape, List.append_nil], (fun h => by cases h),
            fun _ => rfl, hcount, hrest⟩
  · intro stream elf seg hread hsegs htype haddr hfilez hoff hentry
    have hdata : elf.data = stream := by
      obtain ⟨_, rfl⟩ := read_file_ok hread
      rfl
    have hcontent := content_in_range elf seg (by omega) (by rw [hdata]; omega)
    rw [hdata, hfilez] at hcontent
    refine ⟨(stream.drop seg.offset).take 512, ?_, ?_, ?_⟩
    · rw [List.length_take, List.length_drop]
      omega
    · intro i hi
      rw [List.getElem?_take_of_lt hi, List.getElem?_drop]
    · have hne : ((stream.drop seg.offset).take 512).isEmpty = false := by
        cases hq : (stream.drop seg.offset).take 512 with
        | nil =>
          have : ((stream.drop seg.offset).take 512).length = 512 := by
            rw [List.length_take, List.length_drop]
            omega
          rw [hq] at this
          cases this
        | cons _ _ => rfl
      unfold run_dryrun
      rw [hread]
      simp only [plan_elf, hsegs, plan_segments, plan_segment, elf32_ph_entry.is_load, htype,
        hfilez, haddr, hcontent, hne, hentry, place_segment]
      rfl

set_option maxRecDepth 100000 in
theorem plan_order_witness :
    (∃ (st : PlanState) (exec_ops : List PlanOp),
      plan_segments rp2040_layout true flash_elf PlanState.init flash_elf.segments = .ok st ∧
      (plan_elf rp2040_layout flash_elf true true).trace =
        (if st.flash_pages = [] then [] else [PlanOp.ExitXip]) ++
        (merge_ranges st.flash_erase_ranges).map (fun r => PlanOp.FlashErase r.start r.end_) ++
        st.ram_segments.map (fun s => PlanOp.RamWrite s.1 s.2) ++
        st.flash_pages.map (fun pg => PlanOp.FlashWrite pg.1 pg.2) ++ exec_ops ∧
      (true = true → ∃ a, exec_ops = [PlanOp.Exec a]) ∧
      (true = false → exec_ops = []) ∧
      (plan_elf rp2040_layout flash_elf true true).trace.count PlanOp.ExitXip =
        (if st.flash_pages = [] then 0 else 1) ∧
      List.Sorted (fun a b : Range => a.start ≤ b.start)
        (merge_ranges st.flash_erase_ranges) ∧
      st.ram_segments =
        (load_inputs flash_elf flash_elf.segments).filterMap (ram_write_of rp2040_layout true) ∧
      List.Sorted (· < ·) (st.flash_pages.map Prod.fst)) ∧
    (∃ data : List Byte, data.length = 512 ∧
      (∀ i, i < 512 → data[i]? = sram_image[sram_segment.offset + i]?) ∧
      run_dryrun sram_image false true =
        { trace := [PlanOp.RamWrite 0x20000100 data, PlanOp.Exec 0x20000100],
          mirrored := false, skipped := false, exit_code := 0 }) :=
  ⟨plan_order.1 rp2040_layout flash_elf true true (by rfl),
   plan_order.2 sram_image sram_elf sram_segment (by rfl) (by rfl) (by rfl) (by rfl) (by rfl)
     (by decide) (by rfl)⟩

/-- C6 (exec planning), for a dry run whose segment loop completes with a
non-empty plan.  With `exec_after = true`: a zero entry fails and emits no
`Exec`; otherwise, with `allow_flash = false` and a flash entry, the plan ends
with `Exec (sram_start + (entry - flash_start))` when
`map_flash_to_sram entry 4` succeeds and fails without `Exec` when it does
not; otherwise, with `allow_flash = false` and an entry in neither SRAM nor
flash, it fails without `Exec`; in every remaining case the plan ends with
`Exec entry`.  With `exec_after = false` the run succeeds and emits no
`Exec`. -/
theorem exec_planning (elf : elf_file) (allow_flash : Bool) (st : PlanState)
    (hplan : plan_segments rp2040_layout allow_flash elf PlanState.init elf.segments = .ok st)
    (hemp : ¬ (!allow_flash && st.flash_pages.isEmpty && st.ram_segments.isEmpty) = true) :
    (elf.header.entry = 0 →
      (plan_elf rp2040_layout elf allow_flash true).exit_code = 1 ∧
      ∀ a, PlanOp.Exec a ∉ (plan_elf rp2040_layout elf allow_flash true).trace) ∧
    (elf.header.entry ≠ 0 → allow_flash = false →
      is_flash_address elf.header.entry rp2040_layout = true →
      (∀ mapped, map_flash_to_sram elf.header.entry 4 rp2040_layout = some mapped →
        mapped = kSramStart + (elf.header.entry - kFlashStart) ∧
        (plan_elf rp2040_layout elf allow_flash true).exit_code = 0 ∧
        (plan_elf rp2040_layout elf allow_flash true).trace =
          emit_writes st ++ [PlanOp.Exec (kSramStart + (elf.header.entry - kFlashStart))]) ∧
      (map_flash_to_sram elf.header.entry 4 rp2040_layout = none →
        (plan_elf rp2040_layout elf allow_flash true).exit_code = 1 ∧
        ∀ a, PlanOp.Exec a ∉ (plan_elf rp2040_layout elf allow_flash true).trace)) ∧
    (elf.header.entry ≠ 0 → allow_flash = false →
      is_flash_address elf.header.entry rp2040_layout = false →
      is_sram_address elf.header.entry rp2040_layout = false →
      (plan_elf rp2040_layout elf allow_flash true).exit_code = 1 ∧
      ∀ a, PlanOp.Exec a ∉ (plan_elf rp2040_layout elf allow_flash true).trace) ∧
    (elf.header.entry ≠ 0 →
      (allow_flash = true ∨
        (is_flash_address elf.header.entry rp2040_layout = false ∧
          is_sram_address elf.header.entry rp2040_layout = true)) →
      (plan_elf rp2040_layout elf allow_flash true).exit_code = 0 ∧
      (plan_elf rp2040_layout elf allow_flash true).trace =
        emit_writes st ++ [PlanOp.Exec elf.header.entry]) ∧
    ((plan_elf rp2040_layout elf allow_flash false).exit_code = 0 ∧
      ∀ a, PlanOp.Exec a ∉ (plan_elf rp2040_layout elf allow_flash false).trace) := by
  have hfail : ∀ e, plan_exec rp2040_layout allow_flash elf.header.entry = .error e →
      (plan_elf rp2040_layout elf allow_flash true).exit_code = 1 ∧
      ∀ a, PlanOp.Exec a ∉ (plan_elf rp2040_layout elf allow_flash true).trace := by
    intro e he
    rw [plan_elf_exec_error rp2040_layout elf allow_flash st e hplan hemp he]
    exact ⟨rfl, fun a => exec_not_mem_emit_writes st a⟩
  have hok : ∀ a, plan_exec rp2040_layout allow_flash elf.header.entry = .ok a →
      (plan_elf rp2040_layout elf allow_flash true).exit_code = 0 ∧
      (plan_elf rp2040_layout elf allow_flash true).trace = emit_writes st ++ [PlanOp.Exec a] := by
    intro a ha
    rw [plan_elf_exec_ok rp2040_layout elf allow_flash st a hplan hemp ha]
    exact ⟨rfl, rfl⟩
  refine ⟨?_, ?_, ?_, ?_, ?_⟩
  · intro hz
    exact hfail .entry_zero (by unfold plan_exec; rw [if_pos hz])
  · intro hnz haf hflash
    subst haf
    constructor
    · intro mapped hmap
      have hval : mapped = kSramStart + (elf.header.entry - kFlashStart) := by
        unfold map_flash_to_sram at hmap
        simp only [is_flash_address, rp2040_layout, kFlashEndRp2040, kFlashStart,
          Bool.and_eq_true, decide_eq_true_eq] at hflash
        unfold kFlashStart kSramStart at *
        rw [if_neg (by omega)] at hmap
        have h1 : u32 (elf.header.entry - 268435456) = elf.header.entry - 268435456 :=
          u32_of_lt (by omega)
        have h2 : u32 (536870912 + (elf.header.entry - 268435456)) =
            536870912 + (elf.header.entry - 268435456) := u32_of_lt (by omega)
        simp only [h1, h2] at hmap
        split at hmap
        · cases hmap
        · have := Option.some.inj hmap
          omega
      have hexec : plan_exec rp2040_layout false elf.header.entry = .ok mapped := by
        unfold plan_exec
        rw [if_neg hnz]
        simp only [Bool.not_false, Bool.true_and, hflash, if_true, hmap]
      have := hok mapped hexec
      refine ⟨hval, ?_⟩
      rw [← hval]
      exact this
    · intro hmap
      exact hfail .entry_unmappable (by
        unfold plan_exec
        rw [if_neg hnz]
        simp only [Bool.not_false, Bool.true_and, hflash, if_true, hmap])
  · intro hnz haf hflash hsram
    subst haf
    exact hfail .entry_out_of_range (by
      unfold plan_exec
      rw [if_neg hnz]
      simp [hflash, hsram])
  · intro hnz hcase
    apply hok
    unfold plan_exec
    rw [if_neg hnz]
    rcases hcase with haf | ⟨hflash, hsram⟩
    · subst haf
      simp
    · simp [hflash, hsram]
  · rw [plan_elf_no_exec rp2040_layout elf allow_flash st hplan hemp]
    exact ⟨rfl, fun a => exec_not_mem_emit_writes st a⟩

set_option maxRecDepth 100000 in
theorem exec_planning_witness :
    (plan_elf rp2040_layout mirror_elf false true).exit_code = 0 ∧
    (plan_elf rp2040_layout mirror_elf false true).trace =
      emit_writes (planned rp2040_layout false mirror_elf) ++ [PlanOp.Exec 0x20000000] :=
  ((exec_planning mirror_elf false (planned rp2040_layout false mirror_elf) (by rfl)
      (by decide)).2.1 (by decide) rfl (by rfl)).1 0x20000000 (by rfl) |>.2

/-! ## The page map as the image of the flash segments -/

/-- One store keeps the page map in step with the memory it represents. -/
theorem store_byte_match (pages : PageMap) (f : Nat → Option Byte) (a : Nat) (value : Byte)
    (ha : a < 2 ^ 32) (h : pages_match pages f) :
    pages_match (store_byte pages a value) (mem_after_store f a value) := by
  obtain ⟨hs, hk, hl, hb⟩ := h
  rw [store_byte_eq pages a ha value]
  have hlen : (if (page_get pages (a / 256 * 256)).isEmpty then List.replicate 256 (0 : Byte)
      else page_get pages (a / 256 * 256)).length = 256 := by
    by_cases hmem : a / 256 * 256 ∈ page_keys pages
    · have h256 := hl _ hmem
      have : (page_get pages (a / 256 * 256)).isEmpty = false := by
        cases hq : page_get pages (a / 256 * 256) with
        | nil => rw [hq] at h256; cases h256
        | cons _ _ => rfl
      rw [this]
      simpa using h256
    · rw [page_get_of_not_mem _ _ hmem]
      simp only [List.isEmpty_nil, if_true, List.length_replicate]
  refine ⟨page_put_sorted _ _ _ hs, ?_, ?_, ?_⟩
  · intro k
    rw [page_keys_put, hk]
    unfold mem_after_store
    constructor
    · rintro (rfl | ⟨h1, h2, x, h3, h4, h5⟩)
      · exact ⟨by omega, by omega, a, by omega, by omega, by simp⟩
      · refine ⟨h1, h2, x, h3, h4, ?_⟩
        by_cases hx : x = a
        · simp [hx]
        · simpa [hx] using h5
    · rintro ⟨h1, h2, x, h3, h4, h5⟩
      by_cases hx : x = a
      · left
        subst hx
        omega
      · right
        exact ⟨h1, h2, x, h3, h4, by simpa [hx] using h5⟩
  · intro k hkmem
    rw [page_keys_put] at hkmem
    by_cases hkb : k = a / 256 * 256
    · rw [hkb, page_get_put_same, List.length_set]
      exact hlen
    · rw [page_get_put_other _ _ _ _ hkb]
      exact hl k (hkmem.resolve_left hkb)
  · intro k hkmem j hj
    rw [page_keys_put] at hkmem
    unfold mem_after_store
    by_cases hkb : k = a / 256 * 256
    · rw [hkb, page_get_put_same]
      by_cases hja : j = a % 256
      · rw [hja, List.getElem?_set_self (by rw [hlen]; omega)]
        have : a / 256 * 256 + a % 256 = a := by omega
        simp [this]
      · rw [List.getElem?_set_ne (fun h => hja h.symm)]
        have hne : a / 256 * 256 + j ≠ a := by omega
        rw [if_neg hne]
        by_cases hmem : a / 256 * 256 ∈ page_keys pages
        · have h256 := hl _ hmem
          have : (page_get pages (a / 256 * 256)).isEmpty = false := by
            cases hq : page_get pages (a / 256 * 256) with
            | nil => rw [hq] at h256; cases h256
            | cons _ _ => rfl
          rw [this]
          simpa using hb _ hmem j hj
        · rw [page_get_of_not_mem _ _ hmem]
          have hnone : f (a / 256 * 256 + j) = none := by
            by_contra hsome
            apply hmem
            rw [hk]
            refine ⟨by omega, by omega, a / 256 * 256 + j, by omega, by omega, ?_⟩
            cases hq : f (a / 256 * 256 + j) with
            | none => exact absurd hq hsome
            | some _ => rfl
          rw [hnone]
          simp only [List.isEmpty_nil, if_true, List.getElem?_replicate_of_lt hj,
            Option.getD_none]
    · rw [page_get_put_other _ _ _ _ hkb]
      have hkm := hkmem.resolve_left hkb
      have hal := ((hk k).1 hkm).1
      have hne : k + j ≠ a := by omega
      rw [if_neg hne]
      exact hb k hkm j hj

/-- The distribution loop keeps the page map in step with the memory. -/
theorem store_bytes_match (addr : Nat) (data : List Byte) :
    ∀ (i : Nat) (pages : PageMap) (f : Nat → Option Byte), pages_match pages f →
      pages_match (store_bytes addr data i pages) (mem_after_segment f addr data i) := by
  induction data with
  | nil => intro i pages f h; exact h
  | cons b rest ih =>
    intro i pages f h
    simp only [store_bytes, mem_after_segment]
    exact ih _ _ _ (store_byte_match pages f _ b (u32_lt _) h)

/-- The memory after a segment's stores: the segment's byte where the segment
has one, the previous content elsewhere. -/
theorem mem_after_segment_eq (addr : Nat) (haddr : addr < 2 ^ 32) (x : Nat) (hx : x < 2 ^ 32)
    (data : List Byte) :
    ∀ (i : Nat) (f : Nat → Option Byte), i + data.length ≤ 2 ^ 32 →
      mem_after_segment f addr data i x =
        if i ≤ u32 (x + 2 ^ 32 - addr) ∧ u32 (x + 2 ^ 32 - addr) < i + data.length then
          data[u32 (x + 2 ^ 32 - addr) - i]?
        else f x := by
  induction data with
  | nil =>
    intro i f _
    simp only [mem_after_segment, List.length_nil, Nat.add_zero]
    rw [if_neg (by omega)]
  | cons b rest ih =>
    intro i f hi
    simp only [List.length_cons] at hi
    simp only [mem_after_segment, List.length_cons]
    rw [ih (i + 1) _ (by omega)]
    have hi32 : u32 i = i := u32_of_lt (by omega)
    rw [hi32]
    unfold mem_after_store
    have hoff : x = u32 (addr + i) ↔ u32 (x + 2 ^ 32 - addr) = i := by
      unfold u32
      omega
    by_cases h1 : u32 (x + 2 ^ 32 - addr) = i
    · rw [if_neg (by omega), if_pos (hoff.2 h1), if_pos (by omega), h1, Nat.sub_self]
      exact List.getElem?_cons_zero.symm
    · by_cases h2 : i + 1 ≤ u32 (x + 2 ^ 32 - addr) ∧
          u32 (x + 2 ^ 32 - addr) < i + 1 + rest.length
      · rw [if_pos h2, if_pos (by omega)]
        have : u32 (x + 2 ^ 32 - addr) - i = (u32 (x + 2 ^ 32 - addr) - (i + 1)) + 1 := by
          omega
        rw [this, List.getElem?_cons_succ]
      · rw [if_neg h2, if_neg (fun h => h1 (hoff.1 h)), if_neg (by omega)]

/-- The memory after all segments is the reference image laid over the
previous content. -/
theorem mem_after_all_eq (inputs : List (Nat × List Byte))
    (hin : ∀ p ∈ inputs, p.1 < 2 ^ 32 ∧ p.2.length ≤ 2 ^ 32) (x : Nat) (hx : x < 2 ^ 32) :
    ∀ f : Nat → Option Byte,
      inputs.foldl (fun f p => mem_after_segment f p.1 p.2 0) f x =
        match image_byte inputs x with
        | some b => some b
        | none => f x := by
  induction inputs with
  | nil => intro f; rfl
  | cons p rest ih =>
    intro f
    have hp := hin p (List.mem_cons_self _ _)
    rw [List.foldl_cons, ih (fun q hq => hin q (List.mem_cons_of_mem _ hq))]
    simp only [image_byte]
    cases image_byte rest x with
    | some b => rfl
    | none =>
      simp only
      rw [mem_after_segment_eq p.1 hp.1 x hx p.2 0 f (by omega)]
      unfold segment_byte
      rw [u32_of_lt hp.1]
      simp only [Nat.zero_le, true_and, Nat.zero_add, Nat.sub_zero]
      split
      · cases hq : p.2[u32 (x + 2 ^ 32 - p.1)]? with
        | none =>
          rw [List.getElem?_eq_none_iff] at hq
          omega
        | some b => rfl
      · rename_i hge
        rw [List.getElem?_eq_none (by omega)]

/-- Distributing a list of segments keeps the page map in step with the
memory. -/
theorem store_all_match (inputs : List (Nat × List Byte)) :
    ∀ (pages : PageMap) (f : Nat → Option Byte), pages_match pages f →
      pages_match (inputs.foldl (fun pages p => store_bytes p.1 p.2 0 pages) pages)
        (inputs.foldl (fun f p => mem_after_segment f p.1 p.2 0) f) := by
  induction inputs with
  | nil => intro pages f h; exact h
  | cons p rest ih =>
    intro pages f h
    rw [List.foldl_cons, List.foldl_cons]
    exact ih _ _ (store_bytes_match p.1 p.2 0 pages f h)

theorem pages_match_nil : pages_match [] (fun _ => none) := by
  refine ⟨List.sorted_nil, ?_, ?_, ?_⟩
  · intro k
    simp [page_keys]
  · intro k hk; cases hk
  · intro k hk; cases hk

/-- Two strictly ascending lists with the same members are equal. -/
theorem sorted_lt_ext {l₁ l₂ : List Nat} (h₁ : List.Sorted (· < ·) l₁)
    (h₂ : List.Sorted (· < ·) l₂) (h : ∀ k, k ∈ l₁ ↔ k ∈ l₂) : l₁ = l₂ :=
  List.eq_of_perm_of_sorted ((List.perm_ext_iff_of_nodup h₁.nodup h₂.nodup).2 h) h₁ h₂

/-- For a segment that does not wrap around the address space, `segment_byte`
is the byte at `a - addr` for `addr ≤ a < addr + len` and nothing elsewhere. -/
theorem segment_byte_no_wrap (p : Nat × List Byte) (a : Nat) (ha : a < 2 ^ 32)
    (hp : p.1 + p.2.length ≤ 2 ^ 32) (hne : p.2 ≠ []) :
    segment_byte p a =
      if p.1 ≤ a ∧ a < p.1 + p.2.length then p.2[a - p.1]? else none := by
  have hlen : 0 < p.2.length := List.length_pos.2 hne
  unfold segment_byte
  rw [u32_of_lt (by omega : p.1 < 2 ^ 32)]
  by_cases h : p.1 ≤ a ∧ a < p.1 + p.2.length
  · rw [if_pos h]
    have : u32 (a + 2 ^ 32 - p.1) = a - p.1 := by
      unfold u32
      omega
    rw [this]
  · rw [if_neg h]
    apply List.getElem?_eq_none
    unfold u32
    omega

/-- A loadable segment with non-empty bytes comes from a program header of
type 1 whose content is those bytes. -/
theorem load_inputs_mem (elf : elf_file) (segments : List elf32_ph_entry)
    (p : Nat × List Byte) (hp : p ∈ load_inputs elf segments) :
    ∃ seg ∈ segments, seg.type = 1 ∧ seg.filez ≠ 0 ∧ content elf seg = .ok p.2 ∧
      p.1 = segment_address seg := by
  unfold load_inputs at hp
  obtain ⟨seg, hseg, h⟩ := List.mem_filterMap.1 hp
  refine ⟨seg, hseg, ?_⟩
  split at h
  · rename_i hload
    cases hc : content elf seg with
    | error e => rw [hc] at h; cases h
    | ok data =>
      rw [hc] at h
      simp only at h
      split at h
      · cases h
      · cases h
        exact ⟨hload.1, hload.2, rfl, rfl⟩
  · cases h

/-- The flash segments of an accepted image have 32-bit addresses and
lengths. -/
theorem flash_inputs_bounds (layout : MemoryLayout) (stream : List Byte) (elf : elf_file)
    (hread : read_file stream = .ok elf) :
    ∀ p ∈ flash_inputs layout elf, p.1 < 2 ^ 32 ∧ p.2.length < 2 ^ 32 := by
  intro p hp
  obtain ⟨seg, hseg, _, hfz, hcontent, haddr⟩ :=
    load_inputs_mem elf elf.segments p (List.mem_of_mem_filter hp)
  obtain ⟨_, rfl⟩ := read_file_ok hread
  obtain ⟨_, _, hv, hpa, hf⟩ := segments_at_lt hseg
  constructor
  · rw [haddr]
    unfold segment_address
    split <;> assumption
  · unfold content at hcontent
    rw [if_neg hfz] at hcontent
    split at hcontent
    · cases hcontent
    · rw [← Except.ok.inj hcontent, List.length_take]
      omega

/-- The planned page map represents the reference image of the flash
segments. -/
theorem plan_pages_match (layout : MemoryLayout) (stream : List Byte) (elf : elf_file)
    (st : PlanState) (hread : read_file stream = .ok elf)
    (hplan : plan_segments layout true elf PlanState.init elf.segments = .ok st) :
    pages_match st.flash_pages (image_byte (flash_inputs layout elf)) := by
  have hb := flash_inputs_bounds layout stream elf hread
  have hm := store_all_match (flash_inputs layout elf) [] (fun _ => none) pages_match_nil
  rw [← (plan_flash_state layout elf st hplan).2.1] at hm
  have heq : ∀ x, x < 2 ^ 32 →
      (flash_inputs layout elf).foldl (fun f p => mem_after_segment f p.1 p.2 0)
        (fun _ => none) x = image_byte (flash_inputs layout elf) x := by
    intro x hx
    rw [mem_after_all_eq _ (fun p hp => ⟨(hb p hp).1, by have := (hb p hp).2; omega⟩) x hx]
    cases image_byte (flash_inputs layout elf) x <;> rfl
  obtain ⟨h1, h2, h3, h4⟩ := hm
  refine ⟨h1, ?_, h3, ?_⟩
  · intro k
    rw [h2]
    constructor
    · rintro ⟨ha, hk, a, ha1, ha2, ha3⟩
      exact ⟨ha, hk, a, ha1, ha2, by rw [← heq a (by omega)]; exact ha3⟩
    · rintro ⟨ha, hk, a, ha1, ha2, ha3⟩
      exact ⟨ha, hk, a, ha1, ha2, by rw [heq a (by omega)]; exact ha3⟩
  · intro k hk j hj
    have hkb := (h2 k).1 hk
    rw [h4 k hk j hj, heq (k + j) (by omega)]

/-- C3: with `allow_flash = true`, the planned flash page map is the reference
image of the flash segments.  Its keys are exactly the 256-aligned 32-bit
addresses whose page holds a byte of some flash segment; every page has 256
bytes; byte `j` of the page at `p` is the byte placed at `p + j` by the last
segment, in input order, that covers `p + j`, and 0 when no segment does.  In
particular the page of a single segment that stays inside one page has zeros
before the segment's bytes and after them; and the segments `0x10000000` +
300 bytes and `0x10000400` + 100 bytes yield exactly the pages `0x10000000`,
`0x10000100`, `0x10000400`. -/
theorem flash_pages_are_image :
    (∀ (layout : MemoryLayout) (stream : List Byte) (elf : elf_file) (st : PlanState),
      read_file stream = .ok elf →
      plan_segments layout true elf PlanState.init elf.segments = .ok st →
      (∀ k, k ∈ st.flash_pages.map Prod.fst ↔
        (k % 256 = 0 ∧ k < 2 ^ 32 ∧
          ∃ a, k ≤ a ∧ a < k + 256 ∧ (image_byte (flash_inputs layout elf) a).isSome = true)) ∧
      (∀ pg ∈ st.flash_pages, pg.2.length = 256 ∧
        ∀ j, j < 256 →
          pg.2[j]? = some ((image_byte (flash_inputs layout elf) (pg.1 + j)).getD 0))) ∧
    (∀ (layout : MemoryLayout) (stream : List Byte) (elf : elf_file) (st : PlanState)
        (addr : Nat) (data : List Byte),
      read_file stream = .ok elf →
      plan_segments layout true elf PlanState.init elf.segments = .ok st →
      flash_inputs layout elf = [(addr, data)] → addr % 256 + data.length ≤ 256 →
      st.flash_pages.map Prod.fst = [addr / 256 * 256] ∧
      ∀ pg ∈ st.flash_pages, ∀ j, j < 256 →
        pg.2[j]? = some (if addr % 256 ≤ j then data.getD (j - addr % 256) 0 else 0)) ∧
    (∀ (stream : List Byte) (elf : elf_file) (st : PlanState) (d₁ d₂ : List Byte),
      read_file stream = .ok elf →
      plan_segments rp2040_layout true elf PlanState.init elf.segments = .ok st →
      flash_inputs rp2040_layout elf = [(0x10000000, d₁), (0x10000400, d₂)] →
      d₁.length = 300 → d₂.length = 100 →
      st.flash_pages.map Prod.fst = [0x10000000, 0x10000100, 0x10000400]) := by
  have hgen : ∀ (layout : MemoryLayout) (stream : List Byte) (elf : elf_file) (st : PlanState),
      read_file stream = .ok elf →
      plan_segments layout true elf PlanState.init elf.segments = .ok st →
      (∀ k, k ∈ st.flash_pages.map Prod.fst ↔
        (k % 256 = 0 ∧ k < 2 ^ 32 ∧
          ∃ a, k ≤ a ∧ a < k + 256 ∧ (image_byte (flash_inputs layout elf) a).isSome = true)) ∧
      (∀ pg ∈ st.flash_pages, pg.2.length = 256 ∧
        ∀ j, j < 256 →
          pg.2[j]? = some ((image_byte (flash_inputs layout elf) (pg.1 + j)).getD 0)) := by
    intro layout stream elf st hread hplan
    obtain ⟨h1, h2, h3, h4⟩ := plan_pages_match layout stream elf st hread hplan
    refine ⟨h2, ?_⟩
    intro pg hpg
    have hkey : pg.1 ∈ page_keys st.flash_pages := List.mem_map.2 ⟨pg, hpg, rfl⟩
    have hget : page_get st.flash_pages pg.1 = pg.2 := page_get_of_mem _ h1 pg.1 pg.2 hpg
    rw [← hget]
    exact ⟨h3 _ hkey, h4 _ hkey⟩
  refine ⟨hgen, ?_, ?_⟩
  · intro layout stream elf st addr data hread hplan hin hfit
    have hsorted := plan_pages_sorted layout true elf st hplan
    have hp : (addr, data) ∈ flash_inputs layout elf := by rw [hin]; exact List.mem_singleton.2 rfl
    have hb := (flash_inputs_bounds layout stream elf hread _ hp).1
    have hne : data ≠ [] :=
      load_inputs_nonempty elf elf.segments _ (List.mem_of_mem_filter hp)
    have hlen : 0 < data.length := List.length_pos.2 hne
    simp only at hb
    have hkeys : page_keys st.flash_pages = [addr / 256 * 256] := by
      apply sorted_lt_ext hsorted (List.sorted_singleton _)
      intro k
      rw [(plan_flash_state layout elf st hplan).2.1, store_all_keys, hin]
      simp only [page_keys, List.map_nil, List.not_mem_nil, false_or, List.mem_singleton,
        exists_eq_left]
      constructor
      · rintro ⟨j, hj, rfl⟩
        unfold u32
        omega
      · rintro rfl
        refine ⟨0, hlen, ?_⟩
        unfold u32
        omega
    refine ⟨hkeys, ?_⟩
    intro pg hpg j hj
    have hkey : pg.1 ∈ page_keys st.flash_pages := List.mem_map.2 ⟨pg, hpg, rfl⟩
    rw [hkeys, List.mem_singleton] at hkey
    rw [((hgen layout stream elf st hread hplan).2 pg hpg).2 j hj, hin, hkey]
    simp only [image_byte, segment_byte]
    rw [u32_of_lt hb]
    congr 1
    by_cases hj2 : addr % 256 ≤ j
    · rw [if_pos hj2]
      have : u32 (addr / 256 * 256 + j + 2 ^ 32 - addr) = j - addr % 256 := by
        unfold u32
        omega
      rw [this]
      cases hq : data[j - addr % 256]? with
      | none =>
        rw [List.getElem?_eq_none_iff] at hq
        rw [List.getD_eq_default _ _ hq]
        rfl
      | some b =>
        rw [List.getD_eq_getElem?_getD, hq]
    · rw [if_neg hj2]
      have : data[u32 (addr / 256 * 256 + j + 2 ^ 32 - addr)]? = none := by
        apply List.getElem?_eq_none
        unfold u32
        omega
      rw [this]
      rfl
  · intro stream elf st d₁ d₂ hread hplan hin h₁ h₂
    have hsorted := plan_pages_sorted rp2040_layout true elf st hplan
    apply sorted_lt_ext hsorted (by decide)
    intro k
    have := store_all_keys (flash_inputs rp2040_layout elf) [] k
    rw [← (plan_flash_state rp2040_layout elf st hplan).2.1, hin] at this
    rw [this]
    constructor
    · rintro (h | ⟨p, hp, j, hj, hk⟩)
      · cases h
      · rcases List.mem_cons.1 hp with rfl | hp
        · simp only [h₁] at hj
          simp only at hk
          simp only [List.mem_cons, List.mem_singleton, List.not_mem_nil, or_false]
          unfold u32 at hk
          omega
        · rw [List.mem_singleton] at hp
          subst hp
          simp only [h₂] at hj
          simp only at hk
          simp only [List.mem_cons, List.mem_singleton, List.not_mem_nil, or_false]
          unfold u32 at hk
          omega
    · intro hk
      right
      simp only [List.mem_cons, List.mem_singleton, List.not_mem_nil, or_false] at hk
      rcases hk with rfl | rfl | rfl
      · exact ⟨(0x10000000, d₁), List.mem_cons_self _ _, 0, by simp only [h₁]; omega,
          by simp only [u32]; omega⟩
      · exact ⟨(0x10000000, d₁), List.mem_cons_self _ _, 256, by simp only [h₁]; omega,
          by simp only [u32]; omega⟩
      · exact ⟨(0x10000400, d₂), List.mem_cons_of_mem _ (List.mem_singleton.2 rfl), 0,
          by simp only [h₂]; omega, by simp only [u32]; omega⟩

set_option maxRecDepth 1000000 in
theorem flash_pages_are_image_witness :
    ((∀ k, k ∈ (planned rp2040_layout true flash_elf).flash_pages.map Prod.fst ↔
        (k % 256 = 0 ∧ k < 2 ^ 32 ∧
          ∃ a, k ≤ a ∧ a < k + 256 ∧
            (image_byte (flash_inputs rp2040_layout flash_elf) a).isSome = true)) ∧
      (∀ pg ∈ (planned rp2040_layout true flash_elf).flash_pages, pg.2.length = 256 ∧
        ∀ j, j < 256 →
          pg.2[j]? = some ((image_byte (flash_inputs rp2040_layout flash_elf) (pg.1 + j)).getD 0))) ∧
    ((planned rp2040_layout true midpage_elf).flash_pages.map Prod.fst = [0x10000000] ∧
      ∀ pg ∈ (planned rp2040_layout true midpage_elf).flash_pages, ∀ j, j < 256 →
        pg.2[j]? = some (if 0x10000010 % 256 ≤ j then
          ([1, 2, 3, 4] : List Byte).getD (j - 0x10000010 % 256) 0 else 0)) ∧
    ((planned rp2040_layout true two_flash_elf).flash_pages.map Prod.fst =
      [0x10000000, 0x10000100, 0x10000400]) :=
  ⟨flash_pages_are_image.1 rp2040_layout flash_image flash_elf _ (by rfl) (by rfl),
   flash_pages_are_image.2.1 rp2040_layout midpage_image midpage_elf _ 0x10000010 [1, 2, 3, 4]
     (by rfl) (by rfl) (by rfl) (by decide),
   flash_pages_are_image.2.2 two_flash_image two_flash_elf _ (List.replicate 300 0xaa)
     (List.replicate 100 0xbb) (by rfl) (by rfl) (by rfl) (by rfl) (by rfl)⟩

set_option maxRecDepth 1000000 in
/-- The sample images are accepted by `read_file` and parse to the sample
`elf_file` values. -/
theorem sample_images_parse :
    read_file small_image = .ok small_elf ∧ read_file flash_image = .ok flash_elf ∧
    read_file mirror_image = .ok mirror_elf ∧ read_file mirror_1k_image = .ok mirror_1k_elf ∧
    read_file sram_image = .ok sram_elf ∧ read_file midpage_image = .ok midpage_elf ∧
    read_file two_flash_image = .ok two_flash_elf :=
  ⟨by rfl, by rfl, by rfl, by rfl, by rfl, by rfl, by rfl⟩

/-! ## Claims about `map_flash_to_sram` and the segment loop's failures -/

/-- What `map_flash_to_sram` computes on 32-bit arguments: it succeeds exactly
when `addr ≥ flash_start`, the mapped address does not leave the 32-bit range,
and the 32-bit sum `mapped + size` does not exceed `sram_end`. -/
theorem map_flash_to_sram_eq_some_iff (addr size : Nat) (layout : MemoryLayout) (mapped : Nat)
    (ha : addr < 2 ^ 32) :
    map_flash_to_sram addr size layout = some mapped ↔
      kFlashStart ≤ addr ∧ mapped = kSramStart + (addr - kFlashStart) ∧ mapped < 2 ^ 32 ∧
        u32 (mapped + size) ≤ layout.sram_end := by
  unfold map_flash_to_sram
  by_cases hlo : addr < kFlashStart
  · rw [if_pos hlo]
    constructor
    · intro h; cases h
    · intro h; omega
  · rw [if_neg hlo]
    unfold kFlashStart kSramStart at *
    have h1 : u32 (addr - 268435456) = addr - 268435456 := u32_of_lt (by omega)
    simp only [h1]
    by_cases hw : 536870912 + (addr - 268435456) < 2 ^ 32
    · rw [u32_of_lt hw]
      split
      · rename_i hc
        constructor
        · intro h; cases h
        · rintro ⟨_, hm, _, h4⟩
          rw [hm] at h4
          omega
      · rename_i hc
        constructor
        · intro h
          have hm := Option.some.inj h
          refine ⟨by omega, hm.symm, by omega, ?_⟩
          rw [← hm]
          omega
        · rintro ⟨_, hm, _, _⟩
          rw [hm]
    · have hlt : u32 (536870912 + (addr - 268435456)) < 536870912 := by
        unfold u32
        omega
      rw [if_pos (Or.inl hlt)]
      constructor
      · intro h; cases h
      · rintro ⟨_, hm, h3, _⟩
        omega

/-- C11, evaluated at `addr = 0x10000000`, `size = 0xE0000000`: the mapped range
`[0x20000000, 0x20000000 + 0xE0000000)` ends at `2 ^ 32`, far beyond either
`sram_end`, yet `map_flash_to_sram` succeeds with both layouts, because the
32-bit sum `mapped + size` is 0. -/
theorem map_flash_to_sram_size_wraps :
    map_flash_to_sram 0x10000000 0xE0000000 rp2040_layout = some 0x20000000 ∧
    map_flash_to_sram 0x10000000 0xE0000000 rp2350_layout = some 0x20000000 ∧
    u32 (0x20000000 + 0xE0000000) = 0 ∧
    rp2040_layout.sram_end < 0x20000000 + 0xE0000000 ∧
    rp2350_layout.sram_end < 0x20000000 + 0xE0000000 := by
  refine ⟨by decide, by decide, by decide, by decide, by decide⟩

/-- The load address is zero exactly when both `paddr` and `vaddr` are. -/
theorem segment_address_eq_zero_iff (seg : elf32_ph_entry) :
    segment_address seg = 0 ↔ seg.paddr = 0 ∧ seg.vaddr = 0 := by
  unfold segment_address
  by_cases h : seg.paddr = 0
  · simp [h]
  · simp [h]

/-- The loop body skips a segment that is not loadable. -/
theorem plan_segment_skip (layout : MemoryLayout) (allow_flash : Bool) (elf : elf_file)
    (st : PlanState) (seg : elf32_ph_entry) (h : seg.type ≠ 1 ∨ seg.filez = 0) :
    plan_segment layout allow_flash elf st seg = .ok st := by
  unfold plan_segment
  have hcond : (!seg.is_load || seg.filez == 0) = true := by
    simp only [elf32_ph_entry.is_load, Bool.or_eq_true, Bool.not_eq_true', beq_eq_false_iff_ne,
      beq_iff_eq]
    exact h
  rw [hcond]
  rfl

/-- The loop body on a loadable segment whose bytes are inside the image: the
'no load address' failure when the load address is zero, success otherwise. -/
theorem plan_segment_loadable (layout : MemoryLayout) (allow_flash : Bool) (elf : elf_file)
    (st : PlanState) (seg : elf32_ph_entry) (htype : seg.type = 1) (hfilez : seg.filez ≠ 0)
    (hin : seg.offset + seg.filez ≤ elf.data.length) :
    (segment_address seg = 0 →
      plan_segment layout allow_flash elf st seg = .error .no_load_address) ∧
    (segment_address seg ≠ 0 →
      ∃ st', plan_segment layout allow_flash elf st seg = .ok st') := by
  have hcond : (!seg.is_load || seg.filez == 0) = false := by
    simp [elf32_ph_entry.is_load, htype, hfilez]
  unfold plan_segment
  rw [hcond]
  simp only [Bool.false_eq_true, if_false]
  constructor
  · intro h0
    rw [if_pos h0]
  · intro h0
    rw [if_neg h0, content_in_range elf seg hfilez hin]
    simp only
    split
    · exact ⟨st, rfl⟩
    · exact ⟨_, rfl⟩

/-- The segment loop over segments whose bytes are inside the image: it ends in
the 'no load address' failure when some loadable segment has both addresses
zero, and completes otherwise. -/
theorem plan_segments_no_address (layout : MemoryLayout) (allow_flash : Bool) (elf : elf_file)
    (segments : List elf32_ph_entry) :
    ∀ st : PlanState,
      (∀ seg ∈ segments, seg.type = 1 → seg.filez ≠ 0 →
        seg.offset + seg.filez ≤ elf.data.length) →
      ((∃ seg ∈ segments, seg.type = 1 ∧ seg.filez ≠ 0 ∧ seg.paddr = 0 ∧ seg.vaddr = 0) →
        plan_segments layout allow_flash elf st segments = .error .no_load_address) ∧
      ((¬ ∃ seg ∈ segments, seg.type = 1 ∧ seg.filez ≠ 0 ∧ seg.paddr = 0 ∧ seg.vaddr = 0) →
        ∃ st', plan_segments layout allow_flash elf st segments = .ok st') := by
  induction segments with
  | nil =>
    intro st _
    constructor
    · rintro ⟨seg, hseg, _⟩
      cases hseg
    · intro _
      exact ⟨st, rfl⟩
  | cons seg rest ih =>
    intro st hrange
    have hrest : ∀ s ∈ rest, s.type = 1 → s.filez ≠ 0 →
        s.offset + s.filez ≤ elf.data.length :=
      fun s hs => hrange s (List.mem_cons_of_mem _ hs)
    simp only [plan_segments]
    by_cases hload : seg.type = 1 ∧ seg.filez ≠ 0
    · obtain ⟨h0, h1⟩ := plan_segment_loadable layout allow_flash elf st seg hload.1 hload.2
        (hrange seg (List.mem_cons_self _ _) hload.1 hload.2)
      by_cases hz : segment_address seg = 0
      · rw [h0 hz]
        constructor
        · intro _; rfl
        · intro hno
          exact absurd ⟨seg, List.mem_cons_self _ _, hload.1, hload.2,
            (segment_address_eq_zero_iff seg).1 hz⟩ hno
      · obtain ⟨st1, hst1⟩ := h1 hz
        rw [hst1]
        simp only
        constructor
        · rintro ⟨s, hs, hs1, hs2, hs3, hs4⟩
          rcases List.mem_cons.1 hs with rfl | hs
          · exact absurd ((segment_address_eq_zero_iff s).2 ⟨hs3, hs4⟩) hz
          · exact (ih st1 hrest).1 ⟨s, hs, hs1, hs2, hs3, hs4⟩
        · intro hno
          exact (ih st1 hrest).2
            (fun ⟨s, hs, h⟩ => hno ⟨s, List.mem_cons_of_mem _ hs, h⟩)
    · have hskip : seg.type ≠ 1 ∨ seg.filez = 0 := by
        by_cases h1 : seg.type = 1
        · right
          by_contra h2
          exact hload ⟨h1, h2⟩
        · left; exact h1
      rw [plan_segment_skip layout allow_flash elf st seg hskip]
      simp only
      constructor
      · rintro ⟨s, hs, hs1, hs2, hs3, hs4⟩
        rcases List.mem_cons.1 hs with rfl | hs
        · exact absurd ⟨hs1, hs2⟩ hload
        · exact (ih st hrest).1 ⟨s, hs, hs1, hs2, hs3, hs4⟩
      · intro hno
        exact (ih st hrest).2 (fun ⟨s, hs, h⟩ => hno ⟨s, List.mem_cons_of_mem _ hs, h⟩)

/-- C12: the load address is `paddr` when `paddr ≠ 0` and `vaddr` otherwise.
For an image whose loadable segments have their bytes inside the image, the
segment loop fails with 'no load address', and then the run plans no
operation and returns 1, if and only if some segment with `type = 1` and
`filez > 0` has `paddr = 0` and `vaddr = 0`; without such a segment the loop
completes.  A segment with `type ≠ 1` or `filez = 0` is skipped whatever its
addresses. -/
theorem no_load_address_failure (layout : MemoryLayout) (allow_flash : Bool) (elf : elf_file)
    (hrange : ∀ seg ∈ elf.segments, seg.type = 1 → seg.filez ≠ 0 →
      seg.offset + seg.filez ≤ elf.data.length) :
    (∀ seg : elf32_ph_entry,
      (seg.paddr ≠ 0 → segment_address seg = seg.paddr) ∧
      (seg.paddr = 0 → segment_address seg = seg.vaddr)) ∧
    (plan_segments layout allow_flash elf PlanState.init elf.segments = .error .no_load_address ↔
      ∃ seg ∈ elf.segments, seg.type = 1 ∧ 0 < seg.filez ∧ seg.paddr = 0 ∧ seg.vaddr = 0) ∧
    (plan_segments layout allow_flash elf PlanState.init elf.segments = .error .no_load_address →
      ∀ exec_after, (plan_elf layout elf allow_flash exec_after).trace = [] ∧
        (plan_elf layout elf allow_flash exec_after).exit_code = 1) ∧
    ((¬ ∃ seg ∈ elf.segments, seg.type = 1 ∧ 0 < seg.filez ∧ seg.paddr = 0 ∧ seg.vaddr = 0) →
      ∃ st, plan_segments layout allow_flash elf PlanState.init elf.segments = .ok st) ∧
    (∀ (st : PlanState) (seg : elf32_ph_entry), seg.type ≠ 1 ∨ seg.filez = 0 →
      plan_segment layout allow_flash elf st seg = .ok st) := by
  have hex : (∃ seg ∈ elf.segments, seg.type = 1 ∧ 0 < seg.filez ∧ seg.paddr = 0 ∧
        seg.vaddr = 0) ↔
      (∃ seg ∈ elf.segments, seg.type = 1 ∧ seg.filez ≠ 0 ∧ seg.paddr = 0 ∧ seg.vaddr = 0) := by
    constructor
    · rintro ⟨s, hs, h1, h2, h3⟩
      exact ⟨s, hs, h1, by omega, h3⟩
    · rintro ⟨s, hs, h1, h2, h3⟩
      exact ⟨s, hs, h1, by omega, h3⟩
  obtain ⟨hfail, hok⟩ :=
    plan_segments_no_address layout allow_flash elf elf.segments PlanState.init hrange
  refine ⟨?_, ?_, ?_, ?_, ?_⟩
  · intro seg
    unfold segment_address
    constructor
    · intro h; rw [if_pos h]
    · intro h; rw [if_neg (by simpa using h)]
  · rw [hex]
    constructor
    · intro herr
      by_contra hno
      obtain ⟨st', hst'⟩ := hok hno
      rw [hst'] at herr
      cases herr
    · exact hfail
  · intro herr exec_after
    rw [plan_elf_error layout elf allow_flash exec_after _ herr]
    exact ⟨rfl, rfl⟩
  · rw [hex]
    exact hok
  · intro st seg h
    exact plan_segment_skip layout allow_flash elf st seg h

/-! ## WRITE chunking -/

theorem write_chunks_eq (t : Transport) (success : Int) (addr : Nat) (data : List Byte)
    (offset : Nat) (log : List UsbCall) (ret : Int) :
    write_chunks t success addr data offset log ret =
      if offset < data.length then
        if t.result (log ++ [UsbCall.write (u32 (addr + u32 offset))
            ((data.drop offset).take (u32 (min 1024 (data.length - offset))))]) ≠ success then
          (log ++ [UsbCall.write (u32 (addr + u32 offset))
            ((data.drop offset).take (u32 (min 1024 (data.length - offset))))],
           t.result (log ++ [UsbCall.write (u32 (addr + u32 offset))
            ((data.drop offset).take (u32 (min 1024 (data.length - offset))))]))
        else
          write_chunks t success addr data (offset + u32 (min 1024 (data.length - offset)))
            (log ++ [UsbCall.write (u32 (addr + u32 offset))
              ((data.drop offset).take (u32 (min 1024 (data.length - offset))))])
            (t.result (log ++ [UsbCall.write (u32 (addr + u32 offset))
              ((data.drop offset).take (u32 (min 1024 (data.length - offset))))]))
      else (log, ret) := by
  rw [write_chunks]

/-- The first chunk and the chunks that follow it. -/
theorem chunks_from_step (addr : Nat) (data : List Byte) (offset : Nat)
    (h : offset < data.length) :
    chunks_from addr data offset =
      (u32 (addr + u32 offset), (data.drop offset).take (u32 (min 1024 (data.length - offset)))) ::
        chunks_from addr data (offset + u32 (min 1024 (data.length - offset))) := by
  have hsz : u32 (min 1024 (data.length - offset)) = min 1024 (data.length - offset) :=
    u32_of_lt (by omega)
  rw [hsz]
  unfold chunks_from
  have hfirst : (data.drop offset).take (min 1024 (data.length - offset)) =
      (data.drop offset).take 1024 := by
    rw [List.take_eq_take, List.length_drop]
    omega
  by_cases hbig : 1024 ≤ data.length - offset
  · have hcount : (data.length - offset + 1023) / 1024 =
        (data.length - (offset + min 1024 (data.length - offset)) + 1023) / 1024 + 1 := by
      omega
    rw [hcount, List.range_succ_eq_map, List.map_cons, List.map_map, hfirst]
    simp only [Nat.mul_zero, Nat.add_zero]
    apply congrArg (List.cons _)
    apply List.map_congr_left
    intro k _
    simp only [Function.comp, Nat.succ_eq_add_one]
    have : offset + min 1024 (data.length - offset) + 1024 * k = offset + 1024 * (k + 1) := by
      omega
    rw [this]
  · have hcount : (data.length - offset + 1023) / 1024 = 1 := by omega
    have hzero : (data.length - (offset + min 1024 (data.length - offset)) + 1023) / 1024 = 0 := by
      omega
    rw [hcount, hzero, hfirst, show List.range 1 = [0] from rfl,
      show List.range 0 = [] from rfl, List.map_cons, List.map_nil, List.map_nil]
    simp only [Nat.mul_zero, Nat.add_zero]

/-- When every command succeeds the chunking loop issues exactly the chunks
of `chunks_from`. -/
theorem write_chunks_all_ok (t : Transport) (success : Int) (addr : Nat) (data : List Byte)
    (hok : ∀ l, t.result l = success) :
    ∀ (m offset : Nat) (log : List UsbCall) (ret : Int), data.length - offset = m →
      write_chunks t success addr data offset log ret =
        (log ++ (chunks_from addr data offset).map (fun ch => UsbCall.write ch.1 ch.2),
          if offset < data.length then success else ret) := by
  intro m
  induction m using Nat.strong_induction_on with
  | _ m ih =>
    intro offset log ret hm
    rw [write_chunks_eq]
    by_cases h : offset < data.length
    · have hsz : u32 (min 1024 (data.length - offset)) = min 1024 (data.length - offset) :=
        u32_of_lt (by omega)
      rw [if_pos h, if_pos h, hok, if_neg (fun hne => hne rfl),
        ih (data.length - (offset + u32 (min 1024 (data.length - offset))))
          (by rw [hsz]; omega) _ _ _ rfl,
        chunks_from_step addr data offset h]
      simp only [List.map_cons, List.append_assoc, List.singleton_append]
      congr 1
      split <;> rfl
    · rw [if_neg h, if_neg h]
      have : chunks_from addr data offset = [] := by
        unfold chunks_from
        have : (data.length - offset + 1023) / 1024 = 0 := by omega
        rw [this]
        rfl
      rw [this]
      simp

/-- Cutting a list into pieces of 1024 and joining them gives the list back. -/
theorem flatten_pieces (m : Nat) :
    ∀ data : List Byte, data.length ≤ 1024 * m →
      ((List.range m).map (fun k => (data.drop (1024 * k)).take 1024)).flatten = data := by
  induction m with
  | zero =>
    intro data h
    have : data = [] := List.length_eq_zero.1 (by omega)
    subst this
    rfl
  | succ m ih =>
    intro data h
    rw [List.range_succ_eq_map, List.map_cons, List.map_map, List.flatten_cons]
    have hrest : (List.range m).map
          ((fun k => (data.drop (1024 * k)).take 1024) ∘ Nat.succ) =
        (List.range m).map (fun k => ((data.drop 1024).drop (1024 * k)).take 1024) := by
      apply List.map_congr_left
      intro k _
      simp only [Function.comp, Nat.succ_eq_add_one, List.drop_drop]
      congr 2
      omega
    rw [hrest, ih (data.drop 1024) (by rw [List.length_drop]; omega)]
    simp

/-- When every command succeeds the page loop issues one WRITE per page, in
order. -/
theorem page_loop_all_ok (t : Transport) (success : Int) (hok : ∀ l, t.result l = success)
    (pages : PageMap) :
    ∀ (log : List UsbCall) (ret : Int),
      page_loop t success pages log ret =
        (log ++ pages.map (fun pg => UsbCall.write pg.1 (pg.2.take kFlashPageSize)),
          if pages = [] then ret else success) := by
  induction pages with
  | nil => intro log ret; simp [page_loop]
  | cons pg rest ih =>
    intro log ret
    simp only [page_loop]
    rw [hok, if_neg (fun hne => hne rfl), ih]
    simp only [List.map_cons, List.append_assoc, List.singleton_append]
    congr 1
    split <;> simp

/-- C14 (WRITE chunking): for a RAM write of `n > 0` bytes at `addr`, when
every command succeeds, the chunking loop ends having issued exactly
`ceil(n / 1024)` WRITE commands; the `k`-th targets the 32-bit address
`addr + 1024 * k` (exactly `addr + 1024 * k` when the write does not run past
the end of the address space) and carries `min 1024 (n - 1024 * k)` bytes,
between 1 and 1024; the chunks joined in order are the data.  The page loop
issues one WRITE per flash page, at its page base, and for a planned page map
it carries the page's 256 bytes. -/
theorem write_chunking (t : Transport) (success : Int) (hok : ∀ l, t.result l = success) :
    (∀ (addr : Nat) (data : List Byte) (log : List UsbCall) (ret : Int), 0 < data.length →
      ∃ chunks : List (Nat × List Byte),
        write_chunks t success addr data 0 log ret =
          (log ++ chunks.map (fun ch => UsbCall.write ch.1 ch.2), success) ∧
        chunks.length = (data.length + 1023) / 1024 ∧
        (∀ k, k < chunks.length →
          ∃ ch, chunks[k]? = some ch ∧
            ch.1 = u32 (addr + u32 (1024 * k)) ∧
            (addr + data.length ≤ 2 ^ 32 → ch.1 = addr + 1024 * k) ∧
            ch.2 = (data.drop (1024 * k)).take 1024 ∧
            ch.2.length = min 1024 (data.length - 1024 * k) ∧
            1 ≤ ch.2.length ∧ ch.2.length ≤ 1024) ∧
        (chunks.map Prod.snd).flatten = data) ∧
    (∀ (pages : PageMap) (log : List UsbCall) (ret : Int),
      (page_loop t success pages log ret).1 =
        log ++ pages.map (fun pg => UsbCall.write pg.1 (pg.2.take 256))) ∧
    (∀ (layout : MemoryLayout) (stream : List Byte) (elf : elf_file) (st : PlanState),
      read_file stream = .ok elf →
      plan_segments layout true elf PlanState.init elf.segments = .ok st →
      ∀ pg ∈ st.flash_pages, pg.2.take 256 = pg.2 ∧ pg.2.length = 256 ∧ pg.1 % 256 = 0) := by
  refine ⟨?_, ?_, ?_⟩
  · intro addr data log ret hn
    refine ⟨chunks_from addr data 0, ?_, ?_, ?_, ?_⟩
    · rw [write_chunks_all_ok t success addr data hok _ 0 log ret rfl, if_pos hn]
    · simp [chunks_from]
    · intro k hk
      have hk' : k < (data.length + 1023) / 1024 := by
        simpa [chunks_from] using hk
      refine ⟨(u32 (addr + u32 (1024 * k)), (data.drop (1024 * k)).take 1024), ?_, rfl, ?_, rfl,
        ?_, ?_, ?_⟩
      · unfold chunks_from
        rw [List.getElem?_map, List.getElem?_range (by simpa using hk')]
        simp
      · intro hfit
        simp only
        unfold u32
        omega
      · simp only [List.length_take, List.length_drop]
      · simp only [List.length_take, List.length_drop]
        omega
      · simp only [List.length_take, List.length_drop]
        omega
    · unfold chunks_from
      rw [List.map_map]
      have : (Prod.snd ∘ fun k => (u32 (addr + u32 (0 + 1024 * k)),
            (data.drop (0 + 1024 * k)).take 1024)) =
          (fun k => (data.drop (1024 * k)).take 1024) := by
        funext k
        simp [Function.comp]
      rw [this]
      exact flatten_pieces _ data (by omega)
  · intro pages log ret
    rw [page_loop_all_ok t success hok]
    rfl
  · intro layout stream elf st hread hplan pg hpg
    obtain ⟨h1, h2, h3, _⟩ := plan_pages_match layout stream elf st hread hplan
    have hkey : pg.1 ∈ page_keys st.flash_pages := List.mem_map.2 ⟨pg, hpg, rfl⟩
    have hget : page_get st.flash_pages pg.1 = pg.2 := page_get_of_mem _ h1 pg.1 pg.2 hpg
    have hlen : pg.2.length = 256 := by
      rw [← hget]
      exact h3 _ hkey
    exact ⟨List.take_of_length_le (by omega), hlen, ((h2 pg.1).1 hkey).1⟩

/-! ## `picoboot_exec` -/

/-- C15: `picoboot_exec` returns success if and only if the EXEC command
returned success, or it returned no-device, or the follow-up
`picoboot_get_cmd_status` returned success with status code OK or REBOOTING,
or `picoboot_get_cmd_status` returned no-device; in every other case it
returns what the EXEC command returned.  The two IOKit codes `kIOReturnSuccess`
and `kIOReturnNoDevice` are taken to be different. -/
theorem picoboot_exec_result (c : ExternalConstants) (t : Transport) (log : List UsbCall)
    (addr : Nat) (hdistinct : c.kIOReturnSuccess ≠ c.kIOReturnNoDevice) :
    ((picoboot_exec c t log addr).2 = c.kIOReturnSuccess ↔
      (t.result (log ++ [UsbCall.exec addr]) = c.kIOReturnSuccess ∨
       t.result (log ++ [UsbCall.exec addr]) = c.kIOReturnNoDevice ∨
       ((picoboot_get_cmd_status c t (log ++ [UsbCall.exec addr])).2.1 = c.kIOReturnSuccess ∧
        ((picoboot_get_cmd_status c t (log ++ [UsbCall.exec addr])).2.2 = c.PICOBOOT_OK ∨
         (picoboot_get_cmd_status c t (log ++ [UsbCall.exec addr])).2.2 =
           c.PICOBOOT_REBOOTING)) ∨
       (picoboot_get_cmd_status c t (log ++ [UsbCall.exec addr])).2.1 = c.kIOReturnNoDevice)) ∧
    ((picoboot_exec c t log addr).2 ≠ c.kIOReturnSuccess →
      (picoboot_exec c t log addr).2 = t.result (log ++ [UsbCall.exec addr])) := by
  unfold picoboot_exec
  simp only
  by_cases h1 : t.result (log ++ [UsbCall.exec addr]) = c.kIOReturnSuccess ∨
      t.result (log ++ [UsbCall.exec addr]) = c.kIOReturnNoDevice
  · rw [if_pos h1]
    constructor
    · constructor
      · intro _
        rcases h1 with h | h
        · exact Or.inl h
        · exact Or.inr (Or.inl h)
      · intro _; rfl
    · intro h; exact absurd rfl h
  · rw [if_neg h1]
    have hne : t.result (log ++ [UsbCall.exec addr]) ≠ c.kIOReturnSuccess :=
      fun h => h1 (Or.inl h)
    have hnd : t.result (log ++ [UsbCall.exec addr]) ≠ c.kIOReturnNoDevice :=
      fun h => h1 (Or.inr h)
    by_cases h2 : (picoboot_get_cmd_status c t (log ++ [UsbCall.exec addr])).2.1 =
        c.kIOReturnSuccess
    · rw [if_pos h2]
      by_cases h3 : (picoboot_get_cmd_status c t (log ++ [UsbCall.exec addr])).2.2 =
            c.PICOBOOT_OK ∨
          (picoboot_get_cmd_status c t (log ++ [UsbCall.exec addr])).2.2 = c.PICOBOOT_REBOOTING
      · rw [if_pos h3]
        exact ⟨⟨fun _ => Or.inr (Or.inr (Or.inl ⟨h2, h3⟩)), fun _ => rfl⟩,
          fun h => absurd rfl h⟩
      · rw [if_neg h3]
        refine ⟨⟨fun h => absurd h hne, ?_⟩, fun _ => rfl⟩
        rintro (h | h | ⟨_, h⟩ | h)
        · exact absurd h hne
        · exact absurd h hnd
        · exact absurd h h3
        · rw [h2] at h
          exact absurd h hdistinct
    · rw [if_neg h2]
      by_cases h5 : (picoboot_get_cmd_status c t (log ++ [UsbCall.exec addr])).2.1 =
          c.kIOReturnNoDevice
      · rw [if_pos h5]
        exact ⟨⟨fun _ => Or.inr (Or.inr (Or.inr h5)), fun _ => rfl⟩, fun h => absurd rfl h⟩
      · rw [if_neg h5]
        refine ⟨⟨fun h => absurd h hne, ?_⟩, fun _ => rfl⟩
        rintro (h | h | ⟨h, _⟩ | h)
        · exact absurd h hne
        · exact absurd h hnd
        · exact absurd h h2
        · exact absurd h h5

set_option maxRecDepth 1000000 in
/-- The further sample images are accepted by `read_file` and parse to the
sample `elf_file` values. -/
theorem further_sample_images_parse :
    read_file high_flash_image = .ok high_flash_elf ∧
    read_file past_rp2040_flash_image = .ok past_rp2040_flash_elf ∧
    read_file no_address_image = .ok no_address_elf :=
  ⟨by rfl, by rfl, by rfl⟩

set_option maxRecDepth 100000 in
theorem no_load_address_failure_witness :
    (plan_segments rp2040_layout false no_address_elf PlanState.init no_address_elf.segments =
        .error .no_load_address ↔
      ∃ seg ∈ no_address_elf.segments,
        seg.type = 1 ∧ 0 < seg.filez ∧ seg.paddr = 0 ∧ seg.vaddr = 0) ∧
    plan_segments rp2040_layout false no_address_elf PlanState.init no_address_elf.segments =
      .error .no_load_address :=
  ⟨(no_load_address_failure rp2040_layout false no_address_elf (by decide)).2.1, by rfl⟩

theorem picoboot_exec_result_witness :
    ((picoboot_exec sample_constants all_ok [] 0x20000000).2 = sample_constants.kIOReturnSuccess ↔
      (all_ok.result ([] ++ [UsbCall.exec 0x20000000]) = sample_constants.kIOReturnSuccess ∨
       all_ok.result ([] ++ [UsbCall.exec 0x20000000]) = sample_constants.kIOReturnNoDevice ∨
       ((picoboot_get_cmd_status sample_constants all_ok ([] ++ [UsbCall.exec 0x20000000])).2.1 =
           sample_constants.kIOReturnSuccess ∧
        ((picoboot_get_cmd_status sample_constants all_ok ([] ++ [UsbCall.exec 0x20000000])).2.2 =
           sample_constants.PICOBOOT_OK ∨
         (picoboot_get_cmd_status sample_constants all_ok ([] ++ [UsbCall.exec 0x20000000])).2.2 =
           sample_constants.PICOBOOT_REBOOTING)) ∨
       (picoboot_get_cmd_status sample_constants all_ok ([] ++ [UsbCall.exec 0x20000000])).2.1 =
         sample_constants.kIOReturnNoDevice)) ∧
    ((picoboot_exec sample_constants all_ok [] 0x20000000).2 ≠ sample_constants.kIOReturnSuccess →
      (picoboot_exec sample_constants all_ok [] 0x20000000).2 =
        all_ok.result ([] ++ [UsbCall.exec 0x20000000])) :=
  picoboot_exec_result sample_constants all_ok [] 0x20000000 (by decide)

theorem write_chunking_witness :
    ∃ chunks : List (Nat × List Byte),
      write_chunks all_ok 0 0x20000000 (List.replicate 2500 (0x5a : Byte)) 0 [] 0 =
        ([] ++ chunks.map (fun ch => UsbCall.write ch.1 ch.2), 0) ∧
      chunks.length = ((List.replicate 2500 (0x5a : Byte)).length + 1023) / 1024 ∧
      (∀ k, k < chunks.length →
        ∃ ch, chunks[k]? = some ch ∧
          ch.1 = u32 (0x20000000 + u32 (1024 * k)) ∧
          (0x20000000 + (List.replicate 2500 (0x5a : Byte)).length ≤ 2 ^ 32 →
            ch.1 = 0x20000000 + 1024 * k) ∧
          ch.2 = ((List.replicate 2500 (0x5a : Byte)).drop (1024 * k)).take 1024 ∧
          ch.2.length = min 1024 ((List.replicate 2500 (0x5a : Byte)).length - 1024 * k) ∧
          1 ≤ ch.2.length ∧ ch.2.length ≤ 1024) ∧
      (chunks.map Prod.snd).flatten = List.replicate 2500 (0x5a : Byte) :=
  (write_chunking all_ok 0 (fun _ => rfl)).1 0x20000000 (List.replicate 2500 0x5a) [] 0
    (by rw [List.length_replicate]; decide)

/-! ## The loaders' `main`: planning failures -/

theorem parse_and_plan_ok (plan : elf_file → Except plan_error PlanState) (stream : List Byte)
    (elf : elf_file) (st : PlanState) (hread : read_file stream = .ok elf)
    (hplan : plan elf = .ok st) : parse_and_plan plan (some stream) = .ok (elf, st) := by
  unfold parse_and_plan
  simp only [hread, hplan]

/-- The IOKit loader when the `try` block throws: only the calls made before
the ELF file is touched. -/
theorem iokit_main_planning_error (c : ExternalConstants) (m : Nat × Nat) (t : Transport)
    (file : Option (List Byte)) (allow_flash exec_after : Bool) (e : plan_error)
    (h : parse_and_plan
      (fun elf => plan_segments rp2350_layout allow_flash elf PlanState.init elf.segments)
      file = .error e) :
    iokit_main c (some m) t file allow_flash exec_after =
      { calls := [UsbCall.open_device 0, UsbCall.if_reset m.2], exit_code := 1 } := by
  unfold iokit_main
  simp only [h]

/-- The IOKit loader when the plan is empty. -/
theorem iokit_main_empty (c : ExternalConstants) (m : Nat × Nat) (t : Transport)
    (file : Option (List Byte)) (allow_flash exec_after : Bool) (elf : elf_file)
    (st : PlanState)
    (h : parse_and_plan
      (fun elf => plan_segments rp2350_layout allow_flash elf PlanState.init elf.segments)
      file = .ok (elf, st))
    (hemp : (!allow_flash && st.flash_pages.isEmpty && st.ram_segments.isEmpty) = true) :
    iokit_main c (some m) t file allow_flash exec_after =
      { calls := [UsbCall.open_device 0, UsbCall.if_reset m.2], exit_code := 1 } := by
  unfold iokit_main
  simp only [h, hemp, if_true]

/-- The IOKit loader when there is a plan: the writes, then the exec stage. -/
theorem iokit_main_run (c : ExternalConstants) (m : Nat × Nat) (t : Transport)
    (file : Option (List Byte)) (allow_flash exec_after : Bool) (elf : elf_file)
    (st : PlanState)
    (h : parse_and_plan
      (fun elf => plan_segments rp2350_layout allow_flash elf PlanState.init elf.segments)
      file = .ok (elf, st))
    (hemp : ¬ (!allow_flash && st.flash_pages.isEmpty && st.ram_segments.isEmpty) = true) :
    iokit_main c (some m) t file allow_flash exec_after =
      { calls := (iokit_exec_stage c t allow_flash exec_after elf.header.entry
          (execute_writes t c.kIOReturnSuccess st
            [UsbCall.open_device 0, UsbCall.if_reset m.2])).1,
        exit_code :=
          if (iokit_exec_stage c t allow_flash exec_after elf.header.entry
            (execute_writes t c.kIOReturnSuccess st
              [UsbCall.open_device 0, UsbCall.if_reset m.2])).2 = c.kIOReturnSuccess
          then 0 else 1 } := by
  unfold iokit_main
  simp only [h, hemp]
  rfl

/-- The libusb loader, once the device is found, opened and claimed, when the
`try` block throws. -/
theorem load_tool_main_planning_error (c : ExternalConstants) (devices : List libusb_device)
    (t : Transport) (file : Option (List Byte)) (allow_flash : Bool) (m : LoaderDeviceMatch)
    (e : plan_error) (hfind : load_tool_find_device c devices = some m)
    (hopen : t.result [UsbCall.open_device m.device] = 0)
    (hclaim : t.result [UsbCall.open_device m.device,
      UsbCall.claim_interface m.picoboot.interface_number] = 0)
    (h : parse_and_plan
      (fun elf => load_tool_plan_segments allow_flash elf PlanState.init elf.segments)
      file = .error e) :
    load_tool_main c devices t file allow_flash =
      { calls := [UsbCall.open_device m.device,
          UsbCall.claim_interface m.picoboot.interface_number,
          UsbCall.if_reset m.picoboot.interface_number], exit_code := 1 } := by
  unfold load_tool_main
  simp only [hfind, hopen, List.singleton_append, List.cons_append, List.nil_append, hclaim, h,
    ne_eq, not_true_eq_false, if_false]

/-- The libusb loader, once the device is found, opened and claimed, when the
plan is empty. -/
theorem load_tool_main_empty (c : ExternalConstants) (devices : List libusb_device)
    (t : Transport) (file : Option (List Byte)) (allow_flash : Bool) (m : LoaderDeviceMatch)
    (elf : elf_file) (st : PlanState) (hfind : load_tool_find_device c devices = some m)
    (hopen : t.result [UsbCall.open_device m.device] = 0)
    (hclaim : t.result [UsbCall.open_device m.device,
      UsbCall.claim_interface m.picoboot.interface_number] = 0)
    (h : parse_and_plan
      (fun elf => load_tool_plan_segments allow_flash elf PlanState.init elf.segments)
      file = .ok (elf, st))
    (hemp : (!allow_flash && st.flash_pages.isEmpty && st.ram_segments.isEmpty) = true) :
    load_tool_main c devices t file allow_flash =
      { calls := [UsbCall.open_device m.device,
          UsbCall.claim_interface m.picoboot.interface_number,
          UsbCall.if_reset m.picoboot.interface_number], exit_code := 1 } := by
  unfold load_tool_main
  simp only [hfind, hopen, List.singleton_append, List.cons_append, List.nil_append, hclaim, h,
    ne_eq, not_true_eq_false, if_false, hemp, if_true]

/-- The exec stage of the IOKit loader issues no call when exec planning fails;
exec planning is that of the dry run with the RP2350 bounds. -/
theorem iokit_exec_stage_planning_error (c : ExternalConstants) (t : Transport)
    (allow_flash : Bool) (entry_point : Nat) (r : List UsbCall × Int) (e : exec_failure)
    (hcodes : c.kIOReturnError ≠ c.kIOReturnSuccess) (hr : r.2 = c.kIOReturnSuccess)
    (hexec : plan_exec rp2350_layout allow_flash entry_point = .error e) :
    iokit_exec_stage c t allow_flash true entry_point r = (r.1, c.kIOReturnError) := by
  unfold iokit_exec_stage
  unfold plan_exec at hexec
  rw [if_pos ⟨hr, rfl⟩]
  by_cases hz : entry_point = 0
  · rw [if_pos hz]
  · rw [if_neg hz] at hexec ⊢
    simp only at hexec ⊢
    by_cases h1 : (!allow_flash && is_flash_address entry_point rp2350_layout) = true
    · rw [if_pos h1] at hexec ⊢
      cases hmap : map_flash_to_sram entry_point 4 rp2350_layout with
      | some mapped =>
        rw [hmap] at hexec
        cases hexec
      | none =>
        simp only
        rw [if_neg hcodes]
    · rw [if_neg h1] at hexec ⊢
      by_cases h2 : (!allow_flash && !is_sram_address entry_point rp2350_layout &&
          !is_flash_address entry_point rp2350_layout) = true
      · rw [if_pos h2]
        simp only
        rw [if_neg hcodes]
      · rw [if_neg h2] at hexec
        cases hexec

/-! ## Runs of the loaders on sample inputs -/

set_option maxRecDepth 1000000 in
/-- C13, the example: the dry run, which assumes the RP2040 layout, does not
treat `0x13FFFF00` as flash; with `allow_flash` off it plans a RAM write of the
512 bytes at `0x13FFFF00` and ends with exit code 0. -/
theorem dry_run_plans_write_at_13ffff00 :
    run_dryrun high_flash_image false false =
      { trace := [PlanOp.RamWrite 0x13FFFF00 (List.replicate 512 0x5a)], mirrored := false,
        skipped := false, exit_code := 0 } := by
  rfl

set_option maxRecDepth 1000000 in
/-- C16: on a transport whose EXIT_XIP fails while every other call succeeds,
both loaders go on to issue the FLASH_ERASE and the page WRITE of the plan and
end with exit code 0. -/
theorem exit_xip_failure_does_not_abort :
    load_tool_main sample_constants [raspberry_device 3] exit_xip_fails
        (some midpage_image) true =
      { calls := [UsbCall.open_device 0, UsbCall.claim_interface 1, UsbCall.if_reset 1,
          UsbCall.exit_xip, UsbCall.flash_erase 0x10000000 0x1000,
          UsbCall.write 0x10000000
            (List.replicate 16 0 ++ [1, 2, 3, 4] ++ List.replicate 236 0)],
        exit_code := 0 } ∧
    iokit_main sample_constants (some (3, 1)) exit_xip_fails (some midpage_image) true false =
      { calls := [UsbCall.open_device 0, UsbCall.if_reset 1,
          UsbCall.exit_xip, UsbCall.flash_erase 0x10000000 0x1000,
          UsbCall.write 0x10000000
            (List.replicate 16 0 ++ [1, 2, 3, 4] ++ List.replicate 236 0)],
        exit_code := 0 } := by
  constructor <;> rfl

set_option maxRecDepth 1000000 in
/-- C17: the libusb loader has opened the device, claimed the interface and
sent the interface reset by the time a malformed ELF file is rejected. -/
theorem load_tool_opens_device_before_planning :
    load_tool_main sample_constants [raspberry_device 3] all_ok
        (some [0x7f, 0x45, 0x4c, 0x46, 2, 1]) false =
      { calls := [UsbCall.open_device 0, UsbCall.claim_interface 1, UsbCall.if_reset 1],
        exit_code := 1 } ∧
    iokit_main sample_constants (some (3, 1)) all_ok (some [0x7f, 0x45, 0x4c, 0x46, 2, 1])
        false false =
      { calls := [UsbCall.open_device 0, UsbCall.if_reset 1], exit_code := 1 } := by
  constructor <;> rfl

set_option maxRecDepth 1000000 in
/-- C18: with an RP2040 in BOOTSEL mode (product id `0x0003`) both loaders
treat `0x11000000`, which is past the RP2040 flash range, as flash: the segment
is skipped and nothing is written, where the RP2040 map plans a RAM write. -/
theorem loaders_ignore_device_family :
    load_tool_main sample_constants [raspberry_device 3] all_ok
        (some past_rp2040_flash_image) false =
      { calls := [UsbCall.open_device 0, UsbCall.claim_interface 1, UsbCall.if_reset 1],
        exit_code := 1 } ∧
    iokit_main sample_constants (some (3, 1)) all_ok (some past_rp2040_flash_image)
        false false =
      { calls := [UsbCall.open_device 0, UsbCall.if_reset 1], exit_code := 1 } ∧
    is_flash_address 0x11000000 rp2040_layout = false ∧
    plan_segments rp2040_layout false past_rp2040_flash_elf PlanState.init
        past_rp2040_flash_elf.segments =
      .ok { PlanState.init with ram_segments := [(0x11000000, [1, 2, 3, 4])] } := by
  refine ⟨?_, ?_, ?_, ?_⟩ <;> rfl

set_option maxRecDepth 1000000 in
/-- C19: the libusb loader does not mirror.  A four-byte flash segment at
`0x10000000`, whose mirror `0x20000000` fits in SRAM, is skipped with
`allow_flash` off and the run ends with exit code 1 without a WRITE, where the
planner of the two other tools plans a RAM write at `0x20000000`. -/
theorem load_tool_does_not_mirror :
    load_tool_main sample_constants [raspberry_device 3] all_ok (some mirror_image) false =
      { calls := [UsbCall.open_device 0, UsbCall.claim_interface 1, UsbCall.if_reset 1],
        exit_code := 1 } ∧
    map_flash_to_sram 0x10000000 4 rp2350_layout = some 0x20000000 ∧
    plan_segments rp2350_layout false mirror_elf PlanState.init mirror_elf.segments =
      .ok { PlanState.init with
            ram_segments := [(0x20000000, [9, 8, 7, 6])], mirrored_flash_segments := true } := by
  refine ⟨?_, ?_, ?_⟩ <;> rfl

/-- C20: `find_device` of `reboot_tool` matches a device of vendor `0x2E8A`
whose product id `0x000C` is none of the four ids the tool defines, because it
exposes a vendor-specific interface with two endpoints; `find_device` of
`load_tool` does not match it. -/
theorem reboot_tool_ignores_product_id :
    reboot_tool_find_device sample_constants [raspberry_device 0x000c] =
      some { device := 0, product_id := 0x000c,
             picoboot := some { interface_number := 1, ep_in := 0x84, ep_out := 0x03 },
             reset := none } ∧
    is_supported_product 0x000c = false ∧
    load_tool_find_device sample_constants [raspberry_device 0x000c] = none := by
  refine ⟨?_, ?_, ?_⟩ <;> rfl

/-! ## The call log only grows -/

theorem write_chunks_length (t : Transport) (success : Int) (addr : Nat) (data : List Byte) :
    ∀ (m offset : Nat) (log : List UsbCall) (ret : Int), data.length - offset = m →
      log.length ≤ (write_chunks t success addr data offset log ret).1.length ∧
      (offset < data.length →
        log.length < (write_chunks t success addr data offset log ret).1.length) := by
  intro m
  induction m using Nat.strong_induction_on with
  | _ m ih =>
    intro offset log ret hm
    rw [write_chunks_eq]
    by_cases h : offset < data.length
    · have hsz : u32 (min 1024 (data.length - offset)) = min 1024 (data.length - offset) :=
        u32_of_lt (by omega)
      rw [if_pos h]
      split
      · simp only [List.length_append, List.length_singleton]
        omega
      · have hrec := (ih (data.length - (offset + u32 (min 1024 (data.length - offset))))
          (by rw [hsz]; omega) (offset + u32 (min 1024 (data.length - offset)))
          (log ++ [UsbCall.write (u32 (addr + u32 offset))
            ((data.drop offset).take (u32 (min 1024 (data.length - offset))))])
          (t.result (log ++ [UsbCall.write (u32 (addr + u32 offset))
            ((data.drop offset).take (u32 (min 1024 (data.length - offset))))])) rfl).1
        simp only [List.length_append, List.length_singleton] at hrec
        omega
    · rw [if_neg h]
      exact ⟨le_refl _, fun h' => absurd h' h⟩

theorem ram_loop_length (t : Transport) (success : Int) :
    ∀ (segments : List (Nat × List Byte)) (log : List UsbCall) (ret : Int),
      log.length ≤ (ram_loop t success segments log ret).1.length ∧
      (∀ segment rest, segments = segment :: rest → segment.2 ≠ [] →
        log.length < (ram_loop t success segments log ret).1.length) := by
  intro segments
  induction segments with
  | nil =>
    intro log ret
    exact ⟨le_refl _, fun _ _ h => by cases h⟩
  | cons seg rest ih =>
    intro log ret
    have hw := write_chunks_length t success seg.1 seg.2 _ 0 log ret rfl
    have hpos : seg.2 ≠ [] → 0 < seg.2.length := fun h => List.length_pos.2 h
    simp only [ram_loop]
    split
    · refine ⟨hw.1, ?_⟩
      intro segment rest' heq hne
      cases heq
      exact hw.2 (hpos hne)
    · have hrec := (ih (write_chunks t success seg.1 seg.2 0 log ret).1
        (write_chunks t success seg.1 seg.2 0 log ret).2).1
      refine ⟨le_trans hw.1 hrec, ?_⟩
      intro segment rest' heq hne
      cases heq
      exact lt_of_lt_of_le (hw.2 (hpos hne)) hrec

/-- Without flash pages the loader goes straight to the RAM loop. -/
theorem execute_writes_no_pages (t : Transport) (success : Int) (st : PlanState)
    (log : List UsbCall) (hp : st.flash_pages = []) :
    execute_writes t success st log = ram_loop t success st.ram_segments log success := by
  unfold execute_writes
  rw [hp]
  simp only [List.isEmpty_nil, Bool.not_true, Bool.false_eq_true, if_false, if_true, page_loop]
  split <;> rfl

theorem picoboot_exec_length (c : ExternalConstants) (t : Transport) (log : List UsbCall)
    (addr : Nat) : log.length ≤ (picoboot_exec c t log addr).1.length := by
  unfold picoboot_exec picoboot_get_cmd_status
  simp only
  repeat' split
  all_goals simp only [List.length_append, List.length_singleton]
  all_goals omega

theorem iokit_exec_stage_length (c : ExternalConstants) (t : Transport)
    (allow_flash exec_after : Bool) (entry_point : Nat) (r : List UsbCall × Int) :
    r.1.length ≤ (iokit_exec_stage c t allow_flash exec_after entry_point r).1.length := by
  have hexec : ∀ planned : Nat × Int,
      r.1.length ≤ (if planned.2 = c.kIOReturnSuccess then picoboot_exec c t r.1 planned.1
        else (r.1, planned.2)).1.length := by
    intro planned
    split
    · exact picoboot_exec_length c t r.1 _
    · exact le_refl _
  unfold iokit_exec_stage
  simp only
  split
  · split
    · exact le_refl _
    · exact hexec _
  · exact le_refl _

/-- Every RAM write of a plan carries at least one byte. -/
theorem plan_ram_data_nonempty (layout : MemoryLayout) (allow_flash : Bool) (elf : elf_file)
    (st : PlanState)
    (hplan : plan_segments layout allow_flash elf PlanState.init elf.segments = .ok st)
    (s : Nat × List Byte) (hs : s ∈ st.ram_segments) : s.2 ≠ [] := by
  rw [plan_ram_segments layout allow_flash elf st hplan] at hs
  obtain ⟨p, hp, hps⟩ := List.mem_filterMap.1 hs
  have hne := load_inputs_nonempty elf elf.segments p hp
  have : s.2 = p.2 := by
    unfold ram_write_of ram_target at hps
    split at hps
    · split at hps
      · cases hps
      · cases hps; rfl
    · split at hps
      · cases hm : map_flash_to_sram p.1 (u32 p.2.length) layout with
        | none => rw [hm] at hps; cases hps
        | some mapped => rw [hm] at hps; cases hps; rfl
      · cases hps; rfl
  rw [this]
  exact hne

/-- A plan with a RAM write has a non-empty trace. -/
theorem plan_elf_trace_nonempty (layout : MemoryLayout) (elf : elf_file)
    (allow_flash exec_after : Bool) (st : PlanState)
    (hplan : plan_segments layout allow_flash elf PlanState.init elf.segments = .ok st)
    (hram : st.ram_segments ≠ []) :
    (plan_elf layout elf allow_flash exec_after).trace ≠ [] := by
  have hemp : ¬ (!allow_flash && st.flash_pages.isEmpty && st.ram_segments.isEmpty) = true := by
    cases hr : st.ram_segments with
    | nil => exact absurd hr hram
    | cons a b => simp
  have hw : emit_writes st ≠ [] := by
    unfold emit_writes
    cases hr : st.ram_segments with
    | nil => exact absurd hr hram
    | cons a b => simp
  cases exec_after with
  | false =>
    rw [plan_elf_no_exec layout elf allow_flash st hplan hemp]
    exact hw
  | true =>
    cases hexec : plan_exec layout allow_flash elf.header.entry with
    | error e =>
      rw [plan_elf_exec_error layout elf allow_flash st e hplan hemp hexec]
      exact hw
    | ok a =>
      rw [plan_elf_exec_ok layout elf allow_flash st a hplan hemp hexec]
      simp

/-! ## The empty plan -/

/-- A segment outside flash is planned as a RAM write at its load address. -/
theorem place_segment_not_flash (layout : MemoryLayout) (allow_flash : Bool) (st : PlanState)
    (addr : Nat) (data : List Byte) (hf : is_flash_address addr layout = false) :
    place_segment layout allow_flash st addr data =
      { st with ram_segments := st.ram_segments ++ [(addr, data)] } := by
  unfold place_segment
  rw [hf]
  rfl

/-- A flash segment that cannot be mirrored is skipped when flash writes are not
allowed. -/
theorem place_segment_skip (layout : MemoryLayout) (st : PlanState)
    (addr : Nat) (data : List Byte) (hf : is_flash_address addr layout = true)
    (hmap : map_flash_to_sram addr (u32 data.length) layout = none) :
    place_segment layout false st addr data = { st with skipped_flash_segments := true } := by
  unfold place_segment
  rw [hmap, if_pos hf]
  rfl

/-- C13 (amended): with `allow_flash = false`, for an image that `read_file`
accepts and whose segment loop completes, the dry run fails with 'nothing to
do' (empty trace, exit code 1) if and only if no RAM write remains, and the
IOKit loader stops after the interface reset with exit code 1 if and only if
no RAM write remains.  For an image whose only loadable segment is 512 bytes at
`0x13FFFF00`: under the RP2350 bounds of the IOKit loader the segment is
skipped (`skipped = true`, `mirrored = false`, no RAM write) and the run fails
with the empty plan; in the dry run, which assumes the RP2040 layout, the
address is not a flash address and the plan is one RAM write at `0x13FFFF00`
with exit code 0. -/
theorem empty_plan_rule (c : ExternalConstants) (m : Nat × Nat) (t : Transport)
    (stream : List Byte) (elf : elf_file) (exec_after : Bool)
    (hread : read_file stream = .ok elf) :
    (∀ st, plan_segments rp2040_layout false elf PlanState.init elf.segments = .ok st →
      (run_dryrun stream false exec_after =
          { trace := [], mirrored := st.mirrored_flash_segments,
            skipped := st.skipped_flash_segments, exit_code := 1 } ↔
        st.ram_segments = [])) ∧
    (∀ st, plan_segments rp2350_layout false elf PlanState.init elf.segments = .ok st →
      (iokit_main c (some m) t (some stream) false exec_after =
          { calls := [UsbCall.open_device 0, UsbCall.if_reset m.2], exit_code := 1 } ↔
        st.ram_segments = [])) ∧
    (∀ data, load_inputs elf elf.segments = [(0x13FFFF00, data)] → data.length = 512 →
      (∀ st, plan_segments rp2350_layout false elf PlanState.init elf.segments = .ok st →
        st = { PlanState.init with skipped_flash_segments := true } ∧
        iokit_main c (some m) t (some stream) false exec_after =
          { calls := [UsbCall.open_device 0, UsbCall.if_reset m.2], exit_code := 1 }) ∧
      (∀ st, plan_segments rp2040_layout false elf PlanState.init elf.segments = .ok st →
        st = { PlanState.init with ram_segments := [(0x13FFFF00, data)] } ∧
        run_dryrun stream false false =
          { trace := [PlanOp.RamWrite 0x13FFFF00 data], mirrored := false, skipped := false,
            exit_code := 0 })) := by
  have hdry : ∀ ex, run_dryrun stream false ex = plan_elf rp2040_layout elf false ex := by
    intro ex
    unfold run_dryrun
    rw [hread]
  have hiokit : ∀ st, plan_segments rp2350_layout false elf PlanState.init elf.segments = .ok st →
      st.ram_segments = [] →
      iokit_main c (some m) t (some stream) false exec_after =
        { calls := [UsbCall.open_device 0, UsbCall.if_reset m.2], exit_code := 1 } := by
    intro st hplan hram
    have hpp := parse_and_plan_ok
      (fun elf => plan_segments rp2350_layout false elf PlanState.init elf.segments)
      stream elf st hread hplan
    refine iokit_main_empty c m t (some stream) false exec_after elf st hpp ?_
    rw [(plan_mirror_state rp2350_layout elf st hplan).2.1, hram]
    rfl
  refine ⟨?_, ?_, ?_⟩
  · intro st hplan
    rw [hdry]
    constructor
    · intro h
      by_contra hram
      have hne := plan_elf_trace_nonempty rp2040_layout elf false exec_after st hplan hram
      rw [h] at hne
      exact hne rfl
    · intro hram
      refine plan_elf_empty rp2040_layout elf false exec_after st hplan ?_
      rw [(plan_mirror_state rp2040_layout elf st hplan).2.1, hram]
      rfl
  · intro st hplan
    constructor
    · intro h
      by_contra hram
      have hpp := parse_and_plan_ok
        (fun elf => plan_segments rp2350_layout false elf PlanState.init elf.segments)
        stream elf st hread hplan
      have hemp : ¬ (!false && st.flash_pages.isEmpty && st.ram_segments.isEmpty) = true := by
        cases hr : st.ram_segments with
        | nil => exact absurd hr hram
        | cons a b => simp
      rw [iokit_main_run c m t (some stream) false exec_after elf st hpp hemp] at h
      have hc := congrArg (fun r => r.calls.length) h
      simp only [List.length_cons, List.length_nil] at hc
      have h1 := iokit_exec_stage_length c t false exec_after elf.header.entry
        (execute_writes t c.kIOReturnSuccess st [UsbCall.open_device 0, UsbCall.if_reset m.2])
      rw [hc] at h1
      rw [execute_writes_no_pages t c.kIOReturnSuccess st _
        (plan_mirror_state rp2350_layout elf st hplan).2.1] at h1
      cases hr : st.ram_segments with
      | nil => exact hram hr
      | cons a b =>
        have h2 := (ram_loop_length t c.kIOReturnSuccess st.ram_segments
          [UsbCall.open_device 0, UsbCall.if_reset m.2] c.kIOReturnSuccess).2 a b hr
          (plan_ram_data_nonempty rp2350_layout false elf st hplan a (by rw [hr]; simp))
        simp only [List.length_cons, List.length_nil] at h2
        omega
    · exact hiokit st hplan
  · intro data hin hlen
    constructor
    · intro st hplan
      have hst := plan_segments_eq_place_all rp2350_layout false elf elf.segments _ _ hplan
      rw [hin] at hst
      have hf : is_flash_address 0x13FFFF00 rp2350_layout = true := by decide
      have hmap : map_flash_to_sram 0x13FFFF00 (u32 data.length) rp2350_layout = none := by
        rw [hlen]
        decide
      have hst' : st = { PlanState.init with skipped_flash_segments := true } := by
        rw [hst, place_all_cons, place_all_nil]
        exact place_segment_skip rp2350_layout PlanState.init 0x13FFFF00 data hf hmap
      refine ⟨hst', hiokit st hplan ?_⟩
      rw [hst']
      rfl
    · intro st hplan
      have hst := plan_segments_eq_place_all rp2040_layout false elf elf.segments _ _ hplan
      rw [hin] at hst
      have hf : is_flash_address 0x13FFFF00 rp2040_layout = false := by decide
      have hst' : st = { PlanState.init with ram_segments := [(0x13FFFF00, data)] } := by
        rw [hst, place_all_cons, place_all_nil]
        exact place_segment_not_flash rp2040_layout false PlanState.init 0x13FFFF00 data hf
      refine ⟨hst', ?_⟩
      rw [hdry, plan_elf_no_exec rp2040_layout elf false st hplan (by rw [hst']; simp
        [PlanState.init]), hst']
      rfl

set_option maxRecDepth 1000000 in
theorem empty_plan_rule_witness :
    read_file high_flash_image = .ok high_flash_elf ∧
    plan_segments rp2350_layout false high_flash_elf PlanState.init high_flash_elf.segments =
      .ok { PlanState.init with skipped_flash_segments := true } ∧
    iokit_main sample_constants (some (0xf, 1)) all_ok (some high_flash_image) false false =
      { calls := [UsbCall.open_device 0, UsbCall.if_reset 1], exit_code := 1 } :=
  ⟨by rfl, by rfl,
    ((empty_plan_rule sample_constants (0xf, 1) all_ok high_flash_image high_flash_elf false
      (by rfl)).2.2 (List.replicate 512 0x5a) (by rfl) (by rfl)).1
      { PlanState.init with skipped_flash_segments := true } (by rfl) |>.2⟩

/-! ## Planning errors and the device -/

/-- C17 (amended): both loaders read and plan the ELF file after the device has
been opened and the interface reset sent.  When the `try` block fails
(unreadable or malformed ELF, loadable segment without a load address) or the
plan is empty, the libusb loader has made exactly the calls open, claim and
interface reset, the IOKit loader exactly open and interface reset; the run
ends with exit code 1 and no PICOBOOT command (EXIT_XIP, FLASH_ERASE, WRITE,
EXEC) has been issued.  In the IOKit loader an entry point that is zero,
unmappable or out of range is detected after the erase and write commands of
the plan have been issued: the run then adds no call, so no EXEC is issued, and
ends with exit code 1. -/
theorem planning_errors_follow_device_open (c : ExternalConstants) (t : Transport)
    (file : Option (List Byte)) (allow_flash : Bool) :
    (∀ devices m, load_tool_find_device c devices = some m →
      t.result [UsbCall.open_device m.device] = 0 →
      t.result [UsbCall.open_device m.device,
        UsbCall.claim_interface m.picoboot.interface_number] = 0 →
      ((∃ e, parse_and_plan
          (fun elf => load_tool_plan_segments allow_flash elf PlanState.init elf.segments)
          file = .error e) ∨
       (∃ elf st, parse_and_plan
          (fun elf => load_tool_plan_segments allow_flash elf PlanState.init elf.segments)
          file = .ok (elf, st) ∧
          (!allow_flash && st.flash_pages.isEmpty && st.ram_segments.isEmpty) = true)) →
      load_tool_main c devices t file allow_flash =
        { calls := [UsbCall.open_device m.device,
            UsbCall.claim_interface m.picoboot.interface_number,
            UsbCall.if_reset m.picoboot.interface_number], exit_code := 1 }) ∧
    (∀ m exec_after,
      ((∃ e, parse_and_plan
          (fun elf => plan_segments rp2350_layout allow_flash elf PlanState.init elf.segments)
          file = .error e) ∨
       (∃ elf st, parse_and_plan
          (fun elf => plan_segments rp2350_layout allow_flash elf PlanState.init elf.segments)
          file = .ok (elf, st) ∧
          (!allow_flash && st.flash_pages.isEmpty && st.ram_segments.isEmpty) = true)) →
      iokit_main c (some m) t file allow_flash exec_after =
        { calls := [UsbCall.open_device 0, UsbCall.if_reset m.2], exit_code := 1 }) ∧
    (∀ m elf st e, c.kIOReturnError ≠ c.kIOReturnSuccess →
      parse_and_plan
        (fun elf => plan_segments rp2350_layout allow_flash elf PlanState.init elf.segments)
        file = .ok (elf, st) →
      ¬ (!allow_flash && st.flash_pages.isEmpty && st.ram_segments.isEmpty) = true →
      plan_exec rp2350_layout allow_flash elf.header.entry = .error e →
      iokit_main c (some m) t file allow_flash true =
        { calls := (execute_writes t c.kIOReturnSuccess st
            [UsbCall.open_device 0, UsbCall.if_reset m.2]).1, exit_code := 1 }) := by
  refine ⟨?_, ?_, ?_⟩
  · intro devices m hfind hopen hclaim h
    rcases h with ⟨e, he⟩ | ⟨elf, st, hok, hemp⟩
    · exact load_tool_main_planning_error c devices t file allow_flash m e hfind hopen hclaim he
    · exact load_tool_main_empty c devices t file allow_flash m elf st hfind hopen hclaim hok hemp
  · intro m exec_after h
    rcases h with ⟨e, he⟩ | ⟨elf, st, hok, hemp⟩
    · exact iokit_main_planning_error c m t file allow_flash exec_after e he
    · exact iokit_main_empty c m t file allow_flash exec_after elf st hok hemp
  · intro m elf st e hcodes hok hemp hexec
    rw [iokit_main_run c m t file allow_flash true elf st hok hemp]
    by_cases hr : (execute_writes t c.kIOReturnSuccess st
        [UsbCall.open_device 0, UsbCall.if_reset m.2]).2 = c.kIOReturnSuccess
    · rw [iokit_exec_stage_planning_error c t allow_flash elf.header.entry _ e hcodes hr hexec]
      simp only
      rw [if_neg hcodes]
    · have hstage : iokit_exec_stage c t allow_flash true elf.header.entry
          (execute_writes t c.kIOReturnSuccess st
            [UsbCall.open_device 0, UsbCall.if_reset m.2]) =
          execute_writes t c.kIOReturnSuccess st
            [UsbCall.open_device 0, UsbCall.if_reset m.2] := by
        unfold iokit_exec_stage
        rw [if_neg (fun h => hr h.1)]
      rw [hstage, if_neg hr]

set_option maxRecDepth 1000000 in
theorem planning_errors_follow_device_open_witness :
    load_tool_main sample_constants [raspberry_device 0xf] all_ok none true =
      { calls := [UsbCall.open_device 0, UsbCall.claim_interface 1, UsbCall.if_reset 1],
        exit_code := 1 } ∧
    iokit_main sample_constants (some (0xf, 1)) all_ok (some no_entry_image) true true =
      { calls := (execute_writes all_ok sample_constants.kIOReturnSuccess
          { PlanState.init with ram_segments := [(0x20000100, [0xde, 0xad, 0xbe, 0xef])] }
          [UsbCall.open_device 0, UsbCall.if_reset 1]).1, exit_code := 1 } :=
  ⟨(planning_errors_follow_device_open sample_constants all_ok none true).1
      [raspberry_device 0xf]
      { device := 0, picoboot := { interface_number := 1, ep_in := 0x84, ep_out := 0x03 } }
      (by rfl) (by rfl) (by rfl) (Or.inl ⟨_, rfl⟩),
   (planning_errors_follow_device_open sample_constants all_ok (some no_entry_image) true).2.2
      (0xf, 1) no_entry_elf
      { PlanState.init with ram_segments := [(0x20000100, [0xde, 0xad, 0xbe, 0xef])] }
      exec_failure.entry_zero (by decide) (by rfl) (by decide) (by rfl)⟩

/-! ## The libusb loader's planner -/

/-- The placement step of `load_tool`, folded over address/bytes pairs. -/
theorem load_tool_plan_segments_eq (allow_flash : Bool) (elf : elf_file)
    (segments : List elf32_ph_entry) :
    ∀ st st' : PlanState, load_tool_plan_segments allow_flash elf st segments = .ok st' →
      st' = (load_inputs elf segments).foldl
        (fun s p => load_tool_place_segment allow_flash s p.1 p.2) st := by
  induction segments with
  | nil =>
    intro st st' h
    simp only [load_tool_plan_segments] at h
    cases h
    rfl
  | cons seg rest ih =>
    intro st st' h
    simp only [load_tool_plan_segments] at h
    cases hseg : load_tool_plan_segment allow_flash elf st seg with
    | error e => rw [hseg] at h; cases h
    | ok st1 =>
      rw [hseg] at h
      have hrest := ih st1 st' h
      rw [hrest]
      unfold load_tool_plan_segment at hseg
      unfold load_inputs
      rw [List.filterMap_cons]
      by_cases hload : seg.type = 1 ∧ seg.filez ≠ 0
      · have hcond : (!seg.is_load || seg.filez == 0) = false := by
          simp [elf32_ph_entry.is_load, hload.1, hload.2]
        rw [hcond] at hseg
        simp only [Bool.false_eq_true, if_false] at hseg
        rw [if_pos hload]
        split at hseg
        · cases hseg
        · cases hc : content elf seg with
          | error e => rw [hc] at hseg; cases hseg
          | ok data =>
            rw [hc] at hseg
            simp only at hseg ⊢
            by_cases hd : data = []
            · subst hd
              simp only [List.isEmpty_nil, if_true] at hseg
              cases hseg
              simp
            · have : data.isEmpty = false := by
                cases data with
                | nil => exact absurd rfl hd
                | cons _ _ => rfl
              rw [this] at hseg
              simp only [Bool.false_eq_true, if_false] at hseg
              cases hseg
              rw [if_neg hd]
              rfl
      · have hcond : (!seg.is_load || seg.filez == 0) = true := by
          simp only [elf32_ph_entry.is_load, Bool.or_eq_true, Bool.not_eq_true', beq_eq_false_iff_ne,
            beq_iff_eq]
          by_cases h1 : seg.type = 1
          · right
            by_contra h2
            exact hload ⟨h1, h2⟩
          · left; exact h1
        rw [hcond] at hseg
        simp only [if_true] at hseg
        cases hseg
        rw [if_neg hload]

/-- Without `--flash` the libusb loader keeps the segments outside flash, at
their load addresses, and records that a flash segment was skipped. -/
theorem load_tool_fold_no_flash (inputs : List (Nat × List Byte)) :
    ∀ st : PlanState,
      ((inputs.foldl (fun s p => load_tool_place_segment false s p.1 p.2) st).ram_segments =
        st.ram_segments ++ inputs.filter (fun p => !is_flash_address p.1 rp2350_layout)) ∧
      (inputs.foldl (fun s p => load_tool_place_segment false s p.1 p.2) st).flash_pages =
        st.flash_pages ∧
      (inputs.foldl (fun s p => load_tool_place_segment false s p.1 p.2) st).flash_erase_ranges =
        st.flash_erase_ranges ∧
      (inputs.foldl (fun s p => load_tool_place_segment false s p.1 p.2)
        st).mirrored_flash_segments = st.mirrored_flash_segments ∧
      ((inputs.foldl (fun s p => load_tool_place_segment false s p.1 p.2)
          st).skipped_flash_segments = true ↔
        st.skipped_flash_segments = true ∨
          ∃ p ∈ inputs, is_flash_address p.1 rp2350_layout = true) := by
  induction inputs with
  | nil =>
    intro st
    simp
  | cons p rest ih =>
    intro st
    rw [List.foldl_cons]
    obtain ⟨h1, h2, h3, h4, h5⟩ := ih (load_tool_place_segment false st p.1 p.2)
    rw [h1, h2, h3, h4, h5]
    by_cases hf : is_flash_address p.1 rp2350_layout = true
    · have hstep : load_tool_place_segment false st p.1 p.2 =
          { st with skipped_flash_segments := true } := by
        unfold load_tool_place_segment
        rw [if_pos hf]
        rfl
      rw [hstep, List.filter_cons]
      simp only [hf, Bool.not_true, Bool.false_eq_true, if_false, true_or, List.mem_cons,
        exists_eq_or_imp, or_true, and_self]
    · have hf' : is_flash_address p.1 rp2350_layout = false := by
        simpa using hf
      have hstep : load_tool_place_segment false st p.1 p.2 =
          { st with ram_segments := st.ram_segments ++ [p] } := by
        unfold load_tool_place_segment
        rw [if_neg hf]
      rw [hstep, List.filter_cons]
      simp only [hf', Bool.not_false, if_true, List.append_assoc, List.singleton_append,
        List.mem_cons, exists_eq_or_imp, Bool.false_eq_true, false_or, and_self]

/-- The libusb loader, once the device is found, opened and claimed, when there
is a plan: it executes the writes. -/
theorem load_tool_main_run (c : ExternalConstants) (devices : List libusb_device)
    (t : Transport) (file : Option (List Byte)) (allow_flash : Bool) (m : LoaderDeviceMatch)
    (elf : elf_file) (st : PlanState) (hfind : load_tool_find_device c devices = some m)
    (hopen : t.result [UsbCall.open_device m.device] = 0)
    (hclaim : t.result [UsbCall.open_device m.device,
      UsbCall.claim_interface m.picoboot.interface_number] = 0)
    (h : parse_and_plan
      (fun elf => load_tool_plan_segments allow_flash elf PlanState.init elf.segments)
      file = .ok (elf, st))
    (hemp : ¬ (!allow_flash && st.flash_pages.isEmpty && st.ram_segments.isEmpty) = true) :
    load_tool_main c devices t file allow_flash =
      { calls := (execute_writes t 0 st [UsbCall.open_device m.device,
          UsbCall.claim_interface m.picoboot.interface_number,
          UsbCall.if_reset m.picoboot.interface_number]).1,
        exit_code := if (execute_writes t 0 st [UsbCall.open_device m.device,
          UsbCall.claim_interface m.picoboot.interface_number,
          UsbCall.if_reset m.picoboot.interface_number]).2 = 0 then 0 else 1 } := by
  unfold load_tool_main
  simp only [hfind, hopen, List.singleton_append, List.cons_append, List.nil_append, hclaim, h,
    ne_eq, not_true_eq_false, if_false, hemp]
  rfl

/-- C19 (amended): the libusb loader does not mirror.  Run without `--flash`,
its segment loop skips every loadable flash-addressed segment (flash being
`0x10000000 ≤ addr < 0x14000000`), whether or not the bytes would fit in SRAM:
the RAM writes of the plan are exactly the loadable non-flash segments at their
load addresses, there is no flash page, no erase range and nothing is recorded
as mirrored, and the skipped flag is set exactly when the image has a flash
segment.  The run then fails with the empty plan after the interface reset when
no non-flash segment remains, and otherwise issues the WRITE commands of the
remaining segments only. -/
theorem load_tool_skips_flash_segments (c : ExternalConstants) (devices : List libusb_device)
    (t : Transport) (stream : List Byte) (m : LoaderDeviceMatch) (elf : elf_file)
    (st : PlanState) (hfind : load_tool_find_device c devices = some m)
    (hopen : t.result [UsbCall.open_device m.device] = 0)
    (hclaim : t.result [UsbCall.open_device m.device,
      UsbCall.claim_interface m.picoboot.interface_number] = 0)
    (hread : read_file stream = .ok elf)
    (hplan : load_tool_plan_segments false elf PlanState.init elf.segments = .ok st) :
    (∀ (s : PlanState) (addr : Nat) (data : List Byte),
      is_flash_address addr rp2350_layout = true →
      load_tool_place_segment false s addr data = { s with skipped_flash_segments := true }) ∧
    st.ram_segments =
      (load_inputs elf elf.segments).filter (fun p => !is_flash_address p.1 rp2350_layout) ∧
    st.flash_pages = [] ∧ st.flash_erase_ranges = [] ∧ st.mirrored_flash_segments = false ∧
    (st.skipped_flash_segments = true ↔
      ∃ p ∈ load_inputs elf elf.segments, is_flash_address p.1 rp2350_layout = true) ∧
    (st.ram_segments = [] →
      load_tool_main c devices t (some stream) false =
        { calls := [UsbCall.open_device m.device,
            UsbCall.claim_interface m.picoboot.interface_number,
            UsbCall.if_reset m.picoboot.interface_number], exit_code := 1 }) ∧
    (st.ram_segments ≠ [] →
      load_tool_main c devices t (some stream) false =
        { calls := (ram_loop t 0 st.ram_segments [UsbCall.open_device m.device,
            UsbCall.claim_interface m.picoboot.interface_number,
            UsbCall.if_reset m.picoboot.interface_number] 0).1,
          exit_code := if (ram_loop t 0 st.ram_segments [UsbCall.open_device m.device,
            UsbCall.claim_interface m.picoboot.interface_number,
            UsbCall.if_reset m.picoboot.interface_number] 0).2 = 0 then 0 else 1 }) := by
  have hst := load_tool_plan_segments_eq false elf elf.segments _ _ hplan
  obtain ⟨h1, h2, h3, h4, h5⟩ :=
    load_tool_fold_no_flash (load_inputs elf elf.segments) PlanState.init
  rw [← hst] at h1 h2 h3 h4 h5
  have hpages : st.flash_pages = [] := h2
  have hpp := parse_and_plan_ok
    (fun elf => load_tool_plan_segments false elf PlanState.init elf.segments)
    stream elf st hread hplan
  refine ⟨?_, ?_, hpages, h3, h4, ?_, ?_, ?_⟩
  · intro s addr data hf
    unfold load_tool_place_segment
    rw [if_pos hf]
    rfl
  · rw [h1]
    rfl
  · rw [h5]
    constructor
    · rintro (h | h)
      · cases h
      · exact h
    · intro h
      exact Or.inr h
  · intro hram
    refine load_tool_main_empty c devices t (some stream) false m elf st hfind hopen hclaim hpp ?_
    rw [hpages, hram]
    rfl
  · intro hram
    have hemp : ¬ (!false && st.flash_pages.isEmpty && st.ram_segments.isEmpty) = true := by
      cases hr : st.ram_segments with
      | nil => exact absurd hr hram
      | cons a b => simp
    rw [load_tool_main_run c devices t (some stream) false m elf st hfind hopen hclaim hpp hemp,
      execute_writes_no_pages t 0 st _ hpages]

set_option maxRecDepth 1000000 in
theorem load_tool_skips_flash_segments_witness :
    read_file flash_image = .ok flash_elf ∧
    load_tool_plan_segments false flash_elf PlanState.init flash_elf.segments =
      .ok { PlanState.init with
            ram_segments := [(0x20000000, [5, 6])], skipped_flash_segments := true } ∧
    load_inputs flash_elf flash_elf.segments =
      [(0x100000FE, [1, 2, 3, 4]), (0x20000000, [5, 6])] ∧
    ([(0x20000000, [5, 6])] : List (Nat × List Byte)) =
      (load_inputs flash_elf flash_elf.segments).filter
        (fun p => !is_flash_address p.1 rp2350_layout) :=
  ⟨by rfl, by rfl, by rfl,
    (load_tool_skips_flash_segments sample_constants [raspberry_device 3] all_ok flash_image
      { device := 0, picoboot := { interface_number := 1, ep_in := 0x84, ep_out := 0x03 } }
      flash_elf
      { PlanState.init with
        ram_segments := [(0x20000000, [5, 6])], skipped_flash_segments := true }
      (by rfl) (by rfl) (by rfl) (by rfl) (by rfl)).2.1⟩

/-! ## The memory map of the loaders -/

/-- C18 (amended): the memory map used for planning in a load run does not
depend on the connected device.  Both loaders plan with the RP2350 bounds
`flash_end = 0x14000000` and `sram_end = 0x20082000`, for an RP2040 (product
`0x0003`) and an RP2350 (product `0x000F`) alike: the run of the IOKit loader
is the same whatever the product id of the matched device, the run of the
libusb loader is the same for the two BOOTSEL product ids, and the flash test
of the libusb loader's placement step is `0x10000000 ≤ addr < 0x14000000`. -/
theorem loaders_use_rp2350_bounds (c : ExternalConstants) (t : Transport)
    (file : Option (List Byte)) (allow_flash exec_after : Bool) :
    rp2350_layout.flash_end = 0x14000000 ∧ rp2350_layout.sram_end = 0x20082000 ∧
    (∀ addr, is_flash_address addr rp2350_layout = true ↔
      0x10000000 ≤ addr ∧ addr < 0x14000000) ∧
    (∀ addr, is_sram_address addr rp2350_layout = true ↔
      0x20000000 ≤ addr ∧ addr < 0x20082000) ∧
    (∀ p q i, iokit_main c (some (p, i)) t file allow_flash exec_after =
      iokit_main c (some (q, i)) t file allow_flash exec_after) ∧
    load_tool_main c [raspberry_device 0x0003] t file allow_flash =
      load_tool_main c [raspberry_device 0x000f] t file allow_flash ∧
    (∀ (st : PlanState) (addr : Nat) (data : List Byte),
      ¬ (0x10000000 ≤ addr ∧ addr < 0x14000000) →
      load_tool_place_segment allow_flash st addr data =
        { st with ram_segments := st.ram_segments ++ [(addr, data)] }) := by
  have hflash : ∀ addr, is_flash_address addr rp2350_layout = true ↔
      0x10000000 ≤ addr ∧ addr < 0x14000000 := by
    intro addr
    unfold is_flash_address
    simp [rp2350_layout, kFlashStart]
  refine ⟨rfl, rfl, hflash, ?_, ?_, ?_, ?_⟩
  · intro addr
    unfold is_sram_address
    simp [rp2350_layout, kSramStart]
  · intro p q i
    rfl
  · rfl
  · intro st addr data h
    unfold load_tool_place_segment
    rw [if_neg (fun hf => h ((hflash addr).1 hf))]

/-- The sweep adds no address: every address of an output range lies in an
input range. -/
theorem merge_sweep_no_new (rest : List Range) :
    ∀ (last : Range) (x : Nat), (∃ o ∈ merge_sweep last rest, o.start ≤ x ∧ x < o.end_) →
      ∃ r ∈ last :: rest, r.start ≤ x ∧ x < r.end_ := by
  induction rest with
  | nil =>
    intro last x h
    simpa [merge_sweep] using h
  | cons r rest ih =>
    intro last x h
    simp only [merge_sweep] at h
    split at h
    · rename_i hle
      obtain ⟨q, hq, hq1, hq2⟩ := ih _ x h
      rcases List.mem_cons.1 hq with rfl | hq'
      · simp only at hq1 hq2
        by_cases hx : x < last.end_
        · exact ⟨last, List.mem_cons_self _ _, hq1, hx⟩
        · refine ⟨r, List.mem_cons_of_mem _ (List.mem_cons_self _ _), by omega, ?_⟩
          rcases Nat.le_total last.end_ r.end_ with hm | hm
          · rw [max_eq_right hm] at hq2; exact hq2
          · rw [max_eq_left hm] at hq2; omega
      · exact ⟨q, List.mem_cons_of_mem _ (List.mem_cons_of_mem _ hq'), hq1, hq2⟩
    · obtain ⟨o, ho, ho1, ho2⟩ := h
      rcases List.mem_cons.1 ho with rfl | ho'
      · exact ⟨o, List.mem_cons_self _ _, ho1, ho2⟩
      · obtain ⟨q, hq, hq1, hq2⟩ := ih r x ⟨o, ho', ho1, ho2⟩
        exact ⟨q, List.mem_cons_of_mem _ hq, hq1, hq2⟩

/-- The sweep over a list sorted by `start` covers exactly the addresses the
list covers. -/
theorem merge_sorted_covered (l : List Range) (hs : List.Sorted by_start l) (x : Nat) :
    (∃ o ∈ merge_sorted l, o.start ≤ x ∧ x < o.end_) ↔ ∃ r ∈ l, r.start ≤ x ∧ x < r.end_ := by
  cases l with
  | nil => simp [merge_sorted]
  | cons a rest =>
    simp only [merge_sorted]
    constructor
    · exact merge_sweep_no_new rest a x
    · rintro ⟨r, hr, h1, h2⟩
      obtain ⟨o, ho, ho1, ho2⟩ := merge_sweep_covers rest a hs r hr
      exact ⟨o, ho, by omega, by omega⟩

/-- C27: `merge_ranges` preserves the covered address set: an address lies in
some output range `[start, end)` if and only if it lies in some input range.
`std::sort` leaves the order of ranges with equal `start` unspecified; the
same holds for the sweep over every arrangement of the input that is sorted by
`start`. -/
theorem merge_ranges_preserves_covered (ranges : List Range) (x : Nat) :
    ((∃ o ∈ merge_ranges ranges, in_range x o) ↔ ∃ r ∈ ranges, in_range x r) ∧
    (∀ l : List Range, l.Perm ranges → List.Sorted by_start l →
      ((∃ o ∈ merge_sorted l, in_range x o) ↔ ∃ r ∈ ranges, in_range x r)) := by
  have hperm : ∀ l : List Range, l.Perm ranges → List.Sorted by_start l →
      ((∃ o ∈ merge_sorted l, in_range x o) ↔ ∃ r ∈ ranges, in_range x r) := by
    intro l hp hs
    unfold in_range
    rw [merge_sorted_covered l hs x]
    constructor
    · rintro ⟨r, hr, h⟩
      exact ⟨r, hp.mem_iff.1 hr, h⟩
    · rintro ⟨r, hr, h⟩
      exact ⟨r, hp.mem_iff.2 hr, h⟩
  refine ⟨?_, hperm⟩
  exact hperm (sort_ranges ranges) (List.perm_insertionSort _ ranges) (sort_ranges_sorted ranges)

/-- The sweep over two ranges. -/
theorem merge_sorted_pair (a b : Range) :
    merge_sorted [a, b] =
      if b.start ≤ a.end_ then [{ a with end_ := max a.end_ b.end_ }] else [a, b] := by
  simp only [merge_sorted, merge_sweep]

/-- C24: two ranges `a`, `b` with `a.start ≤ a.end`, `b.start ≤ b.end` and
`a.start ≤ b.start ≤ a.end` are fused by `merge_ranges`, in either input
order, into the single range `{a.start, max a.end b.end}`, whichever way the
sort arranges them when the two starts are equal; `{0x10000000, 0x10001000}`
and `{0x10001000, 0x10002000}` merge to `{0x10000000, 0x10002000}`.  Two ranges
with `b.start > a.end` are returned unmerged, `a` first. -/
theorem merge_ranges_fusion (a b : Range) (ha : a.start ≤ a.end_) :
    (b.start ≤ b.end_ → a.start ≤ b.start → b.start ≤ a.end_ →
      merge_ranges [a, b] = [⟨a.start, max a.end_ b.end_⟩] ∧
      merge_ranges [b, a] = [⟨a.start, max a.end_ b.end_⟩] ∧
      ∀ l : List Range, l.Perm [a, b] → List.Sorted by_start l →
        merge_sorted l = [⟨a.start, max a.end_ b.end_⟩]) ∧
    (a.end_ < b.start →
      merge_ranges [a, b] = [a, b] ∧ merge_ranges [b, a] = [a, b]) ∧
    merge_ranges [⟨0x10000000, 0x10001000⟩, ⟨0x10001000, 0x10002000⟩] =
      [⟨0x10000000, 0x10002000⟩] := by
  refine ⟨?_, ?_, ?_⟩
  · intro hb hab hba
    have hsorted : ∀ l : List Range, l.Perm [a, b] → List.Sorted by_start l →
        merge_sorted l = [⟨a.start, max a.end_ b.end_⟩] := by
      intro l hp hs
      have hlen := hp.length_eq
      match l, hlen with
      | [p, q], _ =>
        have hpq : p.start ≤ q.start := by
          have := List.rel_of_sorted_cons hs q (List.mem_cons_self _ _)
          exact this
        rw [merge_sorted_pair]
        have hmem : (p = a ∧ q = b) ∨ (p = b ∧ q = a) := by
          have hpm : p ∈ [a, b] := hp.mem_iff.1 (List.mem_cons_self _ _)
          have hqm : q ∈ [a, b] := hp.mem_iff.1 (List.mem_cons_of_mem _ (List.mem_cons_self _ _))
          have ham : a ∈ [p, q] := hp.mem_iff.2 (List.mem_cons_self _ _)
          have hbm : b ∈ [p, q] := hp.mem_iff.2 (List.mem_cons_of_mem _ (List.mem_cons_self _ _))
          simp only [List.mem_cons, List.mem_singleton, List.not_mem_nil, or_false] at hpm hqm ham hbm
          rcases hpm with rfl | rfl
          · rcases hqm with rfl | rfl
            · rcases hbm with rfl | rfl
              · exact Or.inl ⟨rfl, rfl⟩
              · exact Or.inl ⟨rfl, rfl⟩
            · exact Or.inl ⟨rfl, rfl⟩
          · rcases hqm with rfl | rfl
            · exact Or.inr ⟨rfl, rfl⟩
            · rcases ham with rfl | rfl
              · exact Or.inl ⟨rfl, rfl⟩
              · exact Or.inl ⟨rfl, rfl⟩
        rcases hmem with ⟨rfl, rfl⟩ | ⟨rfl, rfl⟩
        · rw [if_pos hba]
        · have hst : p.start = q.start := Nat.le_antisymm hpq hab
          rw [if_pos (by omega : q.start ≤ p.end_), hst, max_comm]
    refine ⟨?_, ?_, hsorted⟩
    · exact hsorted _ (List.perm_insertionSort _ _) (sort_ranges_sorted _)
    · exact hsorted _ ((List.perm_insertionSort _ _).trans (List.Perm.swap a b []))
        (sort_ranges_sorted _)
  · intro hlt
    have hab : a.start ≤ b.start := by omega
    have hnba : ¬ b.start ≤ a.start := by omega
    constructor
    · unfold merge_ranges sort_ranges
      simp only [List.insertionSort, List.orderedInsert, hab, if_true]
      rw [merge_sorted_pair, if_neg (by omega)]
    · unfold merge_ranges sort_ranges
      simp only [List.insertionSort, List.orderedInsert, hnba, if_false]
      rw [merge_sorted_pair, if_neg (by omega)]
  · decide

theorem merge_ranges_fusion_witness :
    merge_ranges [⟨0x10000000, 0x10001000⟩, ⟨0x10000800, 0x10003000⟩] =
      [⟨0x10000000, max 0x10001000 0x10003000⟩] ∧
    merge_ranges [⟨0x10000000, 0x10001000⟩, ⟨0x10002000, 0x10003000⟩] =
      [⟨0x10000000, 0x10001000⟩, ⟨0x10002000, 0x10003000⟩] :=
  ⟨((merge_ranges_fusion ⟨0x10000000, 0x10001000⟩ ⟨0x10000800, 0x10003000⟩ (by decide)).1
      (by decide) (by decide) (by decide)).1,
   ((merge_ranges_fusion ⟨0x10000000, 0x10001000⟩ ⟨0x10002000, 0x10003000⟩ (by decide)).2.1
      (by decide)).1⟩

/-! ## Bounds safety of the reader -/

/-- C26: bounds safety of `read_file`.  Once the 52-byte size check has passed,
the four header reads (`read_u32` at 24 and 28, `read_u16` at 42 and 44) lie
inside the input and do not take their 'ELF file too small' branch.  For the
entry at `base = phoff + phentsize * i`, once the `base + 32` check has passed,
each of the eight `read_u32` calls at `base + 0, 4, …, 28` lies inside the input
and succeeds.  So `read_file` fails only through its explicit checks: empty
input, fewer than 52 bytes, magic, class, endianness, `phoff < 16`,
`phentsize = 0`, table size, or the per-entry check.  When `phentsize ≥ 32` the
per-entry check cannot fail after the table-size check has passed. -/
theorem read_file_bounds_safe (data : List Byte) :
    (52 ≤ data.length →
      (∀ offset ∈ [24, 28],
        offset + 4 ≤ data.length ∧ read_u32 data offset = .ok (le32_at data offset)) ∧
      (∀ offset ∈ [42, 44],
        offset + 2 ≤ data.length ∧ read_u16 data offset = .ok (le16_at data offset))) ∧
    (∀ phoff phentsize i, phoff < 2 ^ 32 → phentsize < 2 ^ 16 → i < 2 ^ 16 →
      ¬ size_t_wrap (size_t_wrap (phoff + size_t_wrap (phentsize * i)) + 32) > data.length →
      ∀ k ∈ [0, 4, 8, 12, 16, 20, 24, 28],
        size_t_wrap (size_t_wrap (phoff + size_t_wrap (phentsize * i)) + k) =
          phoff + phentsize * i + k ∧
        phoff + phentsize * i + k + 4 ≤ data.length ∧
        read_u32 data (size_t_wrap (size_t_wrap (phoff + size_t_wrap (phentsize * i)) + k)) =
          .ok (le32_at data (phoff + phentsize * i + k))) ∧
    (∀ e, read_file data = .error e →
      data = [] ∨ data.length < 52 ∨
      ¬ (byte_at data 0 = 0x7f ∧ byte_at data 1 = 0x45 ∧ byte_at data 2 = 0x4c ∧
          byte_at data 3 = 0x46) ∨
      byte_at data 4 ≠ 1 ∨ byte_at data 5 ≠ 1 ∨
      (header_at data).phoff < 16 ∨ (header_at data).phentsize = 0 ∨
      (header_at data).phoff + (header_at data).phentsize * (header_at data).phnum >
        data.length ∨
      ∃ i, i < (header_at data).phnum ∧
        (header_at data).phoff + (header_at data).phentsize * i + 32 > data.length) ∧
    (∀ phoff phentsize phnum i, phoff < 2 ^ 32 → phentsize < 2 ^ 16 → phnum < 2 ^ 16 →
      32 ≤ phentsize →
      ¬ size_t_wrap (phoff + size_t_wrap (phentsize * phnum)) > data.length →
      i < phnum →
      ¬ size_t_wrap (size_t_wrap (phoff + size_t_wrap (phentsize * i)) + 32) > data.length) ∧
    (∀ e, 32 ≤ (header_at data).phentsize → read_file data = .error e →
      data = [] ∨ data.length < 52 ∨
      ¬ (byte_at data 0 = 0x7f ∧ byte_at data 1 = 0x45 ∧ byte_at data 2 = 0x4c ∧
          byte_at data 3 = 0x46) ∨
      byte_at data 4 ≠ 1 ∨ byte_at data 5 ≠ 1 ∨
      (header_at data).phoff < 16 ∨
      (header_at data).phoff + (header_at data).phentsize * (header_at data).phnum >
        data.length) := by
  have hfail : ∀ e, read_file data = .error e →
      data = [] ∨ data.length < 52 ∨
      ¬ (byte_at data 0 = 0x7f ∧ byte_at data 1 = 0x45 ∧ byte_at data 2 = 0x4c ∧
          byte_at data 3 = 0x46) ∨
      byte_at data 4 ≠ 1 ∨ byte_at data 5 ≠ 1 ∨
      (header_at data).phoff < 16 ∨ (header_at data).phentsize = 0 ∨
      (header_at data).phoff + (header_at data).phentsize * (header_at data).phnum >
        data.length ∨
      ∃ i, i < (header_at data).phnum ∧
        (header_at data).phoff + (header_at data).phentsize * i + 32 > data.length := by
    intro e he
    by_cases hne : data = []
    · exact Or.inl hne
    right
    rcases read_file_eq data hne with ⟨_, hok⟩ | ⟨hna, _⟩
    · rw [hok] at he
      cases he
    · unfold image_accepted at hna
      by_contra hcon
      simp only [not_or] at hcon
      obtain ⟨h1, h2, h3, h4, h5, h6, h7, h8⟩ := hcon
      refine hna ⟨by omega, not_not.1 h2, not_not.1 h3, not_not.1 h4, by omega, h6, by omega, ?_⟩
      intro i hi
      by_contra hh
      exact h8 ⟨i, hi, by omega⟩
  refine ⟨?_, ?_, hfail, ?_, ?_⟩
  · intro h52
    constructor
    · intro offset ho
      simp only [List.mem_cons, List.mem_singleton, List.not_mem_nil, or_false] at ho
      rcases ho with rfl | rfl
      · exact ⟨by omega, read_u32_eq data 24 (by omega) (by omega)⟩
      · exact ⟨by omega, read_u32_eq data 28 (by omega) (by omega)⟩
    · intro offset ho
      simp only [List.mem_cons, List.mem_singleton, List.not_mem_nil, or_false] at ho
      rcases ho with rfl | rfl
      · exact ⟨by omega, read_u16_eq data 42 (by omega) (by omega)⟩
      · exact ⟨by omega, read_u16_eq data 44 (by omega) (by omega)⟩
  · intro phoff phentsize i hp he hi hcheck k hk
    have hb := ph_base_lt phoff phentsize i hp he (by omega)
    rw [ph_base_wrap phoff phentsize i hp he (by omega)] at hcheck ⊢
    rw [size_t_wrap_of_lt (by omega : phoff + phentsize * i + 32 < 2 ^ 64)] at hcheck
    have hk28 : k ≤ 28 := by
      simp only [List.mem_cons, List.mem_singleton, List.not_mem_nil, or_false] at hk
      omega
    rw [size_t_wrap_of_lt (by omega : phoff + phentsize * i + k < 2 ^ 64)]
    exact ⟨rfl, by omega, read_u32_eq data _ (by omega) (by omega)⟩
  · intro phoff phentsize phnum i hp he hn h32 htab hi
    have hb := ph_base_lt phoff phentsize i hp he (by omega)
    have hbn := ph_base_lt phoff phentsize phnum hp he (by omega)
    rw [ph_base_wrap phoff phentsize phnum hp he (by omega)] at htab
    rw [ph_base_wrap phoff phentsize i hp he (by omega),
      size_t_wrap_of_lt (by omega : phoff + phentsize * i + 32 < 2 ^ 64)]
    have hmul : phentsize * (i + 1) ≤ phentsize * phnum := Nat.mul_le_mul_left _ (by omega)
    rw [Nat.mul_succ] at hmul
    omega
  · intro e h32 he
    have hz : ¬ (header_at data).phentsize = 0 := by omega
    have hentry : (∃ i, i < (header_at data).phnum ∧
          (header_at data).phoff + (header_at data).phentsize * i + 32 > data.length) →
        (header_at data).phoff + (header_at data).phentsize * (header_at data).phnum >
          data.length := by
      rintro ⟨i, hi, hlt⟩
      have hmul : (header_at data).phentsize * (i + 1) ≤
          (header_at data).phentsize * (header_at data).phnum :=
        Nat.mul_le_mul_left _ (by omega)
      rw [Nat.mul_succ] at hmul
      omega
    refine (hfail e he).imp_right (Or.imp_right (Or.imp_right (Or.imp_right (Or.imp_right
      (Or.imp_right ?_)))))
    intro hrest
    exact hrest.elim (fun h0 => absurd h0 hz) (fun h1 => h1.elim id hentry)

/-! ## Mirror mode stays out of flash -/

/-- With flash writes not allowed, exec planning only yields SRAM addresses. -/
theorem plan_exec_in_sram (layout : MemoryLayout) (entry_point a : Nat)
    (hb : layout.flash_end + 0x10000004 ≤ 2 ^ 32)
    (h : plan_exec layout false entry_point = .ok a) :
    kSramStart ≤ a ∧ a < layout.sram_end := by
  unfold plan_exec at h
  by_cases hz : entry_point = 0
  · rw [if_pos hz] at h
    cases h
  · rw [if_neg hz] at h
    simp only [Bool.not_false, Bool.true_and] at h
    by_cases hf : is_flash_address entry_point layout = true
    · rw [if_pos hf] at h
      have hlt : entry_point < layout.flash_end := by
        unfold is_flash_address at hf
        simp only [Bool.and_eq_true, decide_eq_true_eq] at hf
        exact hf.2
      cases hm : map_flash_to_sram entry_point 4 layout with
      | none => rw [hm] at h; cases h
      | some mapped =>
        rw [hm] at h
        cases h
        obtain ⟨h1, h2, h3, h4⟩ :=
          (map_flash_to_sram_eq_some_iff entry_point 4 layout a (by omega)).1 hm
        unfold kFlashStart at h1 h2
        unfold kSramStart at h2 ⊢
        have h5 : u32 (a + 4) = a + 4 := u32_of_lt (by omega)
        rw [h5] at h4
        omega
    · rw [if_neg hf] at h
      have hf' : is_flash_address entry_point layout = false := by simpa using hf
      rw [hf'] at h
      simp only [Bool.not_false, Bool.and_true] at h
      by_cases hs : is_sram_address entry_point layout = true
      · rw [hs] at h
        simp only [Bool.not_true, Bool.false_eq_true, if_false] at h
        cases h
        unfold is_sram_address at hs
        simp only [Bool.and_eq_true, decide_eq_true_eq] at hs
        exact hs
      · have hs' : is_sram_address entry_point layout = false := by simpa using hs
        rw [hs'] at h
        simp only [Bool.not_false, if_true] at h
        cases h

/-- When exec planning succeeds, the exec stage of the IOKit loader sends EXEC
at the planned address. -/
theorem iokit_exec_stage_planned (c : ExternalConstants) (t : Transport)
    (allow_flash : Bool) (entry_point a : Nat) (r : List UsbCall × Int)
    (hr : r.2 = c.kIOReturnSuccess)
    (hexec : plan_exec rp2350_layout allow_flash entry_point = .ok a) :
    iokit_exec_stage c t allow_flash true entry_point r = picoboot_exec c t r.1 a := by
  unfold iokit_exec_stage
  unfold plan_exec at hexec
  rw [if_pos ⟨hr, rfl⟩]
  by_cases hz : entry_point = 0
  · rw [if_pos hz] at hexec
    cases hexec
  · rw [if_neg hz] at hexec ⊢
    simp only at hexec ⊢
    by_cases h1 : (!allow_flash && is_flash_address entry_point rp2350_layout) = true
    · rw [if_pos h1] at hexec ⊢
      cases hmap : map_flash_to_sram entry_point 4 rp2350_layout with
      | none =>
        rw [hmap] at hexec
        cases hexec
      | some mapped =>
        rw [hmap] at hexec
        cases hexec
        simp only
        rw [if_pos hr]
    · rw [if_neg h1] at hexec ⊢
      by_cases h2 : (!allow_flash && !is_sram_address entry_point rp2350_layout &&
          !is_flash_address entry_point rp2350_layout) = true
      · rw [if_pos h2] at hexec
        cases hexec
      · rw [if_neg h2] at hexec ⊢
        cases hexec
        simp only
        rw [if_pos hr]

/-- The calls `picoboot_exec` adds: the EXEC command and, after a failure other
than no-device, the status query. -/
theorem picoboot_exec_calls (c : ExternalConstants) (t : Transport) (log : List UsbCall)
    (addr : Nat) :
    (picoboot_exec c t log addr).1 = log ++ [UsbCall.exec addr] ∨
    (picoboot_exec c t log addr).1 = log ++ [UsbCall.exec addr, UsbCall.cmd_status] := by
  unfold picoboot_exec picoboot_get_cmd_status
  simp only
  repeat' split
  all_goals simp

/-- C28: with `allow_flash = false` the plan never touches flash and never
executes outside SRAM, under the bounds of either device family.  Whenever the
segment loop completes, the flash page map and the erase list are empty; every
operation of the dry run's trace is a RAM write or an `Exec` at an address with
`sram_start ≤ addr < sram_end`, so no `ExitXip`, `FlashErase` or `FlashWrite`
is emitted; when the dry run with `exec_after = true` succeeds, its trace ends
with such an `Exec`.  In the IOKit loader (RP2350 bounds) every EXEC command
the exec stage sends is at an address inside SRAM (the codes `kIOReturnError`
and `kIOReturnSuccess` being distinct). -/
theorem mirror_mode_stays_in_sram (layout : MemoryLayout) (elf : elf_file)
    (hl : layout = rp2040_layout ∨ layout = rp2350_layout) :
    (∀ st, plan_segments layout false elf PlanState.init elf.segments = .ok st →
      st.flash_pages = [] ∧ st.flash_erase_ranges = [] ∧
      emit_writes st = st.ram_segments.map (fun s => PlanOp.RamWrite s.1 s.2)) ∧
    (∀ exec_after, ∀ op ∈ (plan_elf layout elf false exec_after).trace,
      (∃ a d, op = PlanOp.RamWrite a d) ∨
      (∃ a, op = PlanOp.Exec a ∧ kSramStart ≤ a ∧ a < layout.sram_end)) ∧
    ((plan_elf layout elf false true).exit_code = 0 →
      ∃ a, (plan_elf layout elf false true).trace.getLast? = some (PlanOp.Exec a) ∧
        kSramStart ≤ a ∧ a < layout.sram_end) ∧
    (∀ (c : ExternalConstants) (t : Transport) (entry_point : Nat) (r : List UsbCall × Int),
      c.kIOReturnError ≠ c.kIOReturnSuccess →
      ∀ a, UsbCall.exec a ∈ (iokit_exec_stage c t false true entry_point r).1 →
        UsbCall.exec a ∈ r.1 ∨ (kSramStart ≤ a ∧ a < rp2350_layout.sram_end)) := by
  have hb : layout.flash_end + 0x10000004 ≤ 2 ^ 32 := by
    rcases hl with rfl | rfl <;> decide
  have hstate : ∀ st, plan_segments layout false elf PlanState.init elf.segments = .ok st →
      st.flash_pages = [] ∧ st.flash_erase_ranges = [] ∧
      emit_writes st = st.ram_segments.map (fun s => PlanOp.RamWrite s.1 s.2) := by
    intro st hplan
    obtain ⟨h1, h2, _⟩ := plan_mirror_state layout elf st hplan
    refine ⟨h2, h1, ?_⟩
    unfold emit_writes
    rw [h2]
    simp
  have hwrites : ∀ st, plan_segments layout false elf PlanState.init elf.segments = .ok st →
      ∀ op ∈ emit_writes st, ∃ a d, op = PlanOp.RamWrite a d := by
    intro st hplan op hop
    rw [(hstate st hplan).2.2] at hop
    obtain ⟨s, _, hs⟩ := List.mem_map.1 hop
    exact ⟨s.1, s.2, hs.symm⟩
  refine ⟨hstate, ?_, ?_, ?_⟩
  · intro exec_after op hop
    cases hplan : plan_segments layout false elf PlanState.init elf.segments with
    | error e =>
      rw [plan_elf_error layout elf false exec_after e hplan] at hop
      cases hop
    | ok st =>
      by_cases hemp : (!false && st.flash_pages.isEmpty && st.ram_segments.isEmpty) = true
      · rw [plan_elf_empty layout elf false exec_after st hplan hemp] at hop
        cases hop
      · cases exec_after with
        | false =>
          rw [plan_elf_no_exec layout elf false st hplan hemp] at hop
          exact Or.inl (hwrites st hplan op hop)
        | true =>
          cases hexec : plan_exec layout false elf.header.entry with
          | error e =>
            rw [plan_elf_exec_error layout elf false st e hplan hemp hexec] at hop
            exact Or.inl (hwrites st hplan op hop)
          | ok a =>
            rw [plan_elf_exec_ok layout elf false st a hplan hemp hexec] at hop
            rcases List.mem_append.1 hop with h | h
            · exact Or.inl (hwrites st hplan op h)
            · rw [List.mem_singleton] at h
              exact Or.inr ⟨a, h, plan_exec_in_sram layout _ a hb hexec⟩
  · intro hexit
    cases hplan : plan_segments layout false elf PlanState.init elf.segments with
    | error e =>
      rw [plan_elf_error layout elf false true e hplan] at hexit
      cases hexit
    | ok st =>
      by_cases hemp : (!false && st.flash_pages.isEmpty && st.ram_segments.isEmpty) = true
      · rw [plan_elf_empty layout elf false true st hplan hemp] at hexit
        cases hexit
      · cases hexec : plan_exec layout false elf.header.entry with
        | error e =>
          rw [plan_elf_exec_error layout elf false st e hplan hemp hexec] at hexit
          cases hexit
        | ok a =>
          rw [plan_elf_exec_ok layout elf false st a hplan hemp hexec]
          exact ⟨a, by simp, plan_exec_in_sram layout _ a hb hexec⟩
  · intro c t entry_point r hcodes a ha
    by_cases hr : r.2 = c.kIOReturnSuccess
    · cases hexec : plan_exec rp2350_layout false entry_point with
      | error e =>
        rw [iokit_exec_stage_planning_error c t false entry_point r e hcodes hr hexec] at ha
        exact Or.inl ha
      | ok a' =>
        rw [iokit_exec_stage_planned c t false entry_point a' r hr hexec] at ha
        rcases picoboot_exec_calls c t r.1 a' with h | h
        · rw [h] at ha
          rcases List.mem_append.1 ha with h' | h'
          · exact Or.inl h'
          · rw [List.mem_singleton] at h'
            cases h'
            exact Or.inr (plan_exec_in_sram rp2350_layout _ a (by decide) hexec)
        · rw [h] at ha
          rcases List.mem_append.1 ha with h' | h'
          · exact Or.inl h'
          · simp only [List.mem_cons, List.mem_singleton, List.not_mem_nil, or_false] at h'
            rcases h' with h' | h'
            · cases h'
              exact Or.inr (plan_exec_in_sram rp2350_layout _ a (by decide) hexec)
            · cases h'
    · have hstage : iokit_exec_stage c t false true entry_point r = r := by
        unfold iokit_exec_stage
        rw [if_neg (fun h => hr h.1)]
      rw [hstage] at ha
      exact Or.inl ha

set_option maxRecDepth 100000 in
theorem mirror_mode_stays_in_sram_witness :
    (plan_elf rp2040_layout mirror_elf false true).exit_code = 0 ∧
    ∃ a, (plan_elf rp2040_layout mirror_elf false true).trace.getLast? =
        some (PlanOp.Exec a) ∧ kSramStart ≤ a ∧ a < rp2040_layout.sram_end :=
  ⟨by rfl, (mirror_mode_stays_in_sram rp2040_layout mirror_elf (Or.inl rfl)).2.2.1 (by rfl)⟩

/-! ## Mirror-mode `Exec` and what was loaded -/

/-- One RAM write, when every command succeeds: the chunks of its data. -/
theorem ram_loop_single_all_ok (t : Transport) (success : Int)
    (hok : ∀ l, t.result l = success) (addr : Nat) (data : List Byte) (log : List UsbCall)
    (hd : data ≠ []) :
    ram_loop t success [(addr, data)] log success =
      (log ++ (chunks_from addr data 0).map (fun ch => UsbCall.write ch.1 ch.2), success) := by
  have hpos : 0 < data.length := List.length_pos.2 hd
  simp only [ram_loop]
  rw [write_chunks_all_ok t success addr data hok _ 0 log success rfl]
  simp only [if_pos hpos, ne_eq, not_true_eq_false, if_false]

set_option maxRecDepth 1000000 in
/-- C30: a mirror-mode `Exec` need not point at anything that was loaded.  For
`stray_exec_image` the dry run with `allow_flash = false`, `exec_after = true`
succeeds: the flash segment `0x10041F00 .. 0x10042100`, which holds the entry
point, cannot be mirrored and is skipped, the SRAM segment keeps the plan
non-empty, and the entry point is still re-pointed to
`sram_start + (entry - flash_start) = 0x20041F00`, an address that no RAM write
of the plan covers.  The IOKit loader does the same with
`stray_exec_rp2350_image` under its RP2350 bounds: on a device where every
command succeeds it writes the four bytes at `0x20000000` and then sends EXEC
at `0x20081F00`. -/
theorem mirror_exec_not_tied_to_load :
    read_file stray_exec_image = .ok stray_exec_elf ∧
    load_inputs stray_exec_elf stray_exec_elf.segments =
      [(0x10041F00, List.replicate 512 0x5a), (0x20000000, [1, 2, 3, 4])] ∧
    map_flash_to_sram 0x10041F00 512 rp2040_layout = none ∧
    run_dryrun stray_exec_image false true =
      { trace := [PlanOp.RamWrite 0x20000000 [1, 2, 3, 4], PlanOp.Exec 0x20041F00],
        mirrored := false, skipped := true, exit_code := 0 } ∧
    0x20041F00 = kSramStart + (stray_exec_elf.header.entry - kFlashStart) ∧
    (∀ a d, PlanOp.RamWrite a d ∈ (run_dryrun stray_exec_image false true).trace →
      ¬ (a ≤ 0x20041F00 ∧ 0x20041F00 < a + d.length)) ∧
    read_file stray_exec_rp2350_image = .ok stray_exec_rp2350_elf ∧
    map_flash_to_sram 0x10081F00 512 rp2350_layout = none ∧
    iokit_main sample_constants (some (0xf, 1)) all_ok (some stray_exec_rp2350_image)
        false true =
      { calls := [UsbCall.open_device 0, UsbCall.if_reset 1,
          UsbCall.write 0x20000000 [1, 2, 3, 4], UsbCall.exec 0x20081F00],
        exit_code := 0 } := by
  have hrun : run_dryrun stray_exec_image false true =
      { trace := [PlanOp.RamWrite 0x20000000 [1, 2, 3, 4], PlanOp.Exec 0x20041F00],
        mirrored := false, skipped := true, exit_code := 0 } := by rfl
  refine ⟨by rfl, by rfl, by decide, hrun, by decide, ?_, by rfl, by decide, ?_⟩
  · intro a d h
    rw [hrun] at h
    simp only [List.mem_cons, List.mem_singleton, List.not_mem_nil, or_false] at h
    rcases h with h | h
    · cases h
      decide
    · cases h
  · have hpp : parse_and_plan
        (fun elf => plan_segments rp2350_layout false elf PlanState.init elf.segments)
        (some stray_exec_rp2350_image) =
        .ok (stray_exec_rp2350_elf,
          { PlanState.init with
            ram_segments := [(0x20000000, [1, 2, 3, 4])], skipped_flash_segments := true }) := by
      rfl
    rw [iokit_main_run sample_constants (0xf, 1) all_ok (some stray_exec_rp2350_image) false true
      _ _ hpp (by decide)]
    have hw : execute_writes all_ok sample_constants.kIOReturnSuccess
        { PlanState.init with
          ram_segments := [(0x20000000, [1, 2, 3, 4])], skipped_flash_segments := true }
        [UsbCall.open_device 0, UsbCall.if_reset (0xf, 1).2] =
        ([UsbCall.open_device 0, UsbCall.if_reset 1, UsbCall.write 0x20000000 [1, 2, 3, 4]],
          sample_constants.kIOReturnSuccess) := by
      rw [execute_writes_no_pages _ _ _ _ rfl]
      exact ram_loop_single_all_ok all_ok sample_constants.kIOReturnSuccess (fun _ => rfl)
        0x20000000 [1, 2, 3, 4] _ (by decide)
    rw [hw, iokit_exec_stage_planned sample_constants all_ok false
      stray_exec_rp2350_elf.header.entry 0x20081F00 _ rfl (by rfl)]
    rfl

/-! ## The two ELF readers -/

/-- Two computations that agree up to the error raised still agree after a
step that does. -/
theorem toOption_bind_congr {ε ε' α β : Type} (x : Except ε α) (y : Except ε' α)
    (f : α → Except ε β) (g : α → Except ε' β) (hx : x.toOption = y.toOption)
    (hf : ∀ a, (f a).toOption = (g a).toOption) :
    (x >>= f).toOption = (y >>= g).toOption := by
  cases x with
  | error e =>
    cases y with
    | error e' => rfl
    | ok b => cases hx
  | ok a =>
    cases y with
    | error e' => cases hx
    | ok b =>
      cases hx
      exact hf a

theorem elf_cc_read_u16_agrees (data : List Byte) (offset : Nat) :
    (read_u16 data offset).toOption = (elf_cc.read_u16 data offset).toOption := by
  unfold read_u16 elf_cc.read_u16
  split <;> rfl

theorem elf_cc_read_u32_agrees (data : List Byte) (offset : Nat) :
    (read_u32 data offset).toOption = (elf_cc.read_u32 data offset).toOption := by
  unfold read_u32 elf_cc.read_u32
  split <;> rfl

theorem elf_cc_read_ph_entry_agrees (data : List Byte) (base : Nat) :
    (read_ph_entry data base).toOption = (elf_cc.read_ph_entry data base).toOption := by
  unfold read_ph_entry elf_cc.read_ph_entry
  split
  · rfl
  · apply toOption_bind_congr
    · exact elf_cc_read_u32_agrees _ _
    · intro _
      apply toOption_bind_congr
      · exact elf_cc_read_u32_agrees _ _
      · intro _
        apply toOption_bind_congr
        · exact elf_cc_read_u32_agrees _ _
        · intro _
          apply toOption_bind_congr
          · exact elf_cc_read_u32_agrees _ _
          · intro _
            apply toOption_bind_congr
            · exact elf_cc_read_u32_agrees _ _
            · intro _
              apply toOption_bind_congr
              · exact elf_cc_read_u32_agrees _ _
              · intro _
                apply toOption_bind_congr
                · exact elf_cc_read_u32_agrees _ _
                · intro _
                  apply toOption_bind_congr
                  · exact elf_cc_read_u32_agrees _ _
                  · intro _
                    rfl

theorem elf_cc_read_ph_table_agrees (data : List Byte) (phoff phentsize : Nat) :
    ∀ remaining i : Nat,
      (read_ph_table data phoff phentsize remaining i).toOption =
        (elf_cc.read_ph_table data phoff phentsize remaining i).toOption := by
  intro remaining
  induction remaining with
  | zero =>
    intro i
    rfl
  | succ n ih =>
    intro i
    simp only [read_ph_table, elf_cc.read_ph_table]
    apply toOption_bind_congr
    · exact elf_cc_read_ph_entry_agrees _ _
    · intro entry
      apply toOption_bind_congr
      · exact ih (i + 1)
      · intro rest
        rfl

theorem elf_cc_read_file_agrees (stream : List Byte) :
    (read_file stream).toOption = (elf_cc.read_file stream).toOption := by
  unfold read_file elf_cc.read_file
  split
  · rfl
  · simp only
    split
    · rfl
    · split
      · rfl
      · split
        · rfl
        · split
          · rfl
          · apply toOption_bind_congr
            · exact elf_cc_read_u32_agrees _ _
            · intro entry
              apply toOption_bind_congr
              · exact elf_cc_read_u32_agrees _ _
              · intro phoff
                apply toOption_bind_congr
                · exact elf_cc_read_u16_agrees _ _
                · intro phentsize
                  apply toOption_bind_congr
                  · exact elf_cc_read_u16_agrees _ _
                  · intro phnum
                    split
                    · rfl
                    · split
                      · rfl
                      · apply toOption_bind_congr
                        · exact elf_cc_read_ph_table_agrees _ _ _ _ _
                        · intro segments
                          rfl

theorem elf_cc_content_agrees (elf : elf_file) (segment : elf32_ph_entry) :
    (content elf segment).toOption = (elf_cc.content elf segment).toOption := by
  unfold content elf_cc.content
  split
  · rfl
  · split <;> rfl

/-- Agreement up to the error raised, spelt out. -/
theorem agrees_iff {ε ε' α : Type} (x : Except ε α) (y : Except ε' α)
    (h : x.toOption = y.toOption) :
    (∀ a, x = .ok a ↔ y = .ok a) ∧ ((∃ e, x = .error e) ↔ ∃ e, y = .error e) := by
  cases x with
  | error e =>
    cases y with
    | error e' =>
      exact ⟨fun a => ⟨(fun h => by cases h), (fun h => by cases h)⟩,
        ⟨fun _ => ⟨e', rfl⟩, fun _ => ⟨e, rfl⟩⟩⟩
    | ok b => cases h
  | ok a =>
    cases y with
    | error e' => cases h
    | ok b =>
      cases h
      exact ⟨fun a' => ⟨(fun h => by cases h; rfl), (fun h => by cases h; rfl)⟩,
        ⟨(fun ⟨e, he⟩ => by cases he), (fun ⟨e, he⟩ => by cases he)⟩⟩

/-- C29: the reader of `src/elf/elf_file.cpp` and the reader of
`src/load_tool/src/elf.cc` are equivalent.  For every input byte sequence,
the two `read_file` either both fail or both succeed with the same header,
segment list and bytes; for every segment, the two `content` either both fail
or both return the same bytes.  They differ only in the error raised
(`failure_error` with a code, `std::runtime_error` with a message). -/
theorem elf_readers_equivalent (stream : List Byte) :
    (∀ elf, read_file stream = .ok elf ↔ elf_cc.read_file stream = .ok elf) ∧
    ((∃ e, read_file stream = .error e) ↔ ∃ e, elf_cc.read_file stream = .error e) ∧
    (∀ (elf : elf_file) (segment : elf32_ph_entry),
      (∀ bytes, content elf segment = .ok bytes ↔ elf_cc.content elf segment = .ok bytes) ∧
      ((∃ e, content elf segment = .error e) ↔ ∃ e, elf_cc.content elf segment = .error e)) :=
  ⟨(agrees_iff _ _ (elf_cc_read_file_agrees stream)).1,
   (agrees_iff _ _ (elf_cc_read_file_agrees stream)).2,
   fun elf segment => agrees_iff _ _ (elf_cc_content_agrees elf segment)⟩

/-! ## Tokens of the PICOBOOT commands -/

/-- The `k`-th command sent from a given value of the static `token`. -/
theorem commands_sent_token (p : ProtocolConstants) (calls : List UsbCall) :
    ∀ (token k : Nat) (cmd : picoboot_cmd), token < 2 ^ 32 →
      (commands_sent p token calls)[k]? = some cmd →
      cmd.dMagic = p.PICOBOOT_MAGIC ∧ cmd.dToken = u32 (token + k) := by
  induction calls with
  | nil =>
    intro token k cmd _ h
    simp [commands_sent] at h
  | cons call rest ih =>
    intro token k cmd htoken h
    simp only [commands_sent] at h
    cases hc : command_of_call p call with
    | none =>
      rw [hc] at h
      exact ih token k cmd htoken h
    | some c0 =>
      rw [hc] at h
      simp only at h
      cases k with
      | zero =>
        simp only [List.getElem?_cons_zero, Option.some.injEq] at h
        subst h
        exact ⟨rfl, (u32_of_lt htoken).symm⟩
      | succ k =>
        simp only [List.getElem?_cons_succ] at h
        obtain ⟨hm, ht⟩ := ih _ k cmd (u32_lt _) h
        refine ⟨hm, ?_⟩
        rw [ht]
        show u32 (u32 (token + 1) + k) = u32 (token + (k + 1))
        unfold u32
        omega

/-- C23: token monotonicity.  In a load run (one process, so the static `token`
of `send_picoboot_command` starts at 1) the `k`-th PICOBOOT command sent
(`k = 1, 2, …`; a command is counted whether or not its transfer succeeds)
carries `dMagic = PICOBOOT_MAGIC` and `dToken = k` reduced to `uint32_t`; in a
run of fewer than `2 ^ 32` commands it carries `dToken = k` exactly, and any two
consecutive commands carry strictly increasing tokens.  This holds for the
commands of any sequence of calls, in particular for the runs of `load_tool`
and of `load_tool_iokit`. -/
theorem token_monotonicity (p : ProtocolConstants) (calls : List UsbCall) :
    (∀ k cmd, (commands_sent p 1 calls)[k]? = some cmd →
      cmd.dMagic = p.PICOBOOT_MAGIC ∧ cmd.dToken = u32 (k + 1)) ∧
    ((commands_sent p 1 calls).length < 2 ^ 32 →
      (∀ k cmd, (commands_sent p 1 calls)[k]? = some cmd → cmd.dToken = k + 1) ∧
      (∀ k cmd cmd', (commands_sent p 1 calls)[k]? = some cmd →
        (commands_sent p 1 calls)[k + 1]? = some cmd' → cmd.dToken < cmd'.dToken)) ∧
    (∀ (c : ExternalConstants) (devices : List libusb_device) (t : Transport)
        (file : Option (List Byte)) (allow_flash : Bool) k cmd,
      (commands_sent p 1 (load_tool_main c devices t file allow_flash).calls)[k]? = some cmd →
      cmd.dMagic = p.PICOBOOT_MAGIC ∧ cmd.dToken = u32 (k + 1)) ∧
    (∀ (c : ExternalConstants) (found : Option (Nat × Nat)) (t : Transport)
        (file : Option (List Byte)) (allow_flash exec_after : Bool) k cmd,
      (commands_sent p 1 (iokit_main c found t file allow_flash exec_after).calls)[k]? =
        some cmd →
      cmd.dMagic = p.PICOBOOT_MAGIC ∧ cmd.dToken = u32 (k + 1)) := by
  have hgen : ∀ (calls : List UsbCall) k cmd, (commands_sent p 1 calls)[k]? = some cmd →
      cmd.dMagic = p.PICOBOOT_MAGIC ∧ cmd.dToken = u32 (k + 1) := by
    intro calls k cmd h
    obtain ⟨hm, ht⟩ := commands_sent_token p calls 1 k cmd (by norm_num) h
    exact ⟨hm, by rw [ht, Nat.add_comm]⟩
  have hexact : (commands_sent p 1 calls).length < 2 ^ 32 →
      ∀ k cmd, (commands_sent p 1 calls)[k]? = some cmd → cmd.dToken = k + 1 := by
    intro hlen k cmd h
    have hk : k < (commands_sent p 1 calls).length := by
      by_contra hge
      rw [List.getElem?_eq_none (by omega)] at h
      cases h
    rw [(hgen calls k cmd h).2]
    exact u32_of_lt (by omega)
  refine ⟨hgen calls, fun hlen => ⟨hexact hlen, ?_⟩, ?_, ?_⟩
  · intro k cmd cmd' h h'
    rw [hexact hlen k cmd h, hexact hlen (k + 1) cmd' h']
    omega
  · intro c devices t file allow_flash k cmd h
    exact hgen _ k cmd h
  · intro c found t file allow_flash exec_after k cmd h
    exact hgen _ k cmd h

theorem token_monotonicity_witness :
    commands_sent sample_protocol 1
        [UsbCall.open_device 0, UsbCall.if_reset 1, UsbCall.exit_xip,
          UsbCall.flash_erase 0x10000000 0x1000, UsbCall.exec 0x20000000] =
      [{ picoboot_exit_xip_cmd sample_protocol with dMagic := 0x431fd10b, dToken := 1 },
       { picoboot_flash_erase_cmd sample_protocol 0x10000000 0x1000 with
         dMagic := 0x431fd10b, dToken := 2 },
       { picoboot_exec_cmd sample_protocol 0x20000000 with dMagic := 0x431fd10b, dToken := 3 }] ∧
    ∀ k cmd, (commands_sent sample_protocol 1
        [UsbCall.open_device 0, UsbCall.if_reset 1, UsbCall.exit_xip,
          UsbCall.flash_erase 0x10000000 0x1000, UsbCall.exec 0x20000000])[k]? = some cmd →
      cmd.dToken = k + 1 :=
  ⟨by decide,
   ((token_monotonicity sample_protocol
      [UsbCall.open_device 0, UsbCall.if_reset 1, UsbCall.exit_xip,
        UsbCall.flash_erase 0x10000000 0x1000, UsbCall.exec 0x20000000]).2.1
      (by decide)).1⟩

/-! ## `is_picoboot_interface` and the transfer type -/

/-- The result of `is_picoboot_interface` does not depend on `bmAttributes`. -/
theorem is_picoboot_interface_ignores_attributes (c : ExternalConstants)
    (desc : libusb_interface_descriptor) (attrs : libusb_endpoint_descriptor → Nat) :
    is_picoboot_interface c
        { desc with
          endpoint := desc.endpoint.map (fun ep => { ep with bmAttributes := attrs ep }) } =
      is_picoboot_interface c desc := by
  unfold is_picoboot_interface
  simp only [← List.map_take, List.foldl_map]

/-- C25: `is_picoboot_interface` of the libusb tools does not look at the
transfer type.  For a class-`0xFF` interface with two interrupt endpoints
(`bmAttributes = 3`), one IN (`0x81`) and one OUT (`0x01`), it returns true with
`ep_in = 0x81`, `ep_out = 0x01`; in general its result is the same whatever
the `bmAttributes` of the endpoints. -/
theorem is_picoboot_interface_accepts_interrupt_endpoints :
    is_picoboot_interface sample_constants interrupt_descriptor = some (0x81, 0x01) ∧
    interrupt_descriptor.bInterfaceClass = 0xff ∧ interrupt_descriptor.bNumEndpoints = 2 ∧
    (∀ ep ∈ interrupt_descriptor.endpoint, ep.bmAttributes % 4 = 3) ∧
    (∀ (c : ExternalConstants) (desc : libusb_interface_descriptor)
        (attrs : libusb_endpoint_descriptor → Nat),
      is_picoboot_interface c
          { desc with
            endpoint := desc.endpoint.map (fun ep => { ep with bmAttributes := attrs ep }) } =
        is_picoboot_interface c desc) :=
  ⟨by decide, rfl, rfl, by decide, is_picoboot_interface_ignores_attributes⟩

/-! ## The requests of a reboot run -/

/-- The calls `send_picoboot_command` of `reboot_tool` adds: the command
transfer and, when all of it was sent, the read of the acknowledgement. -/
theorem reboot_tool_send_calls (p : ProtocolConstants) (t : RebootTransport)
    (iface : PicobootInterface) (cmd : picoboot_cmd) (log : List RebootCall) :
    (reboot_tool_send_picoboot_command p t iface cmd log).1 =
        log ++ [RebootCall.send_command iface.ep_out cmd] ∨
    (reboot_tool_send_picoboot_command p t iface cmd log).1 =
        log ++ [RebootCall.send_command iface.ep_out cmd, RebootCall.read_ack iface.ep_in] := by
  unfold reboot_tool_send_picoboot_command
  simp only
  repeat' split
  all_goals simp

/-- The calls `send_picoboot_command` of `dapico-reboot` adds. -/
theorem dapico_reboot_send_calls (c : ExternalConstants) (p : ProtocolConstants)
    (t : RebootTransport) (token : Nat) (picoboot : IokitPicobootInterface)
    (cmd : picoboot_cmd) (log : List RebootCall) :
    (dapico_reboot_send_picoboot_command c p t token picoboot cmd log).1.1 =
        log ++ [RebootCall.send_command picoboot.pipe_out
          { cmd with dMagic := p.PICOBOOT_MAGIC, dToken := token }] ∨
    (dapico_reboot_send_picoboot_command c p t token picoboot cmd log).1.1 =
        log ++ [RebootCall.send_command picoboot.pipe_out
          { cmd with dMagic := p.PICOBOOT_MAGIC, dToken := token },
          RebootCall.read_ack picoboot.pipe_in] := by
  unfold dapico_reboot_send_picoboot_command
  simp only
  split
  · left; rfl
  · right; simp

/-- The run of `reboot_tool` when `libusb_open` fails. -/
theorem reboot_tool_run_open_fails (p : ProtocolConstants) (t : RebootTransport)
    (m : RebootDeviceMatch) (bootsel : Bool)
    (h : t.result [RebootCall.open_device m.device] ≠ 0) :
    reboot_tool_run p t m bootsel =
      { calls := [RebootCall.open_device m.device], exit_code := 1 } := by
  unfold reboot_tool_run
  simp only
  rw [if_pos h]

/-- The run of `reboot_tool` through the PICOBOOT interface. -/
theorem reboot_tool_run_picoboot (p : ProtocolConstants) (t : RebootTransport)
    (m : RebootDeviceMatch) (pb : PicobootInterface) (hpb : m.picoboot = some pb)
    (hopen : t.result [RebootCall.open_device m.device] = 0) :
    reboot_tool_run p t m false =
      { calls := (reboot_tool_reboot_via_picoboot p t m.product_id pb false
          [RebootCall.open_device m.device]).1,
        exit_code := if (reboot_tool_reboot_via_picoboot p t m.product_id pb false
          [RebootCall.open_device m.device]).2 = 0 then 0 else 1 } := by
  unfold reboot_tool_run
  simp only [hopen, ne_eq, not_true_eq_false, if_false, hpb, Bool.false_eq_true]

/-- The run of `reboot_tool` through the reset interface. -/
theorem reboot_tool_run_reset (p : ProtocolConstants) (t : RebootTransport)
    (m : RebootDeviceMatch) (rs : ResetInterface) (bootsel : Bool) (hrs : m.reset = some rs)
    (hsel : bootsel = true ∨ m.picoboot = none)
    (hopen : t.result [RebootCall.open_device m.device] = 0) :
    reboot_tool_run p t m bootsel =
      { calls := (reboot_tool_reboot_via_reset_interface p t rs bootsel
          [RebootCall.open_device m.device]).1,
        exit_code := if (reboot_tool_reboot_via_reset_interface p t rs bootsel
          [RebootCall.open_device m.device]).2 = 0 then 0 else 1 } := by
  unfold reboot_tool_run
  cases bootsel with
  | true => simp only [hopen, ne_eq, not_true_eq_false, if_false, hrs, if_true]
  | false =>
    rcases hsel with h | h
    · cases h
    · simp only [hopen, ne_eq, not_true_eq_false, if_false, hrs, h, Bool.false_eq_true]

/-- What `reboot_via_reset_interface` of `reboot_tool` does. -/
theorem reboot_tool_reset_calls (p : ProtocolConstants) (t : RebootTransport)
    (rs : ResetInterface) (bootsel : Bool) (log : List RebootCall) :
    (t.result (log ++ [RebootCall.claim_interface rs.interface_number]) = 0 →
      (reboot_tool_reboot_via_reset_interface p t rs bootsel log).1 =
        log ++ [RebootCall.claim_interface rs.interface_number,
          RebootCall.control_request
            (p.LIBUSB_REQUEST_TYPE_CLASS ||| p.LIBUSB_RECIPIENT_INTERFACE)
            (if bootsel then p.RESET_REQUEST_BOOTSEL else p.RESET_REQUEST_FLASH)
            0 rs.interface_number 0,
          RebootCall.release_interface rs.interface_number]) ∧
    (t.result (log ++ [RebootCall.claim_interface rs.interface_number]) ≠ 0 →
      (reboot_tool_reboot_via_reset_interface p t rs bootsel log).1 =
        log ++ [RebootCall.claim_interface rs.interface_number] ∧
      (reboot_tool_reboot_via_reset_interface p t rs bootsel log).2 ≠ 0) := by
  unfold reboot_tool_reboot_via_reset_interface
  constructor
  · intro h
    simp only [h, ne_eq, not_true_eq_false, if_false, List.append_assoc, List.cons_append,
      List.nil_append]
  · intro h
    simp only [ne_eq, h, not_false_eq_true, if_true, and_self]

/-- What `reboot_via_picoboot` of `reboot_tool` does on a normal reboot. -/
theorem reboot_tool_picoboot_calls (p : ProtocolConstants) (t : RebootTransport)
    (product_id : Nat) (pb : PicobootInterface) (log : List RebootCall) :
    control_requests (reboot_tool_reboot_via_picoboot p t product_id pb false log).1 =
      control_requests log ∧
    (t.result (log ++ [RebootCall.claim_interface pb.interface_number]) = 0 →
      picoboot_commands (reboot_tool_reboot_via_picoboot p t product_id pb false log).1 =
        picoboot_commands log ++
          [reboot_command p product_id
            { picoboot_cmd.zero with dMagic := p.PICOBOOT_MAGIC, dToken := 1 }]) ∧
    (t.result (log ++ [RebootCall.claim_interface pb.interface_number]) ≠ 0 →
      picoboot_commands (reboot_tool_reboot_via_picoboot p t product_id pb false log).1 =
        picoboot_commands log ∧
      (reboot_tool_reboot_via_picoboot p t product_id pb false log).2 ≠ 0) := by
  have hc : ∀ (l l' : List RebootCall), control_requests (l ++ l') =
      control_requests l ++ control_requests l' := by
    intro l l'
    induction l with
    | nil => rfl
    | cons a rest ih => cases a <;> simp [control_requests, ih]
  have hp : ∀ (l l' : List RebootCall), picoboot_commands (l ++ l') =
      picoboot_commands l ++ picoboot_commands l' := by
    intro l l'
    induction l with
    | nil => rfl
    | cons a rest ih => cases a <;> simp [picoboot_commands, ih]
  unfold reboot_tool_reboot_via_picoboot
  simp only [Bool.false_eq_true, if_false]
  by_cases hclaim : t.result (log ++ [RebootCall.claim_interface pb.interface_number]) = 0
  · simp only [hclaim, ne_eq, not_true_eq_false, if_false, not_false_eq_true, true_implies,
      false_implies, and_true]
    rcases reboot_tool_send_calls p t pb
        (reboot_command p product_id
          { picoboot_cmd.zero with dMagic := p.PICOBOOT_MAGIC, dToken := 1, dTransferLength := 0 })
        (log ++ [RebootCall.claim_interface pb.interface_number]) with h | h
    · rw [h]
      simp [hc, hp, control_requests, picoboot_commands, picoboot_cmd.zero]
    · rw [h]
      simp [hc, hp, control_requests, picoboot_commands, picoboot_cmd.zero]
  · simp only [hclaim, ne_eq, not_false_eq_true, if_true, true_implies, false_implies, true_and,
      and_true]
    simp [hc, hp, control_requests, picoboot_commands]

/-- C21 (amended): the request of a normal (non-BOOTSEL) reboot run.
`reboot_tool`: if the matched device has a PICOBOOT interface, no control
request is made, and provided `libusb_open` and the claim of the PICOBOOT
interface succeed exactly one PICOBOOT command is sent, REBOOT2 with
`dFlags = REBOOT_TYPE_NORMAL`, `dDelayMS = 500`, `dParam0 = dParam1 = 0` for
product `0x000F` and REBOOT with `dPC = 0`, `dSP = 0`, `dDelayMS = 500` otherwise,
with `dTransferLength = 0`; if either fails nothing is sent and the run fails.
If the device has no PICOBOOT interface but a reset interface, no PICOBOOT
command is sent, and provided opening and claiming succeed exactly one control
request `RESET_REQUEST_FLASH` is made on the reset interface; if either fails
none is made and the run fails.  With neither interface the run fails without
sending anything.  `dapico-reboot`, whose `find_device` has already opened the
device and its interfaces, always sends the one command, or makes the one
control request; with neither interface it sends nothing and the run fails. -/
theorem normal_reboot_request (c : ExternalConstants) (p : ProtocolConstants)
    (t : RebootTransport) :
    (∀ cmd : picoboot_cmd,
      reboot_command p 0x000f cmd =
        { cmd with bCmdId := p.PC_REBOOT2, bCmdSize := p.sizeof_reboot2_cmd,
                   args := .reboot2_cmd p.REBOOT2_FLAG_REBOOT_TYPE_NORMAL 500 0 0 } ∧
      ∀ product_id, product_id ≠ 0x000f →
        reboot_command p product_id cmd =
          { cmd with bCmdId := p.PC_REBOOT, bCmdSize := p.sizeof_reboot_cmd,
                     args := .reboot_cmd 0 0 500 }) ∧
    (∀ (m : RebootDeviceMatch) (pb : PicobootInterface), m.picoboot = some pb →
      control_requests (reboot_tool_run p t m false).calls = [] ∧
      (t.result [RebootCall.open_device m.device] = 0 →
        t.result [RebootCall.open_device m.device,
          RebootCall.claim_interface pb.interface_number] = 0 →
        picoboot_commands (reboot_tool_run p t m false).calls =
          [reboot_command p m.product_id
            { dMagic := p.PICOBOOT_MAGIC, dToken := 1, bCmdId := 0, bCmdSize := 0,
              dTransferLength := 0, args := .zero }]) ∧
      (¬ (t.result [RebootCall.open_device m.device] = 0 ∧
          t.result [RebootCall.open_device m.device,
            RebootCall.claim_interface pb.interface_number] = 0) →
        picoboot_commands (reboot_tool_run p t m false).calls = [] ∧
        (reboot_tool_run p t m false).exit_code = 1)) ∧
    (∀ (m : RebootDeviceMatch) (rs : ResetInterface), m.picoboot = none → m.reset = some rs →
      picoboot_commands (reboot_tool_run p t m false).calls = [] ∧
      (t.result [RebootCall.open_device m.device] = 0 →
        t.result [RebootCall.open_device m.device,
          RebootCall.claim_interface rs.interface_number] = 0 →
        control_requests (reboot_tool_run p t m false).calls =
          [RebootCall.control_request
            (p.LIBUSB_REQUEST_TYPE_CLASS ||| p.LIBUSB_RECIPIENT_INTERFACE)
            p.RESET_REQUEST_FLASH 0 rs.interface_number 0]) ∧
      (¬ (t.result [RebootCall.open_device m.device] = 0 ∧
          t.result [RebootCall.open_device m.device,
            RebootCall.claim_interface rs.interface_number] = 0) →
        control_requests (reboot_tool_run p t m false).calls = [] ∧
        (reboot_tool_run p t m false).exit_code = 1)) ∧
    (∀ m : RebootDeviceMatch, m.picoboot = none → m.reset = none →
      picoboot_commands (reboot_tool_run p t m false).calls = [] ∧
      control_requests (reboot_tool_run p t m false).calls = [] ∧
      (reboot_tool_run p t m false).exit_code = 1) ∧
    (∀ (m : IokitDeviceMatch) (pb : IokitPicobootInterface), m.picoboot = some pb →
      picoboot_commands (dapico_reboot_run c p t m false).calls =
        [reboot_command p m.product_id
          { dMagic := p.PICOBOOT_MAGIC, dToken := 1, bCmdId := 0, bCmdSize := 0,
            dTransferLength := 0, args := .zero }] ∧
      control_requests (dapico_reboot_run c p t m false).calls = []) ∧
    (∀ (m : IokitDeviceMatch) (rs : ResetInterface), m.picoboot = none → m.reset = some rs →
      (dapico_reboot_run c p t m false).calls =
        [RebootCall.control_request
          (p.USBmakebmRequestType p.kUSBOut p.kUSBVendor p.kUSBInterface)
          p.RESET_REQUEST_FLASH 0 rs.interface_number 0]) ∧
    (∀ m : IokitDeviceMatch, m.picoboot = none → m.reset = none →
      c.kIOReturnError ≠ c.kIOReturnSuccess →
      dapico_reboot_run c p t m false = { calls := [], exit_code := 1 }) := by
  refine ⟨?_, ?_, ?_, ?_, ?_, ?_, ?_⟩
  · intro cmd
    constructor
    · unfold reboot_command
      rw [if_pos (by rfl)]
    · intro product_id h
      unfold reboot_command
      rw [if_neg (by simpa [kProductIdRp2350UsbBoot] using h)]
  · intro m pb hpb
    by_cases hopen : t.result [RebootCall.open_device m.device] = 0
    · have hrun := reboot_tool_run_picoboot p t m pb hpb hopen
      obtain ⟨h1, h2, h3⟩ := reboot_tool_picoboot_calls p t m.product_id pb
        [RebootCall.open_device m.device]
      rw [hrun]
      refine ⟨by simpa [control_requests] using h1, ?_, ?_⟩
      · intro _ hclaim
        simpa [picoboot_commands, picoboot_cmd.zero] using h2 hclaim
      · intro hnot
        have hclaim : t.result ([RebootCall.open_device m.device] ++
            [RebootCall.claim_interface pb.interface_number]) ≠ 0 := fun h => hnot ⟨hopen, h⟩
        obtain ⟨h4, h5⟩ := h3 hclaim
        exact ⟨by simpa [picoboot_commands] using h4, by simp only [if_neg h5]⟩
    · rw [reboot_tool_run_open_fails p t m false hopen]
      exact ⟨rfl, fun h => absurd h hopen, fun _ => ⟨rfl, rfl⟩⟩
  · intro m rs hpb hrs
    by_cases hopen : t.result [RebootCall.open_device m.device] = 0
    · have hrun := reboot_tool_run_reset p t m rs false hrs (Or.inr hpb) hopen
      obtain ⟨h1, h2⟩ := reboot_tool_reset_calls p t rs false [RebootCall.open_device m.device]
      rw [hrun]
      by_cases hclaim : t.result ([RebootCall.open_device m.device] ++
          [RebootCall.claim_interface rs.interface_number]) = 0
      · rw [h1 hclaim]
        refine ⟨by simp [picoboot_commands], ?_, ?_⟩
        · intro _ _
          simp [control_requests]
        · intro hnot
          exact absurd ⟨hopen, hclaim⟩ hnot
      · obtain ⟨h3, h4⟩ := h2 hclaim
        rw [h3]
        refine ⟨by simp [picoboot_commands], ?_, ?_⟩
        · intro _ h
          exact absurd h hclaim
        · intro _
          exact ⟨by simp [control_requests], by simp only [if_neg h4]⟩
    · rw [reboot_tool_run_open_fails p t m false hopen]
      exact ⟨rfl, fun h => absurd h hopen, fun _ => ⟨rfl, rfl⟩⟩
  · intro m hpb hrs
    by_cases hopen : t.result [RebootCall.open_device m.device] = 0
    · unfold reboot_tool_run
      simp [hopen, hpb, hrs, picoboot_commands, control_requests]
    · rw [reboot_tool_run_open_fails p t m false hopen]
      exact ⟨rfl, rfl, rfl⟩
  · intro m pb hpb
    unfold dapico_reboot_run dapico_reboot_reboot_via_picoboot
    simp only [Bool.false_eq_true, if_false, hpb]
    rcases dapico_reboot_send_calls c p t 1 pb
        (reboot_command p m.product_id { picoboot_cmd.zero with dTransferLength := 0 }) [] with
      h | h
    · rw [h]
      unfold reboot_command
      split <;> simp [picoboot_commands, control_requests, picoboot_cmd.zero]
    · rw [h]
      unfold reboot_command
      split <;> simp [picoboot_commands, control_requests, picoboot_cmd.zero]
  · intro m rs hpb hrs
    unfold dapico_reboot_run dapico_reboot_reboot_via_reset_interface
    simp [hpb, hrs]
  · intro m hpb hrs hcodes
    unfold dapico_reboot_run
    simp [hpb, hrs, hcodes]

/-- C21: a device with a PICOBOOT interface whose interface cannot be claimed
(`libusb_claim_interface` fails): `reboot_tool` sends no PICOBOOT command on
the normal reboot and exits with 1. -/
theorem reboot_tool_sends_nothing_when_claim_fails :
    reboot_tool_find_device sample_constants [raspberry_device 3] =
      some { device := 0, product_id := 3,
             picoboot := some { interface_number := 1, ep_in := 0x84, ep_out := 0x03 },
             reset := none } ∧
    reboot_tool_main sample_constants sample_protocol [raspberry_device 3] reboot_claim_fails
        false =
      { calls := [RebootCall.open_device 0, RebootCall.claim_interface 1], exit_code := 1 } ∧
    picoboot_commands (reboot_tool_main sample_constants sample_protocol [raspberry_device 3]
      reboot_claim_fails false).calls = [] := by
  refine ⟨?_, ?_, ?_⟩ <;> rfl

theorem normal_reboot_request_witness :
    picoboot_commands (reboot_tool_run sample_protocol reboot_all_ok
        { device := 0, product_id := 0x000f,
          picoboot := some { interface_number := 1, ep_in := 0x84, ep_out := 0x03 },
          reset := none } false).calls =
      [reboot_command sample_protocol 0x000f
        { dMagic := sample_protocol.PICOBOOT_MAGIC, dToken := 1, bCmdId := 0, bCmdSize := 0,
          dTransferLength := 0, args := .zero }] ∧
    reboot_command sample_protocol 0x000f
        { dMagic := sample_protocol.PICOBOOT_MAGIC, dToken := 1, bCmdId := 0, bCmdSize := 0,
          dTransferLength := 0, args := .zero } =
      { dMagic := 0x431fd10b, dToken := 1, bCmdId := 10, bCmdSize := 16, dTransferLength := 0,
        args := .reboot2_cmd 0 500 0 0 } :=
  ⟨((normal_reboot_request sample_constants sample_protocol reboot_all_ok).2.1
      { device := 0, product_id := 0x000f,
        picoboot := some { interface_number := 1, ep_in := 0x84, ep_out := 0x03 },
        reset := none }
      { interface_number := 1, ep_in := 0x84, ep_out := 0x03 } rfl).2.1 rfl rfl,
   by decide⟩

/-- C22: on the BOOTSEL reboot of a device with a reset interface (number 2),
with every call succeeding, the one control request `reboot_tool` makes has
`bmRequestType = LIBUSB_REQUEST_TYPE_CLASS | LIBUSB_RECIPIENT_INTERFACE = 0x21`,
whose type field is 1 (class), not 2 (vendor); the request is otherwise as
claimed (interface recipient, host to device, `bRequest = RESET_REQUEST_BOOTSEL`,
`wValue = 0`, `wIndex = 2`, no data, no PICOBOOT command).  For a device with
the same reset interface `dapico-reboot` makes the request with
`bmRequestType = USBmakebmRequestType(kUSBOut, kUSBVendor, kUSBInterface) = 0x41`,
whose type field is 2 (vendor). -/
theorem reboot_tool_reset_request_is_class_type :
    reboot_tool_find_device sample_constants [stdio_device] =
      some { device := 0, product_id := 0x000a, picoboot := none,
             reset := some { interface_number := 2 } } ∧
    reboot_tool_main sample_constants sample_protocol [stdio_device] reboot_all_ok true =
      { calls := [RebootCall.open_device 0, RebootCall.claim_interface 2,
          RebootCall.control_request 0x21 1 0 2 0, RebootCall.release_interface 2],
        exit_code := 0 } ∧
    sample_protocol.LIBUSB_REQUEST_TYPE_CLASS ||| sample_protocol.LIBUSB_RECIPIENT_INTERFACE =
      0x21 ∧
    sample_protocol.RESET_REQUEST_BOOTSEL = 1 ∧
    request_type_field 0x21 = 1 ∧ request_recipient_field 0x21 = 1 ∧
    request_direction_field 0x21 = 0 ∧
    picoboot_commands (reboot_tool_main sample_constants sample_protocol [stdio_device]
      reboot_all_ok true).calls = [] ∧
    dapico_reboot_run sample_constants sample_protocol reboot_all_ok
        { product_id := 0x000a, picoboot := none, reset := some { interface_number := 2 } }
        true =
      { calls := [RebootCall.control_request 0x41 1 0 2 0], exit_code := 0 } ∧
    request_type_field 0x41 = 2 ∧ request_recipient_field 0x41 = 1 ∧
    request_direction_field 0x41 = 0 := by
  refine ⟨?_, ?_, ?_, ?_, ?_, ?_, ?_, ?_, ?_, ?_, ?_, ?_⟩ <;> rfl

/-- What the two reboot tools send on a reboot run targeting BOOTSEL, for a
matched device with a reset interface (whether or not it also has a PICOBOOT
interface).  No PICOBOOT command is sent.  `reboot_tool`: provided
`libusb_open` and the claim of the reset interface succeed, exactly one control
request is made, with
`bmRequestType = LIBUSB_REQUEST_TYPE_CLASS | LIBUSB_RECIPIENT_INTERFACE`,
`bRequest = RESET_REQUEST_BOOTSEL`, `wValue = 0`, `wIndex` the reset interface
number and no data; if either fails none is made and the run fails.
`dapico-reboot`: exactly one control request is made, the same but with
`bmRequestType = USBmakebmRequestType(kUSBOut, kUSBVendor, kUSBInterface)`.
With the values the headers give the constants the type field of the first
is 1 (class) and of the second 2 (vendor): the two tools differ. -/
theorem bootsel_reboot_request (c : ExternalConstants) (p : ProtocolConstants)
    (t : RebootTransport) :
    (∀ (m : RebootDeviceMatch) (rs : ResetInterface), m.reset = some rs →
      picoboot_commands (reboot_tool_run p t m true).calls = [] ∧
      (t.result [RebootCall.open_device m.device] = 0 →
        t.result [RebootCall.open_device m.device,
          RebootCall.claim_interface rs.interface_number] = 0 →
        control_requests (reboot_tool_run p t m true).calls =
          [RebootCall.control_request
            (p.LIBUSB_REQUEST_TYPE_CLASS ||| p.LIBUSB_RECIPIENT_INTERFACE)
            p.RESET_REQUEST_BOOTSEL 0 rs.interface_number 0]) ∧
      (¬ (t.result [RebootCall.open_device m.device] = 0 ∧
          t.result [RebootCall.open_device m.device,
            RebootCall.claim_interface rs.interface_number] = 0) →
        control_requests (reboot_tool_run p t m true).calls = [] ∧
        (reboot_tool_run p t m true).exit_code = 1)) ∧
    (∀ (m : IokitDeviceMatch) (rs : ResetInterface), m.reset = some rs →
      (dapico_reboot_run c p t m true).calls =
        [RebootCall.control_request
          (p.USBmakebmRequestType p.kUSBOut p.kUSBVendor p.kUSBInterface)
          p.RESET_REQUEST_BOOTSEL 0 rs.interface_number 0]) ∧
    request_type_field
      (sample_protocol.LIBUSB_REQUEST_TYPE_CLASS ||| sample_protocol.LIBUSB_RECIPIENT_INTERFACE) =
        1 ∧
    request_type_field
      (sample_protocol.USBmakebmRequestType sample_protocol.kUSBOut sample_protocol.kUSBVendor
        sample_protocol.kUSBInterface) = 2 ∧
    request_recipient_field
      (sample_protocol.USBmakebmRequestType sample_protocol.kUSBOut sample_protocol.kUSBVendor
        sample_protocol.kUSBInterface) = 1 ∧
    request_direction_field
      (sample_protocol.USBmakebmRequestType sample_protocol.kUSBOut sample_protocol.kUSBVendor
        sample_protocol.kUSBInterface) = 0 := by
  refine ⟨?_, ?_, by rfl, by rfl, by rfl, by rfl⟩
  · intro m rs hrs
    by_cases hopen : t.result [RebootCall.open_device m.device] = 0
    · have hrun := reboot_tool_run_reset p t m rs true hrs (Or.inl rfl) hopen
      obtain ⟨h1, h2⟩ := reboot_tool_reset_calls p t rs true [RebootCall.open_device m.device]
      rw [hrun]
      by_cases hclaim : t.result ([RebootCall.open_device m.device] ++
          [RebootCall.claim_interface rs.interface_number]) = 0
      · rw [h1 hclaim]
        refine ⟨by simp [picoboot_commands], ?_, ?_⟩
        · intro _ _
          simp [control_requests]
        · intro hnot
          exact absurd ⟨hopen, hclaim⟩ hnot
      · obtain ⟨h3, h4⟩ := h2 hclaim
        rw [h3]
        refine ⟨by simp [picoboot_commands], ?_, ?_⟩
        · intro _ h
          exact absurd h hclaim
        · intro _
          exact ⟨by simp [control_requests], by simp only [if_neg h4]⟩
    · rw [reboot_tool_run_open_fails p t m true hopen]
      exact ⟨rfl, fun h => absurd h hopen, fun _ => ⟨rfl, rfl⟩⟩
  · intro m rs hrs
    unfold dapico_reboot_run dapico_reboot_reboot_via_reset_interface
    simp [hrs]

theorem bootsel_reboot_request_sample :
    control_requests (reboot_tool_run sample_protocol reboot_all_ok
        { device := 0, product_id := 0x000a, picoboot := none,
          reset := some { interface_number := 2 } } true).calls =
      [RebootCall.control_request
        (sample_protocol.LIBUSB_REQUEST_TYPE_CLASS ||| sample_protocol.LIBUSB_RECIPIENT_INTERFACE)
        sample_protocol.RESET_REQUEST_BOOTSEL 0 2 0] ∧
    (dapico_reboot_run sample_constants sample_protocol reboot_all_ok
        { product_id := 0x000a, picoboot := none, reset := some { interface_number := 2 } }
        true).calls =
      [RebootCall.control_request 0x41 1 0 2 0] :=
  ⟨((bootsel_reboot_request sample_constants sample_protocol reboot_all_ok).1
      { device := 0, product_id := 0x000a, picoboot := none,
        reset := some { interface_number := 2 } }
      { interface_number := 2 } rfl).2.1 rfl rfl,
   (bootsel_reboot_request sample_constants sample_protocol reboot_all_ok).2.1
      { product_id := 0x000a, picoboot := none, reset := some { interface_number := 2 } }
      { interface_number := 2 } rfl⟩

end Dapico
